import Mathlib

/-!
# DC-bot: Kelly staking engine and bet lifecycle

A shallow embedding of `kellyLogic.js`, `kellyBankrollManager.js`,
`kellyBetManager.js` and `getBasicStats` of `kellyStatsManager.js`.

Modelling conventions

* JavaScript numbers are embedded as exact rationals (`ℚ`): every arithmetic
  step is exact, there is no rounding error, no `NaN` and no infinity among
  the values of type `ℚ`.  Where the source can produce `NaN` from a missing
  field, the computed number is an `Option ℚ` and `none` stands for `NaN`.
* `calculateKellyStakeDouble` is the stake calculator in the arithmetic of the
  code: the result of every operation is rounded to the nearest double
  (`toDouble`, ties to even).  It is used to show where the code departs
  from the exact formula; the statements about `calculateKellyStake` are
  statements in exact arithmetic.
* A value that the source tests with `typeof x !== 'number'`, `x === null` or
  `x === undefined` is an `Option ℚ`; `none` stands for "not a number /
  absent".  The callers in `kellyIndex.js` reject a `NaN` stake or return
  before they call the bet manager.
* `Math.round x` is `⌊x + 1/2⌋` (halves go up).
* The two JSON files are the fields `bankroll` and `bets` of `World`; reads
  succeed and return the file's content (`bankroll` is the number that
  `getBankrollData()` reads).  Each `fs.writeFileSync` consumes one
  entry of the script `World.writes` (`true`: the write happens, `false`: it
  throws and the file keeps its content); an exhausted script means that the
  write succeeds.
* `Math.random` and `new Date()` are parameters (`cands`, `now`); so is
  `parseFloat` on strings in `editBet`, whose update values are strings, as
  the `/editbet` handler passes them.
* `deductStakeJs` and `addWinningsJs` embed the two ledger functions on every
  value of an amount (`JsAmount`: `null`, `undefined`, `NaN`, the infinities,
  the finite numbers); `deductStake` and `addWinnings` are the same functions
  on the finite and absent amounts that the bet manager passes.
* `editBetAny` is `editBet` on update values that are strings or absent
  (`null`, `undefined`); it is the embedding that `Call.edit` runs.
* A state "reached by successful calls" is `runCalls w calls = some w1`: the
  calls of the list are made one after the other and every one of them
  returns.  `LedgerConserved B0 w` is the conservation equation of the
  ledger.
* In `getBasicStats` the clock is the parameter `Clock` (the time of the
  call, the local midnight, and `new Date(s)` on the timestamps, in
  milliseconds); `toLowerCase` is the JavaScript function on strings whose
  upper-case letters are ASCII.  In `initNewBet` the conversion of an odds
  value to text inside the error message is the parameter `render`.
* A thrown `Error` is the `Except.error` of a result; the wrapper messages
  (`Settlement failed for bet ...: <inner message>`) keep the inner reason and
  so does the model.
-/

namespace DCBot

/-! ## kellyLogic.js -/

/-- JavaScript `Math.round`: the nearest integer, halves rounded up. -/
def Math_round (x : ℚ) : ℤ := ⌊x + 1 / 2⌋

/-- Embedding of `calculateKellyStake({ bankroll, impliedOdds, fairOdds })`.
For a number `x` the test `!x` is `x = 0`. -/
def calculateKellyStake (bankroll impliedOdds fairOdds : ℚ) : ℚ :=
  if bankroll = 0 ∨ bankroll ≤ 0 ∨ impliedOdds = 0 ∨ impliedOdds ≤ 1 ∨
      fairOdds = 0 ∨ fairOdds ≤ 1 then 0
  else
    let expectedValue := impliedOdds / fairOdds - 1
    if expectedValue ≤ 0 then 0
    else
      let denominator := impliedOdds - 1
      if denominator ≤ 0 then 0
      else
        let rawKellyFraction := expectedValue / denominator
        let rawKellyStake := bankroll * rawKellyFraction
        let fraction : ℚ := 1 / 4
        let stake := rawKellyStake * fraction
        let cap := bankroll * (1 / 100)
        let stake := if stake > cap then cap else stake
        let stake := ((Math_round (stake * 2) : ℤ) : ℚ) / 2
        let stake := if stake > 0 ∧ stake < 1 / 2 then 1 / 2 else stake
        let stake := if stake < 0 then 0 else stake
        stake

/-- The quarter-Kelly stake before the cap: `bankroll * (ev / (backOdds - 1)) * (1/4)`
(the value of `stake` after line 38 of `kellyLogic.js`). -/
def quarterKelly (bankroll backOdds fairOdds : ℚ) : ℚ :=
  bankroll * ((backOdds / fairOdds - 1) / (backOdds - 1)) * (1 / 4)

/-! ## kellyLogic.js in double arithmetic

The embedding `calculateKellyStake` above carries out every operation exactly.  The embedding
of this section rounds the result of every operation to the nearest double, as the JavaScript
operators do.  A double is a rational here; overflow to an infinity and the reduced precision
of subnormal numbers are not modelled, so the section is about operands and results of
ordinary size. -/

/-- Rounding to the nearest integer, ties to the even one. -/
def roundHalfEven (x : ℚ) : ℤ :=
  let n : ℤ := ⌊x + 1 / 2⌋
  if x + 1 / 2 = n ∧ n % 2 = 1 then n - 1 else n

/-- The double nearest to `q` (ties to the even significand): `q` is scaled by the power of
two that brings it into `[2^52, 2^53)`, rounded to an integer and scaled back. -/
def toDouble (q : ℚ) : ℚ :=
  if q = 0 then 0
  else
    let e : ℤ := Int.log 2 |q| - 52
    (roundHalfEven (q / 2 ^ e) : ℚ) * 2 ^ e

/-- Embedding of `calculateKellyStake({ bankroll, impliedOdds, fairOdds })` in double
arithmetic, for arguments that are doubles: the result of every `/`, `-` and `*` is rounded by
`toDouble`, the literal `0.01` is the double nearest to 1/100, and `Math.round` is exact. -/
def calculateKellyStakeDouble (bankroll impliedOdds fairOdds : ℚ) : ℚ :=
  if bankroll = 0 ∨ bankroll ≤ 0 ∨ impliedOdds = 0 ∨ impliedOdds ≤ 1 ∨
      fairOdds = 0 ∨ fairOdds ≤ 1 then 0
  else
    let expectedValue := toDouble (toDouble (impliedOdds / fairOdds) - 1)
    if expectedValue ≤ 0 then 0
    else
      let denominator := toDouble (impliedOdds - 1)
      if denominator ≤ 0 then 0
      else
        let rawKellyFraction := toDouble (expectedValue / denominator)
        let rawKellyStake := toDouble (bankroll * rawKellyFraction)
        let fraction : ℚ := toDouble (1 / 4)
        let stake := toDouble (rawKellyStake * fraction)
        let cap := toDouble (bankroll * toDouble (1 / 100))
        let stake := if stake > cap then cap else stake
        let stake := toDouble (((Math_round (toDouble (stake * 2)) : ℤ) : ℚ) / 2)
        let stake := if stake > 0 ∧ stake < 1 / 2 then 1 / 2 else stake
        let stake := if stake < 0 then 0 else stake
        stake

/-! ## Persisted state -/

/-- The reason of a thrown `Error`, named after the error taxonomy of the specification. -/
inductive Err where
  | invalidAmount
  | insufficientFunds
  | persistence
  | invalidStake
  | idGenerationFailed
  | notFound
  | alreadySettled
  | alreadyPending
  | invalidOdds
  | invalidReturn
  | unknownOutcome
  | unrecognizedStatus
  | invalidBankrollData
  | invalidField
  | invalidValue
  deriving DecidableEq, Repr

/-- A record of `kellyBets.json`.  `backodds` and `fairodds` are the lower-case keys that an
object of the file can carry besides the camel-case ones; `is2pc`, `evPercent` and
`combinedOdds` are the keys of older records, which no function of the repository writes and
`unsettleBet` deletes; an absent key is `none`. -/
structure Bet where
  id : String
  bookmaker : String
  sport : String
  betName : String
  backOdds : Option ℚ
  fairOdds : Option ℚ
  stake : ℚ
  status : String
  timestamp : String
  commission : Option ℚ := none
  profitLoss : Option ℚ := none
  partialReturn : Option ℚ := none
  backodds : Option ℚ := none
  fairodds : Option ℚ := none
  is2pc : Option Bool := none
  evPercent : Option ℚ := none
  combinedOdds : Option ℚ := none
  deriving DecidableEq, Repr

/-- The structured bet fields handed to `initNewBet` / `finalizeNewBet`. -/
structure BetInput where
  bookmaker : String
  sport : String
  betName : String
  backOdds : Option ℚ
  fairOdds : Option ℚ
  commission : Option ℚ := none
  calculationError : Option String := none
  deriving DecidableEq, Repr

/-- The persisted state (`kellyBankroll.json`, `kellyBets.json`) and the script of the outcomes
of the upcoming file writes. -/
structure World where
  bankroll : ℚ
  bets : List Bet
  writes : List Bool := []
  deriving DecidableEq, Repr

/-- Every upcoming file write succeeds. -/
def AllWritesSucceed (w : World) : Prop := ∀ b ∈ w.writes, b = true

instance (w : World) : Decidable (AllWritesSucceed w) := by
  unfold AllWritesSucceed
  infer_instance

/-! ## kellyBankrollManager.js -/

/-- Embedding of `saveBankrollData({ ...data, bankroll })`: the value is a number, so the
format check passes, and the outcome is that of `fs.writeFileSync`. -/
def saveBankrollData (w : World) (bankroll : ℚ) : Except Err Unit × World :=
  match w.writes with
  | [] => (.ok (), { w with bankroll := bankroll })
  | true :: rest => (.ok (), { w with bankroll := bankroll, writes := rest })
  | false :: rest => (.error .persistence, { w with writes := rest })

/-- Embedding of `getCurrentBankroll()`. -/
def getCurrentBankroll (w : World) : ℚ := w.bankroll

/-- Embedding of `deductStake(amount)`; `none` is a `null`, `undefined` or `NaN` amount. -/
def deductStake (w : World) (amount : Option ℚ) : Except Err ℚ × World :=
  match amount with
  | none => (.error .invalidAmount, w)
  | some amount =>
    if amount ≤ 0 then (.error .invalidAmount, w)
    else if w.bankroll < amount then (.error .insufficientFunds, w)
    else
      let newBankroll := w.bankroll - amount
      match saveBankrollData w newBankroll with
      | (.error e, w1) => (.error e, w1)
      | (.ok _, w1) => (.ok newBankroll, w1)

/-- Embedding of `addWinnings(amount)`; `none` is a `null`, `undefined` or `NaN` amount, which
is treated as 0. -/
def addWinnings (w : World) (amount : Option ℚ) : Except Err ℚ × World :=
  let amount : ℚ := match amount with
    | none => 0
    | some a => a
  let newBankrollValue := w.bankroll + amount
  match saveBankrollData w newBankrollValue with
  | (.error e, w1) => (.error e, w1)
  | (.ok _, w1) => (.ok newBankrollValue, w1)

/-! ## kellyBetManager.js -/

/-- Embedding of `saveBetsData(bets)`: the argument is an array, so the type check passes, and
the outcome is that of `fs.writeFileSync`. -/
def saveBetsData (w : World) (bets : List Bet) : Except Err Unit × World :=
  match w.writes with
  | [] => (.ok (), { w with bets := bets })
  | true :: rest => (.ok (), { w with bets := bets, writes := rest })
  | false :: rest => (.error .persistence, { w with writes := rest })

/-- The `do ... while` loop of `generateBetId`: `cands k` is the `k`-th random candidate and
the last argument is the counter `attempts` of the source.  The argument before it bounds the
number of iterations; started with 1001 it is never exhausted, since the loop throws by itself
in its 1001st iteration. -/
def generateBetIdLoop (bets : List Bet) (cands : Nat → String) : Nat → Nat → Except Err String
  | 0, _ => .error .idGenerationFailed
  | fuel + 1, attempts =>
    let newId := cands attempts
    let attempts := attempts + 1
    if attempts > 1000 then .error .idGenerationFailed
    else if bets.any (fun b => b.id = newId) then generateBetIdLoop bets cands fuel attempts
    else .ok newId

/-- Embedding of `generateBetId()`. -/
def generateBetId (w : World) (cands : Nat → String) : Except Err String :=
  generateBetIdLoop w.bets cands 1001 0

/-- Embedding of `finalizeNewBet(betInput, finalStake)`; `cands` are the random id candidates
and `now` is the creation time. -/
def finalizeNewBet (w : World) (betInput : BetInput) (finalStake : ℚ)
    (cands : Nat → String) (now : String) : Except Err Bet × World :=
  if finalStake ≤ 0 then (.error .invalidStake, w)
  else
    match deductStake w (some finalStake) with
    | (.error e, w1) => (.error e, w1)
    | (.ok _, w1) =>
      match generateBetId w1 cands with
      | .error e => (.error e, w1)
      | .ok newId =>
        let newBet : Bet :=
          { id := newId
            bookmaker := betInput.bookmaker
            sport := betInput.sport
            betName := betInput.betName
            backOdds := betInput.backOdds
            fairOdds := betInput.fairOdds
            stake := finalStake
            status := "pending"
            timestamp := now
            commission := betInput.commission }
        let bets := w1.bets ++ [newBet]
        match saveBetsData w1 bets with
        | (.ok _, w2) => (.ok newBet, w2)
        | (.error e, w2) => (.error e, (addWinnings w2 (some finalStake)).2)

/-- The pair `(idx, bets[idx])` for `idx = bets.findIndex(b => b.id === betId)`; `none` when
`findIndex` returns -1. -/
def findBet : List Bet → String → Option (Nat × Bet)
  | [], _ => none
  | b :: rest, betId =>
    if b.id = betId then some (0, b)
    else (findBet rest betId).map (fun p => (p.1 + 1, p.2))

/-- The commission rate of `settleBet` and `unsettleBet`:
`(bet.commission !== undefined && bet.commission > 0) ? bet.commission / 100 : 0`. -/
def commissionRate (bet : Bet) : ℚ :=
  match bet.commission with
  | some c => if c > 0 then c / 100 else 0
  | none => 0

/-- The test `typeof bet.backOdds !== 'number' || bet.backOdds <= 1`. -/
def backOddsInvalid (bet : Bet) : Bool :=
  match bet.backOdds with
  | none => true
  | some backOdds => decide (backOdds ≤ 1)

/-- The values fixed by the `switch (result)` of `settleBet`. -/
structure Settlement where
  bankrollAdjustment : ℚ
  newStatus : String
  profitLoss : ℚ
  partialReturn : Option ℚ
  deriving DecidableEq, Repr

/-- The `switch (result)` of `settleBet`; `userReturn = none` is a value that is not of type
number.  A `throw` leaves `bankrollAdjustment` at 0. -/
def settleSwitch (bet : Bet) (result : String) (userReturn : Option ℚ) :
    Except Err Settlement :=
  let commissionRate := commissionRate bet
  if result = "win" then
    match bet.backOdds with
    | none => .error .invalidOdds
    | some backOdds =>
      if backOdds ≤ 1 then .error .invalidOdds
      else
        let grossWinnings := bet.stake * (backOdds - 1)
        let commissionAmountWin := if grossWinnings > 0 then grossWinnings * commissionRate else 0
        let netWinnings := grossWinnings - commissionAmountWin
        .ok { bankrollAdjustment := bet.stake + netWinnings
              newStatus := "win"
              profitLoss := netWinnings
              partialReturn := bet.partialReturn }
  else if result = "loss" then
    .ok { bankrollAdjustment := 0
          newStatus := "loss"
          profitLoss := -bet.stake
          partialReturn := bet.partialReturn }
  else if result = "push" then
    .ok { bankrollAdjustment := bet.stake
          newStatus := "push"
          profitLoss := 0
          partialReturn := bet.partialReturn }
  else if result = "part-win" then
    match userReturn with
    | none => .error .invalidReturn
    | some userReturn =>
      if userReturn < 0 then .error .invalidReturn
      else
        let partWinProfit := userReturn - bet.stake
        let partWinCommission := if partWinProfit > 0 then partWinProfit * commissionRate else 0
        let partWinNetProfit := partWinProfit - partWinCommission
        let bankrollAdjustment := userReturn - partWinCommission
        .ok { bankrollAdjustment := bankrollAdjustment
              newStatus := "partial-win"
              profitLoss := partWinNetProfit
              partialReturn := some bankrollAdjustment }
  else .error .unknownOutcome

/-- The in-memory update of the bet in `settleBet` (lines 299-301): `status` and `profitLoss`
are set, `partialReturn` is set when the local `partialReturn` is not `undefined`. -/
def applySettlement (bet : Bet) (s : Settlement) : Bet :=
  { bet with
    status := s.newStatus
    profitLoss := some s.profitLoss
    partialReturn := match s.partialReturn with
      | some p => some p
      | none => bet.partialReturn }

/-- The in-memory update of the copied bet in `unsettleBet` (lines 385-389): `status` is set to
`pending`, `profitLoss` and `partialReturn` are deleted, and so are the keys `is2pc`,
`evPercent` and `combinedOdds` of older records. -/
def resetToPending (bet : Bet) : Bet :=
  { bet with
    status := "pending"
    profitLoss := none
    partialReturn := none
    is2pc := none
    evPercent := none
    combinedOdds := none }

/-- The `catch` block of `settleBet` and of `unsettleBet`: one attempt to reverse the bankroll
adjustment when it is not 0 (`none` is `NaN`, which differs from 0), then the error is thrown
again. -/
def revertAndThrow (w : World) (bankrollAdjustment : Option ℚ) (e : Err) :
    Except Err Bet × World :=
  if bankrollAdjustment ≠ some 0 then
    (.error e, (addWinnings w (bankrollAdjustment.map (fun a => -a))).2)
  else (.error e, w)

/-- Embedding of `settleBet(betId, result, userReturn)`. -/
def settleBet (w : World) (betId : String) (result : String) (userReturn : Option ℚ) :
    Except Err Bet × World :=
  match findBet w.bets betId with
  | none => (.error .notFound, w)
  | some (idx, bet) =>
    if bet.status ≠ "pending" then (.error .alreadySettled, w)
    else if (result = "win" ∨ result = "part-win") ∧ backOddsInvalid bet = true ∧
        result ≠ "part-win" then
      (.error .invalidOdds, w)
    else
      match settleSwitch bet result userReturn with
      | .error e => revertAndThrow w (some 0) e
      | .ok s =>
        match (if s.bankrollAdjustment ≠ 0 then addWinnings w (some s.bankrollAdjustment)
               else (.ok w.bankroll, w)) with
        | (.error e, w1) => revertAndThrow w1 (some s.bankrollAdjustment) e
        | (.ok _, w1) =>
          let bet := applySettlement bet s
          match saveBetsData w1 (w.bets.set idx bet) with
          | (.error e, w2) => revertAndThrow w2 (some s.bankrollAdjustment) e
          | (.ok _, w2) => (.ok bet, w2)

/-- The `switch (originalStatus)` of `unsettleBet`: the bankroll adjustment, where `none` is
the `NaN` obtained when a `win` has neither a stored `profitLoss` nor numeric back odds. -/
def unsettleSwitch (bet : Bet) : Except Err (Option ℚ) :=
  if bet.status = "win" then
    let netWinnings : Option ℚ :=
      match bet.profitLoss with
      | some p => some p
      | none =>
        match bet.backOdds with
        | none => none
        | some backOdds =>
          let gross := bet.stake * (backOdds - 1)
          let rate := commissionRate bet
          let comm := if gross > 0 then gross * rate else 0
          some (gross - comm)
    .ok (netWinnings.map (fun n => -(bet.stake + n)))
  else if bet.status = "loss" then .ok (some 0)
  else if bet.status = "push" then .ok (some (-bet.stake))
  else if bet.status = "partial-win" then
    match bet.partialReturn with
    | some partialReturn => .ok (some (-partialReturn))
    | none => .ok (some (-bet.stake))
  else .error .unrecognizedStatus

/-- Embedding of `unsettleBet(betId)`. -/
def unsettleBet (w : World) (betId : String) : Except Err Bet × World :=
  match findBet w.bets betId with
  | none => (.error .notFound, w)
  | some (idx, bet) =>
    if bet.status = "pending" then (.error .alreadyPending, w)
    else
      match unsettleSwitch bet with
      | .error e => (.error e, w)
      | .ok bankrollAdjustment =>
        match (if bankrollAdjustment ≠ some 0 then addWinnings w bankrollAdjustment
               else (.ok w.bankroll, w)) with
        | (.error e, w1) => revertAndThrow w1 bankrollAdjustment e
        | (.ok _, w1) =>
          let bet := resetToPending bet
          match saveBetsData w1 (w.bets.set idx bet) with
          | (.error e, w2) => revertAndThrow w2 bankrollAdjustment e
          | (.ok _, w2) => (.ok bet, w2)

/-! ## kellyBankrollManager.js on every amount

The ledger functions above take a finite or absent amount.  The embeddings of this section
take every value an `amount` can have: `null`, `undefined` and every value of type number,
`NaN` and the two infinities included.  The bankroll read from the file stays a finite number:
`JSON.stringify` writes an infinite number as `null`, and `getBankrollData` answers a file
without a number with the default bankroll. -/

/-- The default bankroll `DEFAULT_BANKROLL.bankroll`. -/
def DEFAULT_BANKROLL : ℚ := 3000

/-- The values of an `amount`: `null`, `undefined`, and the values of type number (`NaN`, the
infinities, the finite numbers as exact rationals). -/
inductive JsAmount where
  | null
  | undefined
  | nan
  | posInf
  | negInf
  | num (q : ℚ)
  deriving DecidableEq, Repr

namespace JsAmount

/-- JavaScript `isNaN(x)`: `undefined` converts to `NaN`, `null` converts to 0. -/
def isNaN : JsAmount → Bool
  | .undefined => true
  | .nan => true
  | _ => false

/-- JavaScript `x <= 0`. -/
def leZero : JsAmount → Bool
  | .null => true
  | .negInf => true
  | .num q => decide (q ≤ 0)
  | _ => false

/-- JavaScript `b < x` for a finite number `b`. -/
def gtNum (b : ℚ) : JsAmount → Bool
  | .null => decide (b < 0)
  | .posInf => true
  | .num q => decide (b < q)
  | _ => false

/-- JavaScript `b + x` for a finite number `b`. -/
def addTo (b : ℚ) : JsAmount → JsAmount
  | .null => .num b
  | .undefined => .nan
  | .nan => .nan
  | .posInf => .posInf
  | .negInf => .negInf
  | .num q => .num (b + q)

/-- JavaScript `b - x` for a finite number `b`. -/
def subFrom (b : ℚ) : JsAmount → JsAmount
  | .null => .num b
  | .undefined => .nan
  | .nan => .nan
  | .posInf => .negInf
  | .negInf => .posInf
  | .num q => .num (b - q)

end JsAmount

/-- Embedding of `saveBankrollData({ ...data, bankroll })` for every value of `bankroll`: a value
that is not of type number or is `NaN` is refused before the write; a finite number is written;
an infinite number is written as `null`, after which the bankroll read is the default. -/
def saveBankrollDataJs (w : World) (bankroll : JsAmount) : Except Err Unit × World :=
  match bankroll with
  | .null => (.error .invalidBankrollData, w)
  | .undefined => (.error .invalidBankrollData, w)
  | .nan => (.error .invalidBankrollData, w)
  | .num q => saveBankrollData w q
  | .posInf => saveBankrollData w DEFAULT_BANKROLL
  | .negInf => saveBankrollData w DEFAULT_BANKROLL

/-- Embedding of `deductStake(amount)` for every value of `amount`. -/
def deductStakeJs (w : World) (amount : JsAmount) : Except Err JsAmount × World :=
  if amount = .null ∨ amount = .undefined ∨ amount.isNaN = true ∨ amount.leZero = true then
    (.error .invalidAmount, w)
  else if amount.gtNum w.bankroll = true then (.error .insufficientFunds, w)
  else
    let newBankroll := amount.subFrom w.bankroll
    match saveBankrollDataJs w newBankroll with
    | (.error e, w1) => (.error e, w1)
    | (.ok _, w1) => (.ok newBankroll, w1)

/-- Embedding of `addWinnings(amount)` for every value of `amount`. -/
def addWinningsJs (w : World) (amount : JsAmount) : Except Err JsAmount × World :=
  let amount : JsAmount :=
    if amount = .null ∨ amount = .undefined ∨ amount.isNaN = true then .num 0 else amount
  let newBankrollValue := amount.addTo w.bankroll
  match saveBankrollDataJs w newBankrollValue with
  | (.error e, w1) => (.error e, w1)
  | (.ok _, w1) => (.ok newBankrollValue, w1)

/-! ## kellyBetManager.js: editBet -/

/-- JavaScript `toLowerCase()`, on strings whose upper-case letters are ASCII. -/
def toLowerCase (s : String) : String := ⟨s.data.map Char.toLower⟩

/-- The allow-list `allowedFields` of `editBet`. -/
def allowedFields : List String :=
  ["bookmaker", "sport", "betname", "backodds", "fairodds", "stake", "commission"]

/-- The value `processedValue` of `editBet` after the numeric processing: the text of the update,
the parsed number, or the sentinel `null` that asks for the removal of the commission. -/
inductive Processed where
  | text (s : String)
  | number (q : ℚ)
  | removal
  deriving DecidableEq, Repr

/-- Lines 177-192 of `editBet`: the processing of the value of one update.  The value is a
string, as the `/editbet` handler passes it; `parseFloat` is the JavaScript function on
strings (`none` for `NaN`). -/
def processValue (parseFloat : String → Option ℚ) (lowerKey value : String) :
    Except Err Processed :=
  if lowerKey ∈ ["backodds", "fairodds", "stake", "commission"] then
    if lowerKey = "commission" ∧ value = "" then .ok .removal
    else
      match parseFloat value with
      | none => .error .invalidValue
      | some numVal =>
        if lowerKey = "commission" ∧ (numVal < 0 ∨ numVal > 100) then .error .invalidValue
        else if lowerKey = "stake" ∧ numVal ≤ 0 then .error .invalidValue
        else .ok (.number numVal)
  else .ok (.text value)

/-- The locals `updatedBetData` and `changesMade` of `editBet`. -/
structure EditState where
  updatedBetData : Bet
  changesMade : Bool
  deriving DecidableEq, Repr

/-- Lines 198-207 of `editBet`: the removal of the commission, or the assignment
`updatedBetData[fieldKey] = processedValue` when the stored value differs.  The key `fieldKey`
is the lower-case key, except `betName` for `betname`. -/
def assignField (st : EditState) (lowerKey fieldKey : String) (p : Processed) : EditState :=
  let b := st.updatedBetData
  match p with
  | .removal =>
    if lowerKey = "commission" then
      if b.commission.isSome then
        { updatedBetData := { b with commission := none }, changesMade := true }
      else st
    else st
  | .text s =>
    if fieldKey = "bookmaker" then
      if b.bookmaker ≠ s then
        { updatedBetData := { b with bookmaker := s }, changesMade := true }
      else st
    else if fieldKey = "sport" then
      if b.sport ≠ s then { updatedBetData := { b with sport := s }, changesMade := true }
      else st
    else if fieldKey = "betName" then
      if b.betName ≠ s then { updatedBetData := { b with betName := s }, changesMade := true }
      else st
    else st
  | .number q =>
    if fieldKey = "backodds" then
      if b.backodds ≠ some q then
        { updatedBetData := { b with backodds := some q }, changesMade := true }
      else st
    else if fieldKey = "fairodds" then
      if b.fairodds ≠ some q then
        { updatedBetData := { b with fairodds := some q }, changesMade := true }
      else st
    else if fieldKey = "stake" then
      if b.stake ≠ q then { updatedBetData := { b with stake := q }, changesMade := true }
      else st
    else if fieldKey = "commission" then
      if b.commission ≠ some q then
        { updatedBetData := { b with commission := some q }, changesMade := true }
      else st
    else st

/-- One iteration of the `for (const key of updateKeys)` loop of `editBet`. -/
def editStep (parseFloat : String → Option ℚ) (st : EditState) (key value : String) :
    Except Err EditState :=
  let lowerKey := toLowerCase key
  if lowerKey ∉ allowedFields then .error .invalidField
  else
    match processValue parseFloat lowerKey value with
    | .error e => .error e
    | .ok processedValue =>
      let fieldKey := if lowerKey = "betname" then "betName" else lowerKey
      .ok (assignField st lowerKey fieldKey processedValue)

/-- The `for (const key of updateKeys)` loop of `editBet` over the entries of `updates`. -/
def editLoop (parseFloat : String → Option ℚ) (st : EditState) :
    List (String × String) → Except Err EditState
  | [] => .ok st
  | (key, value) :: rest =>
    match editStep parseFloat st key value with
    | .error e => .error e
    | .ok st1 => editLoop parseFloat st1 rest

/-- Embedding of `editBet(betId, updates)`; `updates` lists the entries of the update object in
the order of `Object.keys`. -/
def editBet (parseFloat : String → Option ℚ) (w : World) (betId : String)
    (updates : List (String × String)) : Except Err Bet × World :=
  match findBet w.bets betId with
  | none => (.error .notFound, w)
  | some (idx, currentBet) =>
    if currentBet.status ≠ "pending" then (.error .alreadySettled, w)
    else
      match editLoop parseFloat { updatedBetData := currentBet, changesMade := false }
          updates with
      | .error e => (.error e, w)
      | .ok st =>
        if st.changesMade = false then (.ok currentBet, w)
        else
          match saveBetsData w (w.bets.set idx st.updatedBetData) with
          | (.ok _, w1) => (.ok st.updatedBetData, w1)
          | (.error e, w1) => (.error e, w1)

/-! ## kellyBetManager.js: editBet with absent values

The embedding `editBet` above takes the string values that the `/editbet` handler passes.  The
embedding of this section also takes an absent value (`null` or `undefined`, here `none`),
which the removal test of the commission accepts besides the empty string. -/

/-- Lines 177-192 of `editBet` for a value that is a string or absent: an absent commission is
the removal sentinel, `parseFloat` of an absent value is `NaN`, and the result is `none` where
an absent value would be stored in a text field, which a `Bet` cannot hold. -/
def processValueAny (parseFloat : String → Option ℚ) (lowerKey : String)
    (value : Option String) : Option (Except Err Processed) :=
  match value with
  | some s => some (processValue parseFloat lowerKey s)
  | none =>
    if lowerKey ∈ ["backodds", "fairodds", "stake", "commission"] then
      if lowerKey = "commission" then some (.ok .removal)
      else some (.error .invalidValue)
    else none

/-- One iteration of the loop of `editBet` for a value that is a string or absent. -/
def editStepAny (parseFloat : String → Option ℚ) (st : EditState) (key : String)
    (value : Option String) : Option (Except Err EditState) :=
  let lowerKey := toLowerCase key
  if lowerKey ∉ allowedFields then some (.error .invalidField)
  else
    match processValueAny parseFloat lowerKey value with
    | none => none
    | some (.error e) => some (.error e)
    | some (.ok processedValue) =>
      let fieldKey := if lowerKey = "betname" then "betName" else lowerKey
      some (.ok (assignField st lowerKey fieldKey processedValue))

/-- The loop of `editBet` over entries whose values are strings or absent. -/
def editLoopAny (parseFloat : String → Option ℚ) (st : EditState) :
    List (String × Option String) → Option (Except Err EditState)
  | [] => some (.ok st)
  | (key, value) :: rest =>
    match editStepAny parseFloat st key value with
    | none => none
    | some (.error e) => some (.error e)
    | some (.ok st1) => editLoopAny parseFloat st1 rest

/-- Embedding of `editBet(betId, updates)` for update values that are strings or absent;
`none` when the call would store an absent value in a text field. -/
def editBetAny (parseFloat : String → Option ℚ) (w : World) (betId : String)
    (updates : List (String × Option String)) : Option (Except Err Bet × World) :=
  match findBet w.bets betId with
  | none => some (.error .notFound, w)
  | some (idx, currentBet) =>
    if currentBet.status ≠ "pending" then some (.error .alreadySettled, w)
    else
      match editLoopAny parseFloat { updatedBetData := currentBet, changesMade := false }
          updates with
      | none => none
      | some (.error e) => some (.error e, w)
      | some (.ok st) =>
        if st.changesMade = false then some (.ok currentBet, w)
        else
          match saveBetsData w (w.bets.set idx st.updatedBetData) with
          | (.ok _, w1) => some (.ok st.updatedBetData, w1)
          | (.error e, w1) => some (.error e, w1)

/-! ## Predicates of the statements about editBet -/

/-- The values that `editBet` is specified to reject for the entry `key: value`: a numeric
field whose value does not parse to a number (the empty commission apart, which asks for the
removal), a stake ≤ 0, a commission outside [0, 100]. -/
def ValueRejected (parseFloat : String → Option ℚ) (key value : String) : Prop :=
  (toLowerCase key ∈ ["backodds", "fairodds", "stake"] ∧ parseFloat value = none) ∨
  (toLowerCase key = "commission" ∧ value ≠ "" ∧ parseFloat value = none) ∨
  (toLowerCase key = "stake" ∧ ∃ q, parseFloat value = some q ∧ q ≤ 0) ∨
  (toLowerCase key = "commission" ∧ value ≠ "" ∧
    ∃ q, parseFloat value = some q ∧ (q < 0 ∨ 100 < q))

/-- The fields that no edit touches: `b1` has the id, status, timestamp, profitLoss,
partialReturn, backOdds and fairOdds of `b`. -/
def EditKeeps (b b1 : Bet) : Prop :=
  b1.id = b.id ∧ b1.status = b.status ∧ b1.timestamp = b.timestamp ∧
  b1.profitLoss = b.profitLoss ∧ b1.partialReturn = b.partialReturn ∧
  b1.backOdds = b.backOdds ∧ b1.fairOdds = b.fairOdds

/-! ## The ledger conservation equation -/

/-- The sum of the stakes of all pending bets. -/
def pendingStakes (bets : List Bet) : ℚ :=
  ((bets.filter (fun b => b.status = "pending")).map (fun b => b.stake)).sum

/-- The sum of the profitLoss over all settled bets (a settled bet without a stored profitLoss
adds nothing). -/
def settledProfitLoss (bets : List Bet) : ℚ :=
  ((bets.filter (fun b => b.status ≠ "pending")).map (fun b => b.profitLoss.getD 0)).sum

/-- The conservation equation: the bankroll equals `B0` minus the stakes of the pending bets
plus the profitLoss of the settled bets. -/
def LedgerConserved (B0 : ℚ) (w : World) : Prop :=
  w.bankroll = B0 - pendingStakes w.bets + settledProfitLoss w.bets

/-- The share of one bet in the conservation equation. -/
def ledgerTerm (b : Bet) : ℚ :=
  if b.status = "pending" then -b.stake else b.profitLoss.getD 0

/-! ## Sequences of calls of the bet manager -/

/-- One call of a state-changing function of `kellyBetManager.js`, with its arguments (for
`finalizeNewBet` also the candidates of `Math.random` and the clock reading, for `editBet` the
function `parseFloat`). -/
inductive Call where
  | finalize (betInput : BetInput) (finalStake : ℚ) (cands : Nat → String) (now : String)
  | edit (parseFloat : String → Option ℚ) (betId : String)
      (updates : List (String × Option String))
  | settle (betId result : String) (userReturn : Option ℚ)
  | unsettle (betId : String)

/-- The call is an `editBet`. -/
def Call.isEdit : Call → Bool
  | .edit _ _ _ => true
  | _ => false

/-- The outcome of one call in the state `w`; `none` where `editBetAny` is. -/
def Call.run (c : Call) (w : World) : Option (Except Err Bet × World) :=
  match c with
  | .finalize betInput finalStake cands now =>
    some (finalizeNewBet w betInput finalStake cands now)
  | .edit parseFloat betId updates => editBetAny parseFloat w betId updates
  | .settle betId result userReturn => some (settleBet w betId result userReturn)
  | .unsettle betId => some (unsettleBet w betId)

/-- The state reached from `w` by the calls of the list, one after the other, when every one
of them succeeds; `none` as soon as one does not. -/
def runCalls (w : World) : List Call → Option World
  | [] => some w
  | c :: rest =>
    match c.run w with
    | some (.ok _, w1) => runCalls w1 rest
    | _ => none

/-- The shape of a record that the calls of the bet manager leave in the store: a pending bet
has neither profitLoss nor partialReturn; a win has a profitLoss, a loss the profitLoss
`-stake`, a push the profitLoss 0, all three without partialReturn; a partial-win has a
profitLoss and the partialReturn `stake + profitLoss`. -/
def BetWellFormed (b : Bet) : Prop :=
  (b.status = "pending" ∧ b.profitLoss = none ∧ b.partialReturn = none) ∨
  (b.status = "win" ∧ (∃ p, b.profitLoss = some p) ∧ b.partialReturn = none) ∨
  (b.status = "loss" ∧ b.profitLoss = some (-b.stake) ∧ b.partialReturn = none) ∨
  (b.status = "push" ∧ b.profitLoss = some 0 ∧ b.partialReturn = none) ∨
  (b.status = "partial-win" ∧ ∃ p, b.profitLoss = some p ∧ b.partialReturn = some (b.stake + p))

/-! ## kellyBetManager.js: initNewBet -/

/-- The object `{ recommendedStake, finalBetInput }` returned by `initNewBet`. -/
structure InitResult where
  recommendedStake : ℚ
  finalBetInput : BetInput
  deriving DecidableEq, Repr

/-- The text of `calculationError` for invalid odds; `render` is the conversion of an odds value
to a string inside the template literal. -/
def invalidOddsMessage (render : Option ℚ → String) (betInput : BetInput) : String :=
  "Invalid odds (Back: " ++ render betInput.backOdds ++ ", Fair: " ++ render betInput.fairOdds
    ++ "). Must be > 1."

/-- Lines 86-89 of `initNewBet`: the pair of `recommendedStake` and `calculationError` (`none`
is `null`); an odds value that is not of type number is `none`.  The embedding of
`calculateKellyStake` is total, so the `catch` around its call is never entered. -/
def initStake (render : Option ℚ → String) (w : World) (betInput : BetInput) :
    ℚ × Option String :=
  let bankroll := getCurrentBankroll w
  match betInput.backOdds, betInput.fairOdds with
  | some backOdds, some fairOdds =>
    if backOdds ≤ 1 ∨ fairOdds ≤ 1 then (0, some (invalidOddsMessage render betInput))
    else (calculateKellyStake bankroll backOdds fairOdds, none)
  | _, _ => (0, some (invalidOddsMessage render betInput))

/-- Line 90 of `initNewBet`: `if (calculationError) betInput.calculationError =
calculationError`; a string is truthy when it is not empty. -/
def attachError (betInput : BetInput) (calculationError : Option String) : BetInput :=
  match calculationError with
  | some e => if e ≠ "" then { betInput with calculationError := some e } else betInput
  | none => betInput

/-- Lines 93-97 of `initNewBet`: a commission that is a number in [0, 100] is stored, any
other (`none` is a value not of type number) is deleted. -/
def storeCommission (betInput : BetInput) (commission : Option ℚ) : BetInput :=
  match commission with
  | some c =>
    if c ≥ 0 ∧ c ≤ 100 then { betInput with commission := some c }
    else { betInput with commission := none }
  | none => { betInput with commission := none }

/-- Embedding of `initNewBet(betInput, commission)`, with the state after the call. -/
def initNewBet (render : Option ℚ → String) (w : World) (betInput : BetInput)
    (commission : Option ℚ) : Except Err InitResult × World :=
  let stakeAndError := initStake render w betInput
  let betInput := attachError betInput stakeAndError.2
  let betInput := storeCommission betInput commission
  (.ok { recommendedStake := stakeAndError.1, finalBetInput := betInput }, w)

/-! ## kellyStatsManager.js -/

/-- The argument of `getBasicStats`; `none` is `null`. -/
structure StatsFilter where
  timeRange : Option String := none
  sport : Option String := none
  bookmaker : Option String := none
  returnFilteredBets : Bool := false

/-- The clock as `getBasicStats` reads it, in milliseconds: `now` is `new Date()`,
`startOfToday` is the local midnight `new Date(now.getFullYear(), now.getMonth(),
now.getDate())`, and `timeOf s` is `new Date(s)`, `none` for an invalid date. -/
structure Clock where
  now : ℤ
  startOfToday : ℤ
  timeOf : String → Option ℤ

/-- The test `betTime >= lo && betTime <= hi` for `betTime = new Date(bet.timestamp)`; both
comparisons are false for an invalid date. -/
def inTimeRange (clk : Clock) (lo hi : ℤ) (bet : Bet) : Bool :=
  match clk.timeOf bet.timestamp with
  | none => false
  | some betTime => decide (lo ≤ betTime) && decide (betTime ≤ hi)

/-- Step (3) of `getBasicStats`: the `switch (timeRange)` and the date filter. -/
def filterByTime (clk : Clock) (timeRange : String) (filteredBets : List Bet) : List Bet :=
  if timeRange = "today" then filteredBets.filter (inTimeRange clk clk.startOfToday clk.now)
  else if timeRange = "yesterday" then
    filteredBets.filter
      (inTimeRange clk (clk.startOfToday - 24 * 60 * 60 * 1000) (clk.startOfToday - 1))
  else if timeRange = "7days" then
    filteredBets.filter (inTimeRange clk (clk.now - 7 * 24 * 60 * 60 * 1000) clk.now)
  else if timeRange = "lastmonth" then
    filteredBets.filter (inTimeRange clk (clk.now - 30 * 24 * 60 * 60 * 1000) clk.now)
  else filteredBets

/-- Steps (1) to (3) of `getBasicStats`: the bets that match the filters.  A filter that is
`null` or the empty string is not applied. -/
def filterBets (clk : Clock) (f : StatsFilter) (allBets : List Bet) : List Bet :=
  let filteredBets := allBets
  let filteredBets :=
    match f.sport with
    | some sport =>
      if sport ≠ "" then
        filteredBets.filter
          (fun bet => decide (bet.sport ≠ "" ∧ toLowerCase bet.sport = toLowerCase sport))
      else filteredBets
    | none => filteredBets
  let filteredBets :=
    match f.bookmaker with
    | some bookmaker =>
      if bookmaker ≠ "" then
        filteredBets.filter
          (fun bet =>
            decide (bet.bookmaker ≠ "" ∧ toLowerCase bet.bookmaker = toLowerCase bookmaker))
      else filteredBets
    | none => filteredBets
  match f.timeRange with
  | some timeRange => if timeRange ≠ "" then filterByTime clk timeRange filteredBets
                      else filteredBets
  | none => filteredBets

/-- Step (4) of `getBasicStats`: the filtered bets that are not `pending`. -/
def settledBets (clk : Clock) (f : StatsFilter) (allBets : List Bet) : List Bet :=
  (filterBets clk f allBets).filter (fun bet => decide (bet.status ≠ "pending"))

/-- The counters and sums of step (5) of `getBasicStats`. -/
structure StatsAcc where
  wins : Nat := 0
  losses : Nat := 0
  pushes : Nat := 0
  partialWins : Nat := 0
  totalStake : ℚ := 0
  totalProfitLoss : ℚ := 0
  deriving DecidableEq, Repr

/-- The body of `settledBets.forEach` in `getBasicStats`. -/
def statsStep (acc : StatsAcc) (bet : Bet) : StatsAcc :=
  let acc := { acc with totalStake := acc.totalStake + bet.stake }
  if bet.status = "win" then
    { acc with
      wins := acc.wins + 1
      totalProfitLoss := acc.totalProfitLoss +
        (match bet.profitLoss with
         | some p => p
         | none => bet.stake * bet.backOdds.getD 1 - bet.stake) }
  else if bet.status = "loss" then
    { acc with
      losses := acc.losses + 1
      totalProfitLoss := acc.totalProfitLoss +
        (match bet.profitLoss with
         | some p => p
         | none => -bet.stake) }
  else if bet.status = "push" then { acc with pushes := acc.pushes + 1 }
  else if bet.status = "partial-win" then
    { acc with
      partialWins := acc.partialWins + 1
      totalProfitLoss := acc.totalProfitLoss +
        (match bet.profitLoss with
         | some p => p
         | none =>
           match bet.partialReturn with
           | some partialReturn => if partialReturn ≠ 0 then partialReturn - bet.stake else 0
           | none => 0) }
  else acc

/-- The object `statsResult` returned by `getBasicStats`. -/
structure StatsResult where
  totalBets : Nat
  totalSettledBets : Nat
  wins : Nat
  losses : Nat
  pushes : Nat
  partialWins : Nat
  totalProfitLoss : ℚ
  ROI : ℚ
  currentBankroll : ℚ
  filteredBets : Option (List Bet)
  deriving DecidableEq, Repr

/-- Embedding of `getBasicStats({ timeRange, sport, bookmaker, returnFilteredBets })`, with the
state after the call. -/
def getBasicStats (clk : Clock) (w : World) (f : StatsFilter) : StatsResult × World :=
  let filteredBets := filterBets clk f w.bets
  let settled := settledBets clk f w.bets
  let acc := settled.foldl statsStep {}
  let ROI := if acc.totalStake > 0 then acc.totalProfitLoss / acc.totalStake else 0
  let currentBankroll := getCurrentBankroll w
  ({ totalBets := filteredBets.length
     totalSettledBets := settled.length
     wins := acc.wins
     losses := acc.losses
     pushes := acc.pushes
     partialWins := acc.partialWins
     totalProfitLoss := acc.totalProfitLoss
     ROI := ROI
     currentBankroll := currentBankroll
     filteredBets := if f.returnFilteredBets then some filteredBets else none }, w)

/-! ## Example data -/

/-- A pending bet: stake 100 at back odds 2.0 with 10% commission. -/
def exBet : Bet :=
  { id := "AB12C", bookmaker := "Betfair", sport := "Tennis", betName := "Match winner",
    backOdds := some 2, fairOdds := some (19 / 10), stake := 100, status := "pending",
    timestamp := "2024-05-01T10:00:00.000Z", commission := some 10 }

/-- A state holding `exBet` after its stake was deducted from the default bankroll 3000. -/
def exWorld : World := { bankroll := 2900, bets := [exBet] }

/-- The bet `exBet` with 20% commission. -/
def exBet20 : Bet := { exBet with commission := some 20 }

/-- A state holding `exBet20`. -/
def exWorld20 : World := { bankroll := 2900, bets := [exBet20] }

/-- The prepared input of a new bet without commission. -/
def exInput : BetInput :=
  { bookmaker := "Pinnacle", sport := "Football", betName := "Home win",
    backOdds := some 3, fairOdds := some (5 / 2) }

/-- Random id candidates: the first collides with `exBet`, the following ones are fresh. -/
def exCands : Nat → String := fun k => if k = 0 then "AB12C" else "ZX9Q1"

/-- Random id candidates that all collide with the id of `exBet`. -/
def exCollide : Nat → String := fun _ => "AB12C"

/-- The state `exWorld` where the next write succeeds, the one after it fails and the third
succeeds. -/
def exWorldSaveFails : World := { bankroll := 2900, bets := [exBet], writes := [true, false, true] }

/-- The state `exWorld` where the next write fails and the one after it succeeds. -/
def exWorldCreditFails : World := { bankroll := 2900, bets := [exBet], writes := [false, true] }

/-- The function `parseFloat` on the two strings of the examples. -/
def exParseFloat : String → Option ℚ := fun s =>
  if s = "2.5" then some (5 / 2) else if s = "150" then some 150 else none

/-- The record that `editBet` stores for `exBet` when the update is `backOdds: "2.5"`. -/
def exBetEdited : Bet := { exBet with backodds := some (5 / 2) }

/-- The function `parseFloat` on the strings of the edit examples. -/
def exParseNumber : String → Option ℚ := fun s =>
  if s = "2" then some 2 else if s = "150" then some 150 else if s = "0.9" then some (9 / 10)
  else if s = "-5" then some (-5) else none

/-- The record that `editBet` stores for `exBet` when the update is `backOdds: "2"`. -/
def exBetSameOdds : Bet := { exBet with backodds := some 2 }

/-- The record that `editBet` stores for `exBet` when the update is `stake: "150"`. -/
def exBetStake150 : Bet := { exBet with stake := 150 }

/-- The state `exWorld` where the next write fails. -/
def exWorldWriteFails : World := { bankroll := 2900, bets := [exBet], writes := [false] }

/-- The bet `exBet` settled as a win: profitLoss 90. -/
def exBetWon : Bet := { exBet with status := "win", profitLoss := some 90 }

/-- A state holding the settled `exBetWon` where the next two writes fail. -/
def exWorldWonWriteFails : World :=
  { bankroll := 3090, bets := [exBetWon], writes := [false, false] }

/-- A pending record that carries a profitLoss, as no call of the bet manager leaves one. -/
def exBetStale : Bet := { exBet with profitLoss := some 5 }

/-- A state holding `exBetStale`. -/
def exWorldStale : World := { bankroll := 2900, bets := [exBetStale] }

/-- The bet `exBet` settled as a loss, as a record that carries the older key `is2pc`. -/
def exBetLegacy : Bet :=
  { exBet with status := "loss", profitLoss := some (-100), is2pc := some true }

/-- A state holding `exBetLegacy`. -/
def exWorldLegacy : World := { bankroll := 2900, bets := [exBetLegacy] }

/-- The start of the call sequences of the examples: the default bankroll and an empty store. -/
def exStart : World := { bankroll := 3000, bets := [] }

/-- A sequence without edits: the bet of `exInput` is placed with stake 25 and settled as a
loss. -/
def exCalls : List Call :=
  [.finalize exInput 25 exCands "2024-05-02T09:30:00.000Z", .settle "AB12C" "loss" none]

/-- A sequence with an edit: the bet of `exInput` is placed with stake 25, its stake is edited
to 150, it is settled as a push, unsettled and settled as a loss. -/
def exCallsWithEdit : List Call :=
  [.finalize exInput 25 exCands "2024-05-02T09:30:00.000Z",
   .edit exParseNumber "AB12C" [("stake", some "150")],
   .settle "AB12C" "push" none, .unsettle "AB12C", .settle "AB12C" "loss" none]

/-- The record placed by the example sequences. -/
def exBetPlaced : Bet :=
  { id := "AB12C", bookmaker := "Pinnacle", sport := "Football", betName := "Home win",
    backOdds := some 3, fairOdds := some (5 / 2), stake := 25, status := "pending",
    timestamp := "2024-05-02T09:30:00.000Z" }

/-- A clock reading on 2024-05-03, with the time of the timestamp of `exBet`. -/
def exClock : Clock :=
  { now := 1714730400000, startOfToday := 1714694400000,
    timeOf := fun s => if s = "2024-05-01T10:00:00.000Z" then some 1714557600000 else none }

/-- A state holding the settled `exBetWon` and a pending bet. -/
def exWorldStats : World := { bankroll := 3065, bets := [exBetWon, exBetPlaced] }

/-! ## Lemmas: the persistence layer and the lookup -/

theorem saveBankrollData_ok_inv {w w1 : World} {x : ℚ} {u : Unit}
    (h : saveBankrollData w x = (.ok u, w1)) :
    w1.bankroll = x ∧ w1.bets = w.bets ∧ w1.writes = w.writes.tail := by
  unfold saveBankrollData at h
  split at h
  · simp only [Prod.mk.injEq] at h
    obtain ⟨-, rfl⟩ := h
    simp_all
  · simp only [Prod.mk.injEq] at h
    obtain ⟨-, rfl⟩ := h
    simp_all
  · simp at h

theorem saveBetsData_ok_inv {w w1 : World} {bets : List Bet} {u : Unit}
    (h : saveBetsData w bets = (.ok u, w1)) :
    w1.bankroll = w.bankroll ∧ w1.bets = bets ∧ w1.writes = w.writes.tail := by
  unfold saveBetsData at h
  split at h
  · simp only [Prod.mk.injEq] at h
    obtain ⟨-, rfl⟩ := h
    simp_all
  · simp only [Prod.mk.injEq] at h
    obtain ⟨-, rfl⟩ := h
    simp_all
  · simp at h

theorem addWinnings_eq (w : World) (a : Option ℚ) :
    addWinnings w a =
      match saveBankrollData w (w.bankroll + a.getD 0) with
      | (.error e, w1) => (.error e, w1)
      | (.ok _, w1) => (.ok (w.bankroll + a.getD 0), w1) := by
  cases a <;> rfl

theorem addWinnings_ok_inv {w w1 : World} {a : Option ℚ} {x : ℚ}
    (h : addWinnings w a = (.ok x, w1)) :
    w1.bankroll = w.bankroll + a.getD 0 ∧ w1.bets = w.bets ∧ w1.writes = w.writes.tail := by
  rw [addWinnings_eq] at h
  generalize hsv : saveBankrollData w (w.bankroll + a.getD 0) = res at h
  obtain ⟨e | u, w2⟩ := res
  · simp at h
  · simp only [Prod.mk.injEq] at h
    obtain ⟨-, rfl⟩ := h
    exact saveBankrollData_ok_inv hsv

theorem allWritesSucceed_tail {w w1 : World} (hw : AllWritesSucceed w)
    (h : w1.writes = w.writes.tail) : AllWritesSucceed w1 := by
  intro b hb
  rw [h] at hb
  exact hw b (List.mem_of_mem_tail hb)

theorem saveBankrollData_of_allok {w : World} (hw : AllWritesSucceed w) (x : ℚ) :
    ∃ w1, saveBankrollData w x = (.ok (), w1) ∧ w1.bankroll = x ∧ w1.bets = w.bets ∧
      AllWritesSucceed w1 := by
  generalize hsv : saveBankrollData w x = res
  obtain ⟨e | u, w1⟩ := res
  · exfalso
    unfold saveBankrollData at hsv
    split at hsv
    · simp at hsv
    · simp at hsv
    · rename_i rest hwr
      have := hw false (by rw [hwr]; exact List.mem_cons_self _ _)
      simp at this
  · obtain ⟨h1, h2, h3⟩ := saveBankrollData_ok_inv hsv
    exact ⟨w1, rfl, h1, h2, allWritesSucceed_tail hw h3⟩

theorem saveBetsData_of_allok {w : World} (hw : AllWritesSucceed w) (bets : List Bet) :
    ∃ w1, saveBetsData w bets = (.ok (), w1) ∧ w1.bankroll = w.bankroll ∧ w1.bets = bets ∧
      AllWritesSucceed w1 := by
  generalize hsv : saveBetsData w bets = res
  obtain ⟨e | u, w1⟩ := res
  · exfalso
    unfold saveBetsData at hsv
    split at hsv
    · simp at hsv
    · simp at hsv
    · rename_i rest hwr
      have := hw false (by rw [hwr]; exact List.mem_cons_self _ _)
      simp at this
  · obtain ⟨h1, h2, h3⟩ := saveBetsData_ok_inv hsv
    exact ⟨w1, rfl, h1, h2, allWritesSucceed_tail hw h3⟩

theorem addWinnings_of_allok {w : World} (hw : AllWritesSucceed w) (a : Option ℚ) :
    ∃ w1, addWinnings w a = (.ok (w.bankroll + a.getD 0), w1) ∧
      w1.bankroll = w.bankroll + a.getD 0 ∧ w1.bets = w.bets ∧ AllWritesSucceed w1 := by
  obtain ⟨w1, h1, h2, h3, h4⟩ := saveBankrollData_of_allok hw (w.bankroll + a.getD 0)
  refine ⟨w1, ?_, h2, h3, h4⟩
  rw [addWinnings_eq, h1]

theorem findBet_id {bets : List Bet} {betId : String} {idx : Nat} {bet : Bet}
    (h : findBet bets betId = some (idx, bet)) : bet.id = betId := by
  induction bets generalizing idx with
  | nil => simp [findBet] at h
  | cons b rest ih =>
    unfold findBet at h
    by_cases hb : b.id = betId
    · rw [if_pos hb] at h
      simp only [Option.some.injEq, Prod.mk.injEq] at h
      rw [← h.2]
      exact hb
    · rw [if_neg hb] at h
      cases hr : findBet rest betId with
      | none => simp [hr] at h
      | some p =>
        simp only [hr, Option.map_some', Option.some.injEq, Prod.mk.injEq] at h
        obtain ⟨-, rfl⟩ := h
        exact ih hr

theorem findBet_set {bets : List Bet} {betId : String} {idx : Nat} {bet r : Bet}
    (h : findBet bets betId = some (idx, bet)) (hr : r.id = bet.id) :
    findBet (bets.set idx r) betId = some (idx, r) := by
  induction bets generalizing idx with
  | nil => simp [findBet] at h
  | cons b rest ih =>
    have hid := findBet_id h
    unfold findBet at h
    by_cases hb : b.id = betId
    · rw [if_pos hb] at h
      simp only [Option.some.injEq, Prod.mk.injEq] at h
      obtain ⟨rfl, rfl⟩ := h
      simp [findBet, hr, hb]
    · rw [if_neg hb] at h
      cases hf : findBet rest betId with
      | none => simp [hf] at h
      | some p =>
        simp only [hf, Option.map_some', Option.some.injEq, Prod.mk.injEq] at h
        obtain ⟨rfl, rfl⟩ := h
        have := ih hf
        simp [findBet, hb, this]

theorem findBet_get {bets : List Bet} {betId : String} {idx : Nat} {bet : Bet}
    (h : findBet bets betId = some (idx, bet)) : bets[idx]? = some bet := by
  induction bets generalizing idx with
  | nil => simp [findBet] at h
  | cons b rest ih =>
    unfold findBet at h
    by_cases hb : b.id = betId
    · rw [if_pos hb] at h
      simp only [Option.some.injEq, Prod.mk.injEq] at h
      obtain ⟨rfl, rfl⟩ := h
      simp
    · rw [if_neg hb] at h
      cases hf : findBet rest betId with
      | none => simp [hf] at h
      | some p =>
        simp only [hf, Option.map_some', Option.some.injEq, Prod.mk.injEq] at h
        obtain ⟨rfl, rfl⟩ := h
        have := ih hf
        simpa using this

/-! ## Lemmas: settle and unsettle -/

/-- A successful `settleBet` found a pending bet, took the `switch` without a throw, credited
the bankroll with the adjustment and stored the updated record in place. -/
theorem settleBet_ok_inv {w w1 : World} {betId result : String} {userReturn : Option ℚ}
    {r : Bet} (h : settleBet w betId result userReturn = (.ok r, w1)) :
    ∃ idx bet s, findBet w.bets betId = some (idx, bet) ∧ bet.status = "pending" ∧
      settleSwitch bet result userReturn = .ok s ∧ r = applySettlement bet s ∧
      w1.bankroll = w.bankroll + s.bankrollAdjustment ∧ w1.bets = w.bets.set idx r := by
  unfold settleBet at h
  generalize hfind : findBet w.bets betId = fb at h
  obtain _ | ⟨idx, bet⟩ := fb
  · simp at h
  simp only [] at h
  by_cases hpend : bet.status = "pending"
  swap
  · simp [hpend] at h
  rw [if_neg (not_not.mpr hpend)] at h
  split at h
  · simp at h
  generalize hsw : settleSwitch bet result userReturn = sw at h
  obtain e | s := sw
  · simp [revertAndThrow] at h
  simp only [] at h
  refine ⟨idx, bet, s, rfl, hpend, hsw, ?_⟩
  generalize haw : (if s.bankrollAdjustment ≠ 0 then addWinnings w (some s.bankrollAdjustment)
               else (Except.ok w.bankroll, w)) = aw at h
  obtain ⟨e | x, w2⟩ := aw
  · simp only [revertAndThrow] at h
    split at h <;> simp at h
  simp only [] at h
  have hw2 : w2.bankroll = w.bankroll + s.bankrollAdjustment ∧ w2.bets = w.bets := by
    by_cases hz : s.bankrollAdjustment = 0
    · simp only [hz, ne_eq, not_true_eq_false, if_false, Prod.mk.injEq] at haw
      obtain ⟨-, rfl⟩ := haw
      simp [hz]
    · rw [if_pos hz] at haw
      obtain ⟨h1, h2, -⟩ := addWinnings_ok_inv haw
      exact ⟨by simpa using h1, h2⟩
  generalize hsb : saveBetsData w2 _ = sb at h
  obtain ⟨e | u, w3⟩ := sb
  · simp only [revertAndThrow] at h
    split at h <;> simp at h
  simp only [] at h
  obtain ⟨h1, h2, -⟩ := saveBetsData_ok_inv hsb
  simp only [Prod.mk.injEq, Except.ok.injEq] at h
  obtain ⟨rfl, rfl⟩ := h
  exact ⟨rfl, by rw [h1, hw2.1], h2⟩

/-- When the `switch` of `settleBet` does not throw, the odds guard before it does not throw
either. -/
theorem settleSwitch_ok_guard {bet : Bet} {result : String} {userReturn : Option ℚ}
    {s : Settlement} (h : settleSwitch bet result userReturn = .ok s) :
    ¬ ((result = "win" ∨ result = "part-win") ∧ backOddsInvalid bet = true ∧
        result ≠ "part-win") := by
  rintro ⟨h1, h2, h3⟩
  have hwin : result = "win" := by
    rcases h1 with h1 | h1
    · exact h1
    · exact absurd h1 h3
  subst hwin
  unfold backOddsInvalid at h2
  unfold settleSwitch at h
  cases ho : bet.backOdds with
  | none => simp [ho] at h
  | some o =>
    simp only [ho, decide_eq_true_eq] at h2
    simp [ho, h2] at h

/-- With every write succeeding, `settleBet` on a pending bet whose `switch` does not throw
succeeds: the bankroll is credited with the adjustment and the updated record is stored. -/
theorem settleBet_of_allok {w : World} {betId result : String} {userReturn : Option ℚ}
    {idx : Nat} {bet : Bet} {s : Settlement} (hw : AllWritesSucceed w)
    (hfind : findBet w.bets betId = some (idx, bet)) (hpend : bet.status = "pending")
    (hsw : settleSwitch bet result userReturn = .ok s) :
    ∃ w1, settleBet w betId result userReturn = (.ok (applySettlement bet s), w1) ∧
      w1.bankroll = w.bankroll + s.bankrollAdjustment ∧
      w1.bets = w.bets.set idx (applySettlement bet s) ∧ AllWritesSucceed w1 := by
  unfold settleBet
  rw [hfind]
  simp only []
  rw [if_neg (not_not.mpr hpend), if_neg (settleSwitch_ok_guard hsw), hsw]
  simp only []
  by_cases hz : s.bankrollAdjustment = 0
  · rw [if_neg (not_not.mpr hz)]
    simp only []
    obtain ⟨w2, h1, h2, h3, h4⟩ := saveBetsData_of_allok hw (w.bets.set idx (applySettlement bet s))
    rw [h1]
    exact ⟨w2, rfl, by rw [h2, hz, add_zero], h3, h4⟩
  · rw [if_pos hz]
    obtain ⟨w2, h1, h2, h3, h4⟩ := addWinnings_of_allok hw (some s.bankrollAdjustment)
    rw [h1]
    simp only []
    obtain ⟨w3, k1, k2, k3, k4⟩ :=
      saveBetsData_of_allok h4 (w.bets.set idx (applySettlement bet s))
    rw [k1]
    exact ⟨w3, rfl, by rw [k2, h2]; rfl, k3, k4⟩

/-- With every write succeeding, `unsettleBet` on a settled bet whose `switch` does not throw
succeeds: the adjustment (0 for `NaN`) is added to the bankroll and the reset record is
stored. -/
theorem unsettleBet_of_allok {w : World} {betId : String} {idx : Nat} {bet : Bet}
    {adj : Option ℚ} (hw : AllWritesSucceed w)
    (hfind : findBet w.bets betId = some (idx, bet)) (hnp : bet.status ≠ "pending")
    (hsw : unsettleSwitch bet = .ok adj) :
    ∃ w1, unsettleBet w betId = (.ok (resetToPending bet), w1) ∧
      w1.bankroll = w.bankroll + adj.getD 0 ∧
      w1.bets = w.bets.set idx (resetToPending bet) ∧ AllWritesSucceed w1 := by
  unfold unsettleBet
  rw [hfind]
  simp only []
  rw [if_neg hnp, hsw]
  simp only []
  by_cases hz : adj = some 0
  · rw [if_neg (not_not.mpr hz)]
    simp only []
    obtain ⟨w2, h1, h2, h3, h4⟩ := saveBetsData_of_allok hw (w.bets.set idx (resetToPending bet))
    rw [h1]
    exact ⟨w2, rfl, by rw [h2, hz]; simp, h3, h4⟩
  · rw [if_pos hz]
    obtain ⟨w2, h1, h2, h3, h4⟩ := addWinnings_of_allok hw adj
    rw [h1]
    simp only []
    obtain ⟨w3, k1, k2, k3, k4⟩ :=
      saveBetsData_of_allok h4 (w.bets.set idx (resetToPending bet))
    rw [k1]
    exact ⟨w3, rfl, by rw [k2, h2], k3, k4⟩

/-- The `switch` of `unsettleBet` on a freshly settled record yields the exact negative of the
adjustment that the `switch` of `settleBet` fixed, and the settled record is not pending. -/
theorem unsettleSwitch_applySettlement {bet : Bet} {result : String} {userReturn : Option ℚ}
    {s : Settlement} (h : settleSwitch bet result userReturn = .ok s) :
    (applySettlement bet s).status ≠ "pending" ∧
      unsettleSwitch (applySettlement bet s) = .ok (some (-s.bankrollAdjustment)) := by
  unfold settleSwitch at h
  split_ifs at h with h1 h2 h3 h4
  · cases ho : bet.backOdds with
    | none => simp [ho] at h
    | some o =>
      simp only [ho] at h
      split_ifs at h with h5
      all_goals
        simp only [Except.ok.injEq] at h
        subst h
        simp [applySettlement, unsettleSwitch]
  · simp only [Except.ok.injEq] at h
    subst h
    simp [applySettlement, unsettleSwitch]
  · simp only [Except.ok.injEq] at h
    subst h
    simp [applySettlement, unsettleSwitch]
  · cases hu : userReturn with
    | none => simp [hu] at h
    | some u =>
      simp only [hu] at h
      split_ifs at h with h5
      all_goals
        simp only [Except.ok.injEq] at h
        subst h
        simp [applySettlement, unsettleSwitch]

/-- The `switch` of `settleBet` does not throw on a valid outcome. -/
theorem settleSwitch_ok_of_valid (b : Bet) (outcome : String) (userReturn : Option ℚ)
    (hout : (outcome = "win" ∧ ∃ o, b.backOdds = some o ∧ 1 < o) ∨ outcome = "loss" ∨
      outcome = "push" ∨ (outcome = "part-win" ∧ ∃ u, userReturn = some u ∧ 0 ≤ u)) :
    ∃ s, settleSwitch b outcome userReturn = .ok s := by
  rcases hout with ⟨rfl, o, ho, ho1⟩ | rfl | rfl | ⟨rfl, u, rfl, hu⟩
  · simp [settleSwitch, ho, not_le.mpr ho1]
  · simp [settleSwitch]
  · simp [settleSwitch]
  · simp [settleSwitch, not_lt.mpr hu]

/-- With every write succeeding, a valid settle followed by the unsettle of the same bet
succeeds twice and restores the bankroll. -/
theorem settle_unsettle_bankroll {w : World} {betId outcome : String} {userReturn : Option ℚ}
    {idx : Nat} {b : Bet} {s : Settlement} (hw : AllWritesSucceed w)
    (hfind : findBet w.bets betId = some (idx, b)) (hpend : b.status = "pending")
    (hsw : settleSwitch b outcome userReturn = .ok s) :
    ∃ r1 w1 r2 w2, settleBet w betId outcome userReturn = (.ok r1, w1) ∧
      unsettleBet w1 betId = (.ok r2, w2) ∧ w2.bankroll = w.bankroll := by
  obtain ⟨w1, h1, h2, h3, h4⟩ := settleBet_of_allok hw hfind hpend hsw
  obtain ⟨hnp, hus⟩ := unsettleSwitch_applySettlement hsw
  have hfind1 : findBet w1.bets betId = some (idx, applySettlement b s) := by
    rw [h3]
    exact findBet_set hfind rfl
  obtain ⟨w2, k1, k2, -, -⟩ := unsettleBet_of_allok h4 hfind1 hnp hus
  refine ⟨_, w1, _, w2, h1, k1, ?_⟩
  rw [k2, h2]
  simp

/-! ## Theorems: the stake calculator -/

/-- A half-integer that is positive is at least one half. -/
theorem half_int_not_small (n : ℤ) : ¬ ((n : ℚ) / 2 > 0 ∧ (n : ℚ) / 2 < 1 / 2) := by
  rintro ⟨h1, h2⟩
  have h3 : (0 : ℚ) < (n : ℚ) := by linarith
  have h4 : (n : ℚ) < 1 := by linarith
  have h5 : (0 : ℤ) < n := by exact_mod_cast h3
  have h6 : n < (1 : ℤ) := by exact_mod_cast h4
  omega

/-- With valid inputs and a positive edge the calculator returns the capped quarter-Kelly
stake rounded to the nearest half (the capped value written with the source's `if`). -/
theorem calculateKellyStake_of_edge (bankroll backOdds fairOdds : ℚ)
    (hb : 0 < bankroll) (ho : 1 < backOdds) (hf : 1 < fairOdds)
    (hev : ¬ backOdds / fairOdds - 1 ≤ 0) :
    calculateKellyStake bankroll backOdds fairOdds =
      ((⌊min (quarterKelly bankroll backOdds fairOdds) (bankroll / 100) * 2 + 1 / 2⌋ : ℤ) : ℚ)
        / 2 := by
  have hguard : ¬ (bankroll = 0 ∨ bankroll ≤ 0 ∨ backOdds = 0 ∨ backOdds ≤ 1 ∨
      fairOdds = 0 ∨ fairOdds ≤ 1) := by
    rintro (h | h | h | h | h | h) <;> linarith
  have hden : ¬ backOdds - 1 ≤ 0 := by linarith
  have hq : 0 < quarterKelly bankroll backOdds fairOdds := by
    unfold quarterKelly
    have h1 : 0 < backOdds / fairOdds - 1 := lt_of_not_ge hev
    have h2 : 0 < backOdds - 1 := by linarith
    positivity
  have hmin : (if quarterKelly bankroll backOdds fairOdds > bankroll * (1 / 100)
      then bankroll * (1 / 100) else quarterKelly bankroll backOdds fairOdds) =
      min (quarterKelly bankroll backOdds fairOdds) (bankroll / 100) := by
    have e : bankroll * (1 / 100) = bankroll / 100 := by ring
    rw [e]
    split_ifs with h
    · exact (min_eq_right (le_of_lt h)).symm
    · exact (min_eq_left (le_of_not_gt h)).symm
  have hmpos : 0 < min (quarterKelly bankroll backOdds fairOdds) (bankroll / 100) :=
    lt_min hq (by positivity)
  have hfl : (0 : ℤ) ≤
      ⌊min (quarterKelly bankroll backOdds fairOdds) (bankroll / 100) * 2 + 1 / 2⌋ :=
    Int.floor_nonneg.mpr (by linarith)
  have hnn : ¬ ((⌊min (quarterKelly bankroll backOdds fairOdds) (bankroll / 100) * 2
      + 1 / 2⌋ : ℤ) : ℚ) / 2 < 0 := by
    have : (0 : ℚ) ≤ ((⌊min (quarterKelly bankroll backOdds fairOdds) (bankroll / 100) * 2
      + 1 / 2⌋ : ℤ) : ℚ) := by exact_mod_cast hfl
    intro h
    linarith
  unfold calculateKellyStake Math_round
  rw [if_neg hguard]
  simp only []
  rw [if_neg hev, if_neg hden]
  have hq' : bankroll * ((backOdds / fairOdds - 1) / (backOdds - 1)) * (1 / 4) =
      quarterKelly bankroll backOdds fairOdds := rfl
  rw [hq', hmin, if_neg (half_int_not_small _), if_neg hnn]

/-- With valid inputs and no positive edge the calculator returns 0. -/
theorem calculateKellyStake_no_edge (bankroll backOdds fairOdds : ℚ)
    (hb : 0 < bankroll) (ho : 1 < backOdds) (hf : 1 < fairOdds)
    (hev : backOdds / fairOdds - 1 ≤ 0) :
    calculateKellyStake bankroll backOdds fairOdds = 0 := by
  have hguard : ¬ (bankroll = 0 ∨ bankroll ≤ 0 ∨ backOdds = 0 ∨ backOdds ≤ 1 ∨
      fairOdds = 0 ∨ fairOdds ≤ 1) := by
    rintro (h | h | h | h | h | h) <;> linarith
  unfold calculateKellyStake
  rw [if_neg hguard]
  simp only []
  rw [if_pos hev]

/-- Claim C2 (amended). In exact arithmetic, that is with every operation of the function
carried out without rounding error: for bankroll > 0, backOdds > 1 and fairOdds > 1,
`calculateKellyStake` returns 0 when `backOdds / fairOdds - 1 ≤ 0`, and otherwise
`⌊2 * x + 1/2⌋ / 2` where
`x = min (bankroll * ((backOdds / fairOdds - 1) / (backOdds - 1)) * (1/4)) (bankroll / 100)`:
the quarter-Kelly stake, capped at 1% of the bankroll, rounded to the nearest 0.50 with halves
rounded up. -/
theorem C2_calculateKellyStake_formula (bankroll backOdds fairOdds : ℚ)
    (hb : 0 < bankroll) (ho : 1 < backOdds) (hf : 1 < fairOdds) :
    (backOdds / fairOdds - 1 ≤ 0 → calculateKellyStake bankroll backOdds fairOdds = 0) ∧
    (¬ backOdds / fairOdds - 1 ≤ 0 →
      calculateKellyStake bankroll backOdds fairOdds =
        ((⌊2 * min (bankroll * ((backOdds / fairOdds - 1) / (backOdds - 1)) * (1 / 4))
            (bankroll / 100) + 1 / 2⌋ : ℤ) : ℚ) / 2) := by
  constructor
  · intro hev
    exact calculateKellyStake_no_edge bankroll backOdds fairOdds hb ho hf hev
  · intro hev
    rw [calculateKellyStake_of_edge bankroll backOdds fairOdds hb ho hf hev, mul_comm 2]
    rfl

/-- Witness for C2: bankroll 3000, back odds 2, fair odds 3/2 give the stake 30, which is the
capped (1% of 3000) value. -/
theorem C2_calculateKellyStake_formula_witness :
    calculateKellyStake 3000 2 (3 / 2) =
        ((⌊2 * min ((3000 : ℚ) * (((2 : ℚ) / (3 / 2) - 1) / (2 - 1)) * (1 / 4))
            ((3000 : ℚ) / 100) + 1 / 2⌋ : ℤ) : ℚ) / 2 :=
  (C2_calculateKellyStake_formula 3000 2 (3 / 2) (by norm_num) (by norm_num)
    (by norm_num)).2 (by norm_num)

/-- Claim C3. `calculateKellyStake` is total (it has no failing path) and returns exactly 0
whenever bankroll ≤ 0, or backOdds ≤ 1, or fairOdds ≤ 1, or backOdds / fairOdds ≤ 1. -/
theorem C3_calculateKellyStake_zero (bankroll backOdds fairOdds : ℚ)
    (h : bankroll ≤ 0 ∨ backOdds ≤ 1 ∨ fairOdds ≤ 1 ∨ backOdds / fairOdds ≤ 1) :
    calculateKellyStake bankroll backOdds fairOdds = 0 := by
  unfold calculateKellyStake
  by_cases hguard : bankroll = 0 ∨ bankroll ≤ 0 ∨ backOdds = 0 ∨ backOdds ≤ 1 ∨
      fairOdds = 0 ∨ fairOdds ≤ 1
  · rw [if_pos hguard]
  · rw [if_neg hguard]
    simp only []
    have hev : backOdds / fairOdds - 1 ≤ 0 := by
      rcases h with h | h | h | h
      · exact absurd (Or.inr (Or.inl h)) hguard
      · exact absurd (Or.inr (Or.inr (Or.inr (Or.inl h)))) hguard
      · exact absurd (Or.inr (Or.inr (Or.inr (Or.inr (Or.inr h))))) hguard
      · linarith
    rw [if_pos hev]

/-- Witness for C3: equal back and fair odds (no edge) give the stake 0. -/
theorem C3_calculateKellyStake_zero_witness :
    ((3000 : ℚ) ≤ 0 ∨ (2 : ℚ) ≤ 1 ∨ (2 : ℚ) ≤ 1 ∨ (2 : ℚ) / 2 ≤ 1) ∧
      calculateKellyStake 3000 2 2 = 0 :=
  ⟨by norm_num, C3_calculateKellyStake_zero 3000 2 2 (by norm_num)⟩

/-- Counterexample to C4 as stated: with bankroll 130, back odds 2 and fair odds 3/2 the cap is
1.30, the capped stake 1.30 is rounded to 1.50, and 1.50 exceeds 1% of the bankroll. -/
theorem C4_cap_counterexample :
    ¬ (∀ bankroll backOdds fairOdds : ℚ, 0 < bankroll → 1 < backOdds → 1 < fairOdds →
        calculateKellyStake bankroll backOdds fairOdds ≤ (1 / 100) * bankroll) := by
  intro h
  have h1 := h 130 2 (3 / 2) (by norm_num) (by norm_num) (by norm_num)
  norm_num [calculateKellyStake, Math_round] at h1

/-- Claim C4, amended. For bankroll > 0, backOdds > 1 and fairOdds > 1 the stake is at most the
1% cap rounded to the nearest 0.50 (halves up), and therefore at most 1% of the bankroll plus
0.25. -/
theorem C4_calculateKellyStake_le_rounded_cap (bankroll backOdds fairOdds : ℚ)
    (hb : 0 < bankroll) (ho : 1 < backOdds) (hf : 1 < fairOdds) :
    calculateKellyStake bankroll backOdds fairOdds ≤
        ((Math_round (bankroll / 100 * 2) : ℤ) : ℚ) / 2 ∧
    calculateKellyStake bankroll backOdds fairOdds ≤ bankroll / 100 + 1 / 4 := by
  have hr : ((Math_round (bankroll / 100 * 2) : ℤ) : ℚ) / 2 ≤ bankroll / 100 + 1 / 4 := by
    have := Int.floor_le (bankroll / 100 * 2 + 1 / 2)
    unfold Math_round
    linarith
  have h0 : (0 : ℚ) ≤ ((Math_round (bankroll / 100 * 2) : ℤ) : ℚ) / 2 := by
    have : (0 : ℤ) ≤ Math_round (bankroll / 100 * 2) :=
      Int.floor_nonneg.mpr (by positivity)
    have : (0 : ℚ) ≤ ((Math_round (bankroll / 100 * 2) : ℤ) : ℚ) := by exact_mod_cast this
    linarith
  by_cases hev : backOdds / fairOdds - 1 ≤ 0
  · rw [calculateKellyStake_no_edge bankroll backOdds fairOdds hb ho hf hev]
    exact ⟨h0, by linarith⟩
  · rw [calculateKellyStake_of_edge bankroll backOdds fairOdds hb ho hf hev]
    have hmono : ⌊min (quarterKelly bankroll backOdds fairOdds) (bankroll / 100) * 2 + 1 / 2⌋
        ≤ Math_round (bankroll / 100 * 2) := by
      unfold Math_round
      apply Int.floor_mono
      have := min_le_right (quarterKelly bankroll backOdds fairOdds) (bankroll / 100)
      linarith
    have hc : ((⌊min (quarterKelly bankroll backOdds fairOdds) (bankroll / 100) * 2
        + 1 / 2⌋ : ℤ) : ℚ) ≤ ((Math_round (bankroll / 100 * 2) : ℤ) : ℚ) := by
      exact_mod_cast hmono
    constructor
    · linarith
    · linarith

/-- Witness for the amended C4 at the counterexample's input: the stake 1.50 is the rounded
cap. -/
theorem C4_calculateKellyStake_le_rounded_cap_witness :
    calculateKellyStake 130 2 (3 / 2) ≤ ((Math_round ((130 : ℚ) / 100 * 2) : ℤ) : ℚ) / 2 ∧
    calculateKellyStake 130 2 (3 / 2) ≤ (130 : ℚ) / 100 + 1 / 4 :=
  C4_calculateKellyStake_le_rounded_cap 130 2 (3 / 2) (by norm_num) (by norm_num) (by norm_num)

/-- Claim C5, the code at the failing input. With bankroll 10, back odds 2 and fair odds 3/2 the
inputs are valid and the edge is positive (2 > 3/2), the stake before rounding is the cap 0.10,
yet the calculator returns 0 and not the minimum stake 0.50: the minimum-stake test runs after
the rounding, where 0.10 has already become 0. -/
theorem C5_minimum_stake_missed :
    (0 : ℚ) < 10 ∧ (1 : ℚ) < 2 ∧ (1 : ℚ) < 3 / 2 ∧ (3 / 2 : ℚ) < 2 ∧
    0 < min (quarterKelly 10 2 (3 / 2)) ((10 : ℚ) / 100) ∧
    calculateKellyStake 10 2 (3 / 2) = 0 := by
  refine ⟨by norm_num, by norm_num, by norm_num, by norm_num, ?_, ?_⟩
  · norm_num [quarterKelly]
  · norm_num [calculateKellyStake, Math_round]

/-! ## Theorems: the stake calculator in double arithmetic -/

/-- Away from a tie, `roundHalfEven` is the nearest integer. -/
theorem roundHalfEven_eq {x : ℚ} {m : ℤ} (h1 : (m : ℚ) - 1 / 2 < x) (h2 : x < m + 1 / 2) :
    roundHalfEven x = m := by
  have hf : ⌊x + 1 / 2⌋ = m := by
    rw [Int.floor_eq_iff]
    constructor <;> linarith
  unfold roundHalfEven
  simp only [hf]
  rw [if_neg]
  rintro ⟨h, -⟩
  linarith

/-- The double nearest to a positive `q`: when `q * 2^k` lies in `[2^52, 2^53)` and is nearer
to the integer `m` than to any other, the double is `m / 2^k`. -/
theorem toDouble_eq {q : ℚ} (m : ℤ) (k : ℕ) (hq : 0 < q)
    (h1 : (2 : ℚ) ^ 52 ≤ q * 2 ^ k) (h2 : q * 2 ^ k < 2 ^ 53)
    (h3 : (m : ℚ) - 1 / 2 < q * 2 ^ k) (h4 : q * 2 ^ k < m + 1 / 2) :
    toDouble q = m / 2 ^ k := by
  have hp : (0 : ℚ) < 2 ^ k := by positivity
  have hlog : Int.log 2 |q| = 52 - (k : ℤ) := by
    rw [abs_of_pos hq]
    have ha : (52 - (k : ℤ)) ≤ Int.log 2 q := by
      rw [← Int.zpow_le_iff_le_log (by norm_num) hq]
      rw [zpow_sub₀ (by norm_num), zpow_natCast]
      simp only [Nat.cast_ofNat]
      rw [div_le_iff₀ hp]
      exact_mod_cast h1
    have hb : Int.log 2 q < 53 - (k : ℤ) := by
      rw [← Int.lt_zpow_iff_log_lt (by norm_num) hq]
      rw [zpow_sub₀ (by norm_num), zpow_natCast]
      simp only [Nat.cast_ofNat]
      rw [lt_div_iff₀ hp]
      exact_mod_cast h2
    omega
  unfold toDouble
  rw [if_neg (ne_of_gt hq)]
  simp only [hlog]
  have he : (52 - (k : ℤ) - 52) = -(k : ℤ) := by ring
  rw [he, zpow_neg, zpow_natCast, div_inv_eq_mul, roundHalfEven_eq h3 h4]
  rfl

/-- The doubles of the computation of `calculateKellyStake({ bankroll: 125, impliedOdds: 6,
fairOdds: 5 })`, operation by operation: `6 / 5` is rounded to the double 1.2, which lies
below 6/5, the expected value is 0.19999999999999996, the raw fraction 0.039999999999999994, the raw stake
4.999999999999999, the quarter stake 1.2499999999999998 and the cap exactly 1.25. -/
theorem kellyDouble_steps :
    toDouble ((6 : ℚ) / 5) = 5404319552844595 / 2 ^ 52 ∧
    toDouble ((5404319552844595 : ℚ) / 2 ^ 52 - 1) = 7205759403792792 / 2 ^ 55 ∧
    toDouble ((6 : ℚ) - 1) = 5629499534213120 / 2 ^ 50 ∧
    toDouble ((7205759403792792 : ℚ) / 2 ^ 55 / (5629499534213120 / 2 ^ 50)) =
      5764607523034234 / 2 ^ 57 ∧
    toDouble ((125 : ℚ) * (5764607523034234 / 2 ^ 57)) = 5629499534213119 / 2 ^ 50 ∧
    toDouble ((1 : ℚ) / 4) = 4503599627370496 / 2 ^ 54 ∧
    toDouble ((5629499534213119 : ℚ) / 2 ^ 50 * (4503599627370496 / 2 ^ 54)) =
      5629499534213119 / 2 ^ 52 ∧
    toDouble ((1 : ℚ) / 100) = 5764607523034235 / 2 ^ 59 ∧
    toDouble ((125 : ℚ) * (5764607523034235 / 2 ^ 59)) = 5629499534213120 / 2 ^ 52 ∧
    toDouble ((5629499534213119 : ℚ) / 2 ^ 52 * 2) = 5629499534213119 / 2 ^ 51 ∧
    toDouble ((((2 : ℤ) : ℚ)) / 2) = 4503599627370496 / 2 ^ 52 := by
  refine ⟨?_, ?_, ?_, ?_, ?_, ?_, ?_, ?_, ?_, ?_, ?_⟩
  · exact toDouble_eq 5404319552844595 52 (by norm_num) (by norm_num) (by norm_num)
      (by norm_num) (by norm_num)
  · exact toDouble_eq 7205759403792792 55 (by norm_num) (by norm_num) (by norm_num)
      (by norm_num) (by norm_num)
  · exact toDouble_eq 5629499534213120 50 (by norm_num) (by norm_num) (by norm_num)
      (by norm_num) (by norm_num)
  · exact toDouble_eq 5764607523034234 57 (by norm_num) (by norm_num) (by norm_num)
      (by norm_num) (by norm_num)
  · exact toDouble_eq 5629499534213119 50 (by norm_num) (by norm_num) (by norm_num)
      (by norm_num) (by norm_num)
  · exact toDouble_eq 4503599627370496 54 (by norm_num) (by norm_num) (by norm_num)
      (by norm_num) (by norm_num)
  · exact toDouble_eq 5629499534213119 52 (by norm_num) (by norm_num) (by norm_num)
      (by norm_num) (by norm_num)
  · exact toDouble_eq 5764607523034235 59 (by norm_num) (by norm_num) (by norm_num)
      (by norm_num) (by norm_num)
  · exact toDouble_eq 5629499534213120 52 (by norm_num) (by norm_num) (by norm_num)
      (by norm_num) (by norm_num)
  · exact toDouble_eq 5629499534213119 51 (by norm_num) (by norm_num) (by norm_num)
      (by norm_num) (by norm_num)
  · exact toDouble_eq 4503599627370496 52 (by norm_num) (by norm_num) (by norm_num)
      (by norm_num) (by norm_num)

/-- In double arithmetic `calculateKellyStake({ bankroll: 125, impliedOdds: 6, fairOdds: 5 })`
returns 1: twice the quarter stake is 2.4999999999999996, which `Math.round` takes to 2. -/
theorem calculateKellyStakeDouble_example : calculateKellyStakeDouble 125 6 5 = 1 := by
  obtain ⟨e1, e2, e3, e4, e5, e6, e7, e8, e9, e10, e11⟩ := kellyDouble_steps
  have hguard : ¬ ((125 : ℚ) = 0 ∨ (125 : ℚ) ≤ 0 ∨ (6 : ℚ) = 0 ∨ (6 : ℚ) ≤ 1 ∨
      (5 : ℚ) = 0 ∨ (5 : ℚ) ≤ 1) := by norm_num
  have hev : ¬ ((7205759403792792 : ℚ) / 2 ^ 55 ≤ 0) := by norm_num
  have hden : ¬ ((5629499534213120 : ℚ) / 2 ^ 50 ≤ 0) := by norm_num
  have hcap : ¬ ((5629499534213119 : ℚ) / 2 ^ 52 > 5629499534213120 / 2 ^ 52) := by norm_num
  have hround : Math_round ((5629499534213119 : ℚ) / 2 ^ 51) = 2 := by
    norm_num [Math_round]
  have hmin : ¬ ((4503599627370496 : ℚ) / 2 ^ 52 > 0 ∧
      (4503599627370496 : ℚ) / 2 ^ 52 < 1 / 2) := by norm_num
  have hneg : ¬ ((4503599627370496 : ℚ) / 2 ^ 52 < 0) := by norm_num
  unfold calculateKellyStakeDouble
  rw [if_neg hguard]
  simp only [e1, e2, e3, e4, e5, e6, e7, e8, e9]
  rw [if_neg hev, if_neg hden, if_neg hcap]
  simp only [e10, hround, e11]
  rw [if_neg hmin, if_neg hneg]
  norm_num

/-- Counterexample to C2 as stated: the arguments 125, 6 and 5 are doubles, the bankroll is
positive, both odds exceed 1 and the edge is positive; the formula of the claim gives the stake
3/2 (the quarter-Kelly stake 1.25 equals the cap and is rounded up), but in the double
arithmetic of the code `calculateKellyStake` returns 1. -/
theorem C2_double_rounding_counterexample :
    ¬ (∀ bankroll backOdds fairOdds : ℚ, toDouble bankroll = bankroll →
        toDouble backOdds = backOdds → toDouble fairOdds = fairOdds →
        0 < bankroll → 1 < backOdds → 1 < fairOdds → ¬ backOdds / fairOdds - 1 ≤ 0 →
        calculateKellyStakeDouble bankroll backOdds fairOdds =
          ((⌊2 * min (bankroll * ((backOdds / fairOdds - 1) / (backOdds - 1)) * (1 / 4))
              (bankroll / 100) + 1 / 2⌋ : ℤ) : ℚ) / 2) := by
  intro h
  have d1 : toDouble (125 : ℚ) = 125 := by
    rw [toDouble_eq 8796093022208000 46 (by norm_num) (by norm_num) (by norm_num)
      (by norm_num) (by norm_num)]
    norm_num
  have d2 : toDouble (6 : ℚ) = 6 := by
    rw [toDouble_eq 6755399441055744 50 (by norm_num) (by norm_num) (by norm_num)
      (by norm_num) (by norm_num)]
    norm_num
  have d3 : toDouble (5 : ℚ) = 5 := by
    rw [toDouble_eq 5629499534213120 50 (by norm_num) (by norm_num) (by norm_num)
      (by norm_num) (by norm_num)]
    norm_num
  have h1 := h 125 6 5 d1 d2 d3 (by norm_num) (by norm_num) (by norm_num) (by norm_num)
  rw [calculateKellyStakeDouble_example] at h1
  norm_num at h1

/-! ## Theorems: settle and unsettle -/

/-- Claim C1. For every state whose store holds a pending bet `b` (found under its id, stake > 0,
commission absent or in [0,100]) and every outcome among win (back odds > 1), loss, push and
part-win (numeric userReturn ≥ 0): if all persistence writes succeed, `settleBet` succeeds,
the following `unsettleBet` of the same id succeeds, and the bankroll is exactly its value
before the settle. -/
theorem C1_settle_then_unsettle_restores_bankroll (w : World) (idx : Nat) (b : Bet)
    (outcome : String) (userReturn : Option ℚ)
    (hfind : findBet w.bets b.id = some (idx, b)) (hpend : b.status = "pending")
    (_hstake : 0 < b.stake) (_hcomm : ∀ c, b.commission = some c → 0 ≤ c ∧ c ≤ 100)
    (hout : (outcome = "win" ∧ ∃ o, b.backOdds = some o ∧ 1 < o) ∨ outcome = "loss" ∨
      outcome = "push" ∨ (outcome = "part-win" ∧ ∃ u, userReturn = some u ∧ 0 ≤ u))
    (hw : AllWritesSucceed w) :
    ∃ r1 w1 r2 w2, settleBet w b.id outcome userReturn = (.ok r1, w1) ∧
      unsettleBet w1 b.id = (.ok r2, w2) ∧ w2.bankroll = w.bankroll := by
  obtain ⟨s, hs⟩ := settleSwitch_ok_of_valid b outcome userReturn hout
  exact settle_unsettle_bankroll hw hfind hpend hs

/-- Witness for C1: `exBet` in `exWorld`, settled as a win and unsettled again. -/
theorem C1_settle_then_unsettle_restores_bankroll_witness :
    ∃ r1 w1 r2 w2, settleBet exWorld exBet.id "win" none = (.ok r1, w1) ∧
      unsettleBet w1 exBet.id = (.ok r2, w2) ∧ w2.bankroll = exWorld.bankroll :=
  C1_settle_then_unsettle_restores_bankroll exWorld 0 exBet "win" none rfl rfl
    (by norm_num [exBet])
    (by intro c hc; simp only [exBet, Option.some.injEq] at hc; subst hc; norm_num)
    (Or.inl ⟨rfl, 2, rfl, by norm_num⟩) (by decide)

/-- A successful `settleBet` on the bet found under the id: the `switch` fixed a settlement,
the returned record is the bet with it applied, the bankroll grew by the adjustment and the
record replaced the bet in the store. -/
theorem settleBet_ok_at {w w1 : World} {betId result : String} {userReturn : Option ℚ}
    {idx : Nat} {b r : Bet} (hfind : findBet w.bets betId = some (idx, b))
    (hok : settleBet w betId result userReturn = (.ok r, w1)) :
    ∃ s, settleSwitch b result userReturn = .ok s ∧ r = applySettlement b s ∧
      w1.bankroll = w.bankroll + s.bankrollAdjustment ∧ w1.bets = w.bets.set idx r := by
  obtain ⟨idx1, bet, s, h1, -, h3, h4, h5, h6⟩ := settleBet_ok_inv hok
  rw [hfind] at h1
  simp only [Option.some.injEq, Prod.mk.injEq] at h1
  obtain ⟨rfl, rfl⟩ := h1
  exact ⟨s, h3, h4, h5, h6⟩

/-- The rate written with the words of the specification is the `commissionRate` of the
source. -/
theorem commissionRate_eq (b : Bet) :
    (match b.commission with
      | some c => if 0 < c then c / 100 else 0
      | none => 0) = commissionRate b := by
  unfold commissionRate
  cases b.commission <;> rfl

/-- The settlement fixed by the `win` branch for a positive stake and back odds above 1. -/
theorem settleSwitch_win {b : Bet} {userReturn : Option ℚ} {o : ℚ} {s : Settlement}
    (hs : 0 < b.stake) (ho : b.backOdds = some o) (ho1 : 1 < o)
    (h : settleSwitch b "win" userReturn = .ok s) :
    s.bankrollAdjustment = b.stake + b.stake * (o - 1) * (1 - commissionRate b) ∧
      s.newStatus = "win" ∧ s.profitLoss = b.stake * (o - 1) * (1 - commissionRate b) := by
  have hg : b.stake * (o - 1) > 0 := mul_pos hs (by linarith)
  unfold settleSwitch at h
  simp only [if_true, ho, if_neg (not_le.mpr ho1), if_pos hg, Except.ok.injEq] at h
  subst h
  refine ⟨?_, rfl, ?_⟩ <;> simp only <;> ring

/-- The settlement fixed by the `part-win` branch for a numeric return `u ≥ 0`. -/
theorem settleSwitch_partWin {b : Bet} {u : ℚ} {s : Settlement} (hu : 0 ≤ u)
    (h : settleSwitch b "part-win" (some u) = .ok s) :
    s.bankrollAdjustment = u - max 0 (u - b.stake) * commissionRate b ∧
      s.newStatus = "partial-win" ∧
      s.profitLoss = (u - b.stake) - max 0 (u - b.stake) * commissionRate b ∧
      s.partialReturn = some (u - max 0 (u - b.stake) * commissionRate b) := by
  have hmax : (if u - b.stake > 0 then (u - b.stake) * commissionRate b else 0) =
      max 0 (u - b.stake) * commissionRate b := by
    split_ifs with hp
    · rw [max_eq_right (le_of_lt hp)]
    · rw [max_eq_left (le_of_not_gt hp), zero_mul]
  unfold settleSwitch at h
  have e1 : ¬ ("part-win" = "win") := by decide
  have e2 : ¬ ("part-win" = "loss") := by decide
  have e3 : ¬ ("part-win" = "push") := by decide
  simp only [if_neg e1, if_neg e2, if_neg e3, if_true, if_neg (not_lt.mpr hu), hmax,
    Except.ok.injEq] at h
  subst h
  exact ⟨rfl, rfl, rfl, rfl⟩

/-- The settlements fixed by the `loss` and `push` branches. -/
theorem settleSwitch_loss {b : Bet} {userReturn : Option ℚ} {s : Settlement}
    (h : settleSwitch b "loss" userReturn = .ok s) :
    s.bankrollAdjustment = 0 ∧ s.newStatus = "loss" ∧ s.profitLoss = -b.stake := by
  unfold settleSwitch at h
  have e1 : ¬ ("loss" = "win") := by decide
  simp only [if_neg e1, if_true, Except.ok.injEq] at h
  subst h
  exact ⟨rfl, rfl, rfl⟩

theorem settleSwitch_push {b : Bet} {userReturn : Option ℚ} {s : Settlement}
    (h : settleSwitch b "push" userReturn = .ok s) :
    s.bankrollAdjustment = b.stake ∧ s.newStatus = "push" ∧ s.profitLoss = 0 := by
  unfold settleSwitch at h
  have e1 : ¬ ("push" = "win") := by decide
  have e2 : ¬ ("push" = "loss") := by decide
  simp only [if_neg e1, if_neg e2, if_true, Except.ok.injEq] at h
  subst h
  exact ⟨rfl, rfl, rfl⟩

/-- Claim C6. For every pending bet with stake s > 0, back odds o > 1 and commission c
(rate = c/100 if c is present and > 0, else 0), a successful `settleBet(id, 'win')` increases
the bankroll by exactly `s + s*(o-1)*(1-rate)`, returns and stores (in place of the bet) a record
with status `win` and `profitLoss = s*(o-1)*(1-rate)`; for s = 100, o = 2, c = 10 the credit is
190 and the profitLoss is 90. -/
theorem C6_settle_win (w w1 : World) (betId : String) (idx : Nat) (b r : Bet) (o rate : ℚ)
    (userReturn : Option ℚ)
    (hfind : findBet w.bets betId = some (idx, b)) (_hpend : b.status = "pending")
    (hs : 0 < b.stake) (ho : b.backOdds = some o) (ho1 : 1 < o)
    (hrate : rate = match b.commission with
      | some c => if 0 < c then c / 100 else 0
      | none => 0)
    (hok : settleBet w betId "win" userReturn = (.ok r, w1)) :
    (w1.bankroll = w.bankroll + (b.stake + b.stake * (o - 1) * (1 - rate)) ∧
      r.status = "win" ∧ r.profitLoss = some (b.stake * (o - 1) * (1 - rate)) ∧
      w1.bets = w.bets.set idx r) ∧
    (b.stake = 100 → o = 2 → b.commission = some 10 →
      w1.bankroll = w.bankroll + 190 ∧ r.profitLoss = some 90) := by
  rw [commissionRate_eq] at hrate
  obtain ⟨s, h1, h2, h3, h4⟩ := settleBet_ok_at hfind hok
  obtain ⟨k1, k2, k3⟩ := settleSwitch_win hs ho ho1 h1
  have hpl : r.profitLoss = some (b.stake * (o - 1) * (1 - rate)) := by
    rw [h2, hrate, ← k3]
    rfl
  have hbank : w1.bankroll = w.bankroll + (b.stake + b.stake * (o - 1) * (1 - rate)) := by
    rw [h3, k1, hrate]
  refine ⟨⟨hbank, ?_, hpl, h4⟩, ?_⟩
  · rw [h2, ← k2]
    rfl
  · intro e1 e2 e3
    have hr : rate = 1 / 10 := by
      rw [hrate]
      unfold commissionRate
      rw [e3]
      norm_num
    rw [hbank, hpl, e1, e2, hr]
    norm_num

/-- Witness for C6: `exBet` (stake 100, odds 2.0, commission 10) settled as a win in
`exWorld` credits 190 and stores the profitLoss 90. -/
theorem C6_settle_win_witness :
    ∃ r w1, settleBet exWorld "AB12C" "win" none = (.ok r, w1) ∧
      w1.bankroll = exWorld.bankroll + 190 ∧ r.profitLoss = some 90 := by
  obtain ⟨s, hs⟩ := settleSwitch_ok_of_valid exBet "win" none
    (Or.inl ⟨rfl, 2, rfl, by norm_num⟩)
  obtain ⟨w1, h1, -⟩ :=
    @settleBet_of_allok exWorld "AB12C" "win" none 0 exBet s (by decide) rfl rfl hs
  exact ⟨_, w1, h1,
    (C6_settle_win exWorld w1 "AB12C" 0 exBet _ 2 (1 / 10) none rfl rfl (by norm_num [exBet])
      rfl (by norm_num) (by norm_num [exBet]) h1).2 rfl rfl rfl⟩

/-- Claim C7. For every pending bet with stake s and commission rate r (c/100 if the commission c
is present and > 0, else 0) and every numeric userReturn u ≥ 0, a successful
`settleBet(id, 'part-win', u)` increases the bankroll by exactly `u - max(0, u-s)*r`, returns
and stores a record with status `partial-win`, `profitLoss = (u-s) - max(0, u-s)*r` and
`partialReturn` equal to the bankroll credit, so that `partialReturn = s + profitLoss`; for
s = 100, u = 150, commission 20 the credit is 140, the profitLoss 40 and the partialReturn
140. -/
theorem C7_settle_part_win (w w1 : World) (betId : String) (idx : Nat) (b r : Bet)
    (u rate : ℚ)
    (hfind : findBet w.bets betId = some (idx, b)) (_hpend : b.status = "pending")
    (hrate : rate = match b.commission with
      | some c => if 0 < c then c / 100 else 0
      | none => 0)
    (hu : 0 ≤ u)
    (hok : settleBet w betId "part-win" (some u) = (.ok r, w1)) :
    (w1.bankroll = w.bankroll + (u - max 0 (u - b.stake) * rate) ∧
      r.status = "partial-win" ∧
      r.profitLoss = some ((u - b.stake) - max 0 (u - b.stake) * rate) ∧
      r.partialReturn = some (u - max 0 (u - b.stake) * rate) ∧
      (∀ p pl, r.partialReturn = some p → r.profitLoss = some pl → p = b.stake + pl) ∧
      w1.bets = w.bets.set idx r) ∧
    (b.stake = 100 → u = 150 → b.commission = some 20 →
      w1.bankroll = w.bankroll + 140 ∧ r.profitLoss = some 40 ∧
        r.partialReturn = some 140) := by
  rw [commissionRate_eq] at hrate
  obtain ⟨s, h1, h2, h3, h4⟩ := settleBet_ok_at hfind hok
  obtain ⟨k1, k2, k3, k4⟩ := settleSwitch_partWin hu h1
  have hbank : w1.bankroll = w.bankroll + (u - max 0 (u - b.stake) * rate) := by
    rw [h3, k1, hrate]
  have hpl : r.profitLoss = some ((u - b.stake) - max 0 (u - b.stake) * rate) := by
    rw [h2, hrate, ← k3]
    rfl
  have hpr : r.partialReturn = some (u - max 0 (u - b.stake) * rate) := by
    rw [h2, hrate]
    unfold applySettlement
    simp only [k4]
  refine ⟨⟨hbank, ?_, hpl, hpr, ?_, h4⟩, ?_⟩
  · rw [h2, ← k2]
    rfl
  · intro p pl hp hq
    rw [hpr] at hp
    rw [hpl] at hq
    simp only [Option.some.injEq] at hp hq
    rw [← hp, ← hq]
    ring
  · intro e1 e2 e3
    have hr : rate = 1 / 5 := by
      rw [hrate]
      unfold commissionRate
      rw [e3]
      norm_num
    rw [hbank, hpl, hpr, e1, e2, hr]
    norm_num

/-- Witness for C7: `exBet20` (stake 100, commission 20) settled as a part-win with return 150
credits 140, with profitLoss 40 and partialReturn 140. -/
theorem C7_settle_part_win_witness :
    ∃ r w1, settleBet exWorld20 "AB12C" "part-win" (some 150) = (.ok r, w1) ∧
      w1.bankroll = exWorld20.bankroll + 140 ∧ r.profitLoss = some 40 ∧
      r.partialReturn = some 140 := by
  obtain ⟨s, hs⟩ := settleSwitch_ok_of_valid exBet20 "part-win" (some 150)
    (Or.inr (Or.inr (Or.inr ⟨rfl, 150, rfl, by norm_num⟩)))
  obtain ⟨w1, h1, -⟩ :=
    @settleBet_of_allok exWorld20 "AB12C" "part-win" (some 150) 0 exBet20 s (by decide)
      rfl rfl hs
  exact ⟨_, w1, h1,
    (C7_settle_part_win exWorld20 w1 "AB12C" 0 exBet20 _ 150 (1 / 5) rfl rfl
      (by norm_num [exBet20, exBet]) (by norm_num) h1).2 rfl rfl rfl⟩

/-- Claim C8. For every pending bet with stake s, whatever its odds and commission: a successful
`settleBet(id, 'loss')` leaves the bankroll unchanged and returns and stores a record with
status `loss` and `profitLoss = -s`; a successful `settleBet(id, 'push')` increases the
bankroll by exactly s and returns and stores a record with status `push` and
`profitLoss = 0`. -/
theorem C8_settle_loss_push (w : World) (betId : String) (idx : Nat) (b : Bet)
    (userReturn : Option ℚ)
    (hfind : findBet w.bets betId = some (idx, b)) (_hpend : b.status = "pending") :
    (∀ r w1, settleBet w betId "loss" userReturn = (.ok r, w1) →
      w1.bankroll = w.bankroll ∧ r.status = "loss" ∧ r.profitLoss = some (-b.stake) ∧
        w1.bets = w.bets.set idx r) ∧
    (∀ r w1, settleBet w betId "push" userReturn = (.ok r, w1) →
      w1.bankroll = w.bankroll + b.stake ∧ r.status = "push" ∧ r.profitLoss = some 0 ∧
        w1.bets = w.bets.set idx r) := by
  constructor
  · intro r w1 hok
    obtain ⟨s, h1, h2, h3, h4⟩ := settleBet_ok_at hfind hok
    obtain ⟨k1, k2, k3⟩ := settleSwitch_loss h1
    refine ⟨by rw [h3, k1, add_zero], ?_, ?_, h4⟩
    · rw [h2, ← k2]
      rfl
    · rw [h2, ← k3]
      rfl
  · intro r w1 hok
    obtain ⟨s, h1, h2, h3, h4⟩ := settleBet_ok_at hfind hok
    obtain ⟨k1, k2, k3⟩ := settleSwitch_push h1
    refine ⟨by rw [h3, k1], ?_, ?_, h4⟩
    · rw [h2, ← k2]
      rfl
    · rw [h2, ← k3]
      rfl

/-- Witness for C8: `exBet` settled as a push in `exWorld` credits its stake 100 with
profitLoss 0. -/
theorem C8_settle_loss_push_witness :
    ∃ r w1, settleBet exWorld "AB12C" "push" none = (.ok r, w1) ∧
      w1.bankroll = exWorld.bankroll + exBet.stake ∧ r.status = "push" ∧
      r.profitLoss = some 0 := by
  obtain ⟨s, hs⟩ := settleSwitch_ok_of_valid exBet "push" none (Or.inr (Or.inr (Or.inl rfl)))
  obtain ⟨w1, h1, -⟩ :=
    @settleBet_of_allok exWorld "AB12C" "push" none 0 exBet s (by decide) rfl rfl hs
  have h := (C8_settle_loss_push exWorld "AB12C" 0 exBet none rfl rfl).2 _ w1 h1
  exact ⟨_, w1, h1, h.1, h.2.1, h.2.2.1⟩

/-- Claim C9. Commission is charged only on positive profit and never on principal: for every
pending bet with stake s > 0 and commission absent or in [0,100], a successful settle as `win`
credits the bankroll at least s and stores profitLoss ≥ 0, and a successful settle as
`part-win` with userReturn u ≥ 0 credits at least min(u, s); when u ≤ s the credit is exactly u
and the profitLoss exactly u - s, whatever the commission. -/
theorem C9_commission_on_profit_only (w : World) (betId : String) (idx : Nat) (b : Bet)
    (hfind : findBet w.bets betId = some (idx, b)) (_hpend : b.status = "pending")
    (hs : 0 < b.stake) :
    ((∀ c, b.commission = some c → 0 ≤ c ∧ c ≤ 100) →
      (∀ userReturn r w1, settleBet w betId "win" userReturn = (.ok r, w1) →
        w.bankroll + b.stake ≤ w1.bankroll ∧ ∃ pl, r.profitLoss = some pl ∧ 0 ≤ pl) ∧
      (∀ u r w1, 0 ≤ u → settleBet w betId "part-win" (some u) = (.ok r, w1) →
        w.bankroll + min u b.stake ≤ w1.bankroll)) ∧
    (∀ u r w1, 0 ≤ u → u ≤ b.stake →
      settleBet w betId "part-win" (some u) = (.ok r, w1) →
        w1.bankroll = w.bankroll + u ∧ r.profitLoss = some (u - b.stake)) := by
  constructor
  · intro hc
    have hr0 : 0 ≤ commissionRate b ∧ commissionRate b ≤ 1 := by
      unfold commissionRate
      cases hcm : b.commission with
      | none => simp
      | some c =>
        obtain ⟨c0, c1⟩ := hc c hcm
        simp only
        split_ifs with hpos
        · constructor
          · positivity
          · linarith
        · simp
    constructor
    · intro userReturn r w1 hok
      obtain ⟨s, h1, h2, h3, -⟩ := settleBet_ok_at hfind hok
      have hsw := h1
      unfold settleSwitch at hsw
      cases ho : b.backOdds with
      | none => simp [ho] at hsw
      | some o =>
        by_cases ho1 : o ≤ 1
        · simp [ho, ho1] at hsw
        · obtain ⟨k1, -, k3⟩ := settleSwitch_win hs ho (not_le.mp ho1) h1
          have hnet : 0 ≤ b.stake * (o - 1) * (1 - commissionRate b) := by
            have : 0 ≤ o - 1 := by linarith [not_le.mp ho1]
            have : 0 ≤ 1 - commissionRate b := by linarith [hr0.2]
            positivity
          refine ⟨by rw [h3, k1]; linarith, s.profitLoss, by rw [h2]; rfl, by rw [k3]; exact hnet⟩
    · intro u r w1 hu hok
      obtain ⟨s, h1, -, h3, -⟩ := settleBet_ok_at hfind hok
      obtain ⟨k1, -⟩ := settleSwitch_partWin hu h1
      rw [h3, k1]
      rcases le_total u b.stake with hle | hle
      · rw [min_eq_left hle, max_eq_left (by linarith), zero_mul]
        linarith
      · rw [min_eq_right hle, max_eq_right (by linarith)]
        have : (u - b.stake) * commissionRate b ≤ (u - b.stake) * 1 :=
          mul_le_mul_of_nonneg_left hr0.2 (by linarith)
        linarith
  · intro u r w1 hu hle hok
    obtain ⟨s, h1, h2, h3, -⟩ := settleBet_ok_at hfind hok
    obtain ⟨k1, -, k3, -⟩ := settleSwitch_partWin hu h1
    rw [max_eq_left (by linarith), zero_mul, sub_zero] at k1 k3
    refine ⟨by rw [h3, k1], ?_⟩
    rw [h2, ← k3]
    rfl

/-- Witness for C9: `exBet20` settled as a part-win with return 150 is credited at least its
stake. -/
theorem C9_commission_on_profit_only_witness :
    ∃ r w1, settleBet exWorld20 "AB12C" "part-win" (some 150) = (.ok r, w1) ∧
      exWorld20.bankroll + min 150 exBet20.stake ≤ w1.bankroll := by
  obtain ⟨s, hs⟩ := settleSwitch_ok_of_valid exBet20 "part-win" (some 150)
    (Or.inr (Or.inr (Or.inr ⟨rfl, 150, rfl, by norm_num⟩)))
  obtain ⟨w1, h1, -⟩ :=
    @settleBet_of_allok exWorld20 "AB12C" "part-win" (some 150) 0 exBet20 s (by decide)
      rfl rfl hs
  exact ⟨_, w1, h1,
    ((C9_commission_on_profit_only exWorld20 "AB12C" 0 exBet20 rfl rfl
      (by norm_num [exBet20, exBet])).1
      (by
        intro c hc
        simp only [exBet20, Option.some.injEq] at hc
        subst hc
        norm_num)).2 150 _ w1 (by norm_num) h1⟩

/-! ## Theorems: finalize -/

/-- A successful `deductStake` wrote the bankroll minus the amount and nothing else. -/
theorem deductStake_ok_inv {w w1 : World} {a x : ℚ}
    (h : deductStake w (some a) = (.ok x, w1)) :
    0 < a ∧ a ≤ w.bankroll ∧ w1.bankroll = w.bankroll - a ∧ w1.bets = w.bets := by
  unfold deductStake at h
  simp only at h
  by_cases h1 : a ≤ 0
  · simp [h1] at h
  rw [if_neg h1] at h
  by_cases h2 : w.bankroll < a
  · simp [h2] at h
  rw [if_neg h2] at h
  generalize hsv : saveBankrollData w (w.bankroll - a) = res at h
  obtain ⟨e | u, w2⟩ := res
  · simp at h
  · simp only [Prod.mk.injEq] at h
    obtain ⟨-, rfl⟩ := h
    obtain ⟨k1, k2, -⟩ := saveBankrollData_ok_inv hsv
    exact ⟨not_le.mp h1, not_lt.mp h2, k1, k2⟩

/-- With every write succeeding, `deductStake` of a positive amount within the bankroll
succeeds and writes the difference. -/
theorem deductStake_of_allok {w : World} {a : ℚ} (hw : AllWritesSucceed w) (hpos : 0 < a)
    (hle : a ≤ w.bankroll) :
    ∃ w1, deductStake w (some a) = (.ok (w.bankroll - a), w1) ∧
      w1.bankroll = w.bankroll - a ∧ w1.bets = w.bets ∧ AllWritesSucceed w1 := by
  obtain ⟨w1, h1, h2, h3, h4⟩ := saveBankrollData_of_allok hw (w.bankroll - a)
  refine ⟨w1, ?_, h2, h3, h4⟩
  unfold deductStake
  simp only
  rw [if_neg (not_le.mpr hpos), if_neg (not_lt.mpr hle), h1]

/-- With every write succeeding, a positive stake within the bankroll and a fresh id found,
`finalizeNewBet` succeeds and returns a record with that id. -/
theorem finalizeNewBet_of_allok {w : World} {betInput : BetInput} {stake : ℚ}
    {cands : Nat → String} {now newId : String} (hw : AllWritesSucceed w) (hpos : 0 < stake)
    (hle : stake ≤ w.bankroll) (hg : generateBetId w cands = .ok newId) :
    ∃ r w1, finalizeNewBet w betInput stake cands now = (.ok r, w1) ∧ r.id = newId ∧
      AllWritesSucceed w1 := by
  obtain ⟨w1, h1, -, h3, h4⟩ := deductStake_of_allok hw hpos hle
  have hg1 : generateBetId w1 cands = .ok newId := by
    unfold generateBetId at hg ⊢
    rw [h3]
    exact hg
  unfold finalizeNewBet
  rw [if_neg (not_le.mpr hpos), h1]
  simp only
  rw [hg1]
  simp only
  obtain ⟨w2, k1, -, -, k4⟩ := saveBetsData_of_allok h4 (w1.bets ++ [
    { id := newId, bookmaker := betInput.bookmaker, sport := betInput.sport,
      betName := betInput.betName, backOdds := betInput.backOdds,
      fairOdds := betInput.fairOdds, stake := stake, status := "pending", timestamp := now,
      commission := betInput.commission }])
  rw [k1]
  exact ⟨_, w2, rfl, rfl, k4⟩

/-- Claim C10. A successful `finalizeNewBet(betInput, stake)` with 0 < stake ≤ bankroll decreases
the bankroll by exactly the stake and appends exactly one record to the bet store, every
existing record staying as it was; the new record has status `pending`, the chosen stake, the
input's bookmaker, sport, betName, backOdds and fairOdds, the input's commission (present
exactly when the input carries one), no profitLoss and no partialReturn; that record is the
return value. -/
theorem C10_finalizeNewBet_success (w w1 : World) (betInput : BetInput) (stake : ℚ)
    (cands : Nat → String) (now : String) (r : Bet)
    (_hpos : 0 < stake) (_hle : stake ≤ w.bankroll)
    (hok : finalizeNewBet w betInput stake cands now = (.ok r, w1)) :
    w1.bankroll = w.bankroll - stake ∧ w1.bets = w.bets ++ [r] ∧
      r.status = "pending" ∧ r.stake = stake ∧ r.bookmaker = betInput.bookmaker ∧
      r.sport = betInput.sport ∧ r.betName = betInput.betName ∧
      r.backOdds = betInput.backOdds ∧ r.fairOdds = betInput.fairOdds ∧
      r.commission = betInput.commission ∧
      (r.commission.isSome = true ↔ betInput.commission.isSome = true) ∧
      r.profitLoss = none ∧ r.partialReturn = none := by
  unfold finalizeNewBet at hok
  by_cases h0 : stake ≤ 0
  · simp [h0] at hok
  rw [if_neg h0] at hok
  generalize hd : deductStake w (some stake) = res at hok
  obtain ⟨e | x, w2⟩ := res
  · simp at hok
  simp only at hok
  obtain ⟨-, -, d1, d2⟩ := deductStake_ok_inv hd
  generalize hg : generateBetId w2 cands = g at hok
  obtain e | newId := g
  · simp at hok
  simp only at hok
  generalize hsb : saveBetsData w2 _ = sb at hok
  obtain ⟨e | u, w3⟩ := sb
  · simp at hok
  simp only [Prod.mk.injEq, Except.ok.injEq] at hok
  obtain ⟨rfl, rfl⟩ := hok
  obtain ⟨k1, k2, -⟩ := saveBetsData_ok_inv hsb
  refine ⟨by rw [k1, d1], by rw [k2, d2], rfl, rfl, rfl, rfl, rfl, rfl, rfl, rfl, Iff.rfl,
    rfl, rfl⟩

/-- Witness for C10: a new bet of stake 25 finalized in `exWorld` (bankroll 2900); the first
id candidate collides with the stored bet and the second is taken. -/
theorem C10_finalizeNewBet_success_witness :
    ∃ r w1, finalizeNewBet exWorld exInput 25 exCands "2024-05-02T09:30:00.000Z" = (.ok r, w1) ∧
      w1.bankroll = exWorld.bankroll - 25 ∧ w1.bets = exWorld.bets ++ [r] ∧
      r.status = "pending" ∧ r.stake = 25 := by
  obtain ⟨r, w1, h1, -, -⟩ :=
    @finalizeNewBet_of_allok exWorld exInput 25 exCands "2024-05-02T09:30:00.000Z" "ZX9Q1"
      (by decide) (by norm_num) (by norm_num [exWorld]) rfl
  have h := C10_finalizeNewBet_success exWorld w1 exInput 25 exCands
    "2024-05-02T09:30:00.000Z" r (by norm_num) (by norm_num [exWorld]) h1
  exact ⟨r, w1, h1, h.1, h.2.1, h.2.2.1, h.2.2.2.1⟩


/-! ## Theorems: failures of finalize -/

/-- A failed `saveBankrollData` or `saveBetsData` leaves both files as they were. -/
theorem saveBankrollData_err_inv {w w1 : World} {x : ℚ} {e : Err}
    (h : saveBankrollData w x = (.error e, w1)) :
    e = .persistence ∧ w1.bankroll = w.bankroll ∧ w1.bets = w.bets ∧
      w1.writes = w.writes.tail := by
  unfold saveBankrollData at h
  split at h
  · simp at h
  · simp at h
  · simp only [Prod.mk.injEq, Except.error.injEq] at h
    obtain ⟨rfl, rfl⟩ := h
    simp_all

theorem saveBetsData_err_inv {w w1 : World} {bets : List Bet} {e : Err}
    (h : saveBetsData w bets = (.error e, w1)) :
    e = .persistence ∧ w1.bankroll = w.bankroll ∧ w1.bets = w.bets ∧
      w1.writes = w.writes.tail := by
  unfold saveBetsData at h
  split at h
  · simp at h
  · simp at h
  · simp only [Prod.mk.injEq, Except.error.injEq] at h
    obtain ⟨rfl, rfl⟩ := h
    simp_all

/-- The id generator only reads the bet store. -/
theorem generateBetId_congr {w w1 : World} (h : w1.bets = w.bets) (cands : Nat → String) :
    generateBetId w1 cands = generateBetId w cands := by
  unfold generateBetId
  rw [h]

/-- Claim C11. `finalizeNewBet` fails whenever the chosen stake is ≤ 0 (with `invalidStake`)
and whenever it exceeds the current bankroll (with `insufficientFunds` when the stake is
positive); in both cases the state is returned as it was: no bet record is created and the
bankroll is unchanged. -/
theorem C11_finalizeNewBet_rejects (w : World) (betInput : BetInput) (stake : ℚ)
    (cands : Nat → String) (now : String) :
    (stake ≤ 0 → finalizeNewBet w betInput stake cands now = (.error .invalidStake, w)) ∧
    (w.bankroll < stake →
      ∃ e, finalizeNewBet w betInput stake cands now = (.error e, w) ∧
        (0 < stake → e = .insufficientFunds)) := by
  constructor
  · intro h
    unfold finalizeNewBet
    rw [if_pos h]
  · intro h
    by_cases h0 : stake ≤ 0
    · refine ⟨.invalidStake, ?_, fun hp => absurd h0 (not_le.mpr hp)⟩
      unfold finalizeNewBet
      rw [if_pos h0]
    · refine ⟨.insufficientFunds, ?_, fun _ => rfl⟩
      unfold finalizeNewBet deductStake
      rw [if_neg h0]
      simp only
      rw [if_neg h0, if_pos h]

/-- Witness for C11: a stake of 5000 against the bankroll 2900 of `exWorld` is refused and
the state stays `exWorld`. -/
theorem C11_finalizeNewBet_rejects_witness :
    ∃ e, finalizeNewBet exWorld exInput 5000 exCands "2024-05-02T09:30:00.000Z" =
      (.error e, exWorld) ∧ ((0 : ℚ) < 5000 → e = .insufficientFunds) :=
  (C11_finalizeNewBet_rejects exWorld exInput 5000 exCands "2024-05-02T09:30:00.000Z").2
    (by norm_num [exWorld])

/-- When each of the first 1000 candidates is the id of a stored bet, the loop of the id
generator throws. -/
theorem generateBetIdLoop_collide {bets : List Bet} {cands : Nat → String}
    (h : ∀ k, k < 1000 → bets.any (fun b => b.id = cands k) = true) (fuel attempts : Nat) :
    generateBetIdLoop bets cands fuel attempts = .error .idGenerationFailed := by
  induction fuel generalizing attempts with
  | zero => rfl
  | succ n ih =>
    unfold generateBetIdLoop
    simp only
    by_cases hgt : attempts + 1 > 1000
    · rw [if_pos hgt]
    · rw [if_neg hgt, if_pos (h attempts (by omega))]
      exact ih (attempts + 1)

/-- When the stake was deducted and no fresh id is found, `finalizeNewBet` throws the error of
the id generator and leaves the bankroll reduced by the stake. -/
theorem finalizeNewBet_id_failure {w : World} {betInput : BetInput} {stake : ℚ}
    {cands : Nat → String} {now : String} {e : Err} (hw : AllWritesSucceed w)
    (hpos : 0 < stake) (hle : stake ≤ w.bankroll) (hg : generateBetId w cands = .error e) :
    ∃ w1, finalizeNewBet w betInput stake cands now = (.error e, w1) ∧
      w1.bankroll = w.bankroll - stake ∧ w1.bets = w.bets := by
  obtain ⟨w1, h1, h2, h3, -⟩ := deductStake_of_allok hw hpos hle
  refine ⟨w1, ?_, h2, h3⟩
  unfold finalizeNewBet
  rw [if_neg (not_le.mpr hpos), h1]
  simp only
  rw [generateBetId_congr h3, hg]

/-- Claim C12, the code at the failing input. In `exWorld` (bankroll 2900, every write
succeeding) with random candidates that all collide with the stored id, `finalizeNewBet` of
stake 25 fails with `idGenerationFailed` after the deduction: no bet is added, but the
bankroll ends at 2875 and not at its value before the call. -/
theorem C12_id_failure_keeps_deduction :
    AllWritesSucceed exWorld ∧
    ∃ w1, finalizeNewBet exWorld exInput 25 exCollide "2024-05-02T09:30:00.000Z" =
        (.error .idGenerationFailed, w1) ∧
      w1.bets = exWorld.bets ∧ w1.bankroll = 2875 ∧ w1.bankroll ≠ exWorld.bankroll := by
  refine ⟨by decide, ?_⟩
  have hc : ∀ k, k < 1000 → exWorld.bets.any (fun b => b.id = exCollide k) = true := by
    intro k _
    rfl
  obtain ⟨w1, h1, h2, h3⟩ :=
    @finalizeNewBet_id_failure exWorld exInput 25 exCollide "2024-05-02T09:30:00.000Z"
      .idGenerationFailed (by decide) (by norm_num) (by norm_num [exWorld])
      (generateBetIdLoop_collide hc 1001 0)
  refine ⟨w1, h1, h3, ?_, ?_⟩
  · rw [h2]
    norm_num [exWorld]
  · rw [h2]
    norm_num [exWorld]

/-- Claim C13. If `finalizeNewBet` deducts the stake (the ledger write succeeds), the bet-store
write then fails and the compensating `addWinnings(chosenStake)` succeeds, the call fails with
the persistence error, the bankroll equals its value before the call and the persisted bet
store is unchanged. -/
theorem C13_finalizeNewBet_compensation (w w1 w2 w3 : World) (betInput : BetInput)
    (stake x y : ℚ) (cands : Nat → String) (now newId : String) (e : Err) (bets : List Bet)
    (hpos : 0 < stake)
    (hdeduct : deductStake w (some stake) = (.ok x, w1))
    (hid : generateBetId w1 cands = .ok newId)
    (hsave : saveBetsData w1 bets = (.error e, w2))
    (hbets : bets = w1.bets ++ [
      { id := newId, bookmaker := betInput.bookmaker, sport := betInput.sport,
        betName := betInput.betName, backOdds := betInput.backOdds,
        fairOdds := betInput.fairOdds, stake := stake, status := "pending", timestamp := now,
        commission := betInput.commission }])
    (hcomp : addWinnings w2 (some stake) = (.ok y, w3)) :
    finalizeNewBet w betInput stake cands now = (.error .persistence, w3) ∧
      w3.bankroll = w.bankroll ∧ w3.bets = w.bets := by
  subst hbets
  obtain ⟨-, -, d1, d2⟩ := deductStake_ok_inv hdeduct
  obtain ⟨rfl, s1, s2, -⟩ := saveBetsData_err_inv hsave
  obtain ⟨a1, a2, -⟩ := addWinnings_ok_inv hcomp
  refine ⟨?_, ?_, ?_⟩
  · unfold finalizeNewBet
    rw [if_neg (not_le.mpr hpos), hdeduct]
    simp only
    rw [hid]
    simp only
    rw [hsave]
    simp only
    rw [hcomp]
  · rw [a1, s1, d1]
    simp
  · rw [a2, s2, d2]

/-- Witness for C13: in `exWorldSaveFails` the deduction is written, the bet-store write fails
and the compensating credit is written; the call fails with the persistence error and the
bankroll is 2900 again. -/
theorem C13_finalizeNewBet_compensation_witness :
    finalizeNewBet exWorldSaveFails exInput 25 exCands "2024-05-02T09:30:00.000Z" =
        (.error .persistence, { bankroll := 2900, bets := [exBet], writes := [] }) ∧
      (2900 : ℚ) = exWorldSaveFails.bankroll ∧ [exBet] = exWorldSaveFails.bets :=
  C13_finalizeNewBet_compensation exWorldSaveFails
    { bankroll := 2875, bets := [exBet], writes := [false, true] }
    { bankroll := 2875, bets := [exBet], writes := [true] }
    { bankroll := 2900, bets := [exBet], writes := [] }
    exInput 25 2875 2900 exCands "2024-05-02T09:30:00.000Z" "ZX9Q1" .persistence _
    (by norm_num)
    (by norm_num [deductStake, saveBankrollData, exWorldSaveFails])
    rfl
    rfl
    rfl
    (by norm_num [addWinnings, saveBankrollData])

/-! ## Theorems: id generation -/

/-- An id returned by the loop of the id generator is the id of no stored bet. -/
theorem generateBetIdLoop_fresh {bets : List Bet} {cands : Nat → String} {newId : String}
    (fuel attempts : Nat) (h : generateBetIdLoop bets cands fuel attempts = .ok newId) :
    ∀ b ∈ bets, b.id ≠ newId := by
  induction fuel generalizing attempts with
  | zero => simp [generateBetIdLoop] at h
  | succ n ih =>
    unfold generateBetIdLoop at h
    simp only at h
    by_cases hgt : attempts + 1 > 1000
    · simp [hgt] at h
    · rw [if_neg hgt] at h
      by_cases hany : bets.any (fun b => b.id = cands attempts) = true
      · rw [if_pos hany] at h
        exact ih (attempts + 1) h
      · rw [if_neg hany] at h
        simp only [Except.ok.injEq] at h
        subst h
        intro b hb hid
        apply hany
        rw [List.any_eq_true]
        exact ⟨b, hb, by simpa using hid⟩

/-- The loop of the id generator, started with enough iterations left, throws only
`idGenerationFailed` and only when every candidate from `attempts` up to the 1000th is the id
of a stored bet. -/
theorem generateBetIdLoop_error {bets : List Bet} {cands : Nat → String} {e : Err}
    (fuel attempts : Nat) (hfuel : 1001 ≤ fuel + attempts)
    (h : generateBetIdLoop bets cands fuel attempts = .error e) :
    e = .idGenerationFailed ∧
      ∀ k, attempts ≤ k → k < 1000 → ∃ b ∈ bets, b.id = cands k := by
  induction fuel generalizing attempts with
  | zero =>
    simp only [generateBetIdLoop, Except.error.injEq] at h
    exact ⟨h.symm, fun k h1 h2 => by omega⟩
  | succ n ih =>
    unfold generateBetIdLoop at h
    simp only at h
    by_cases hgt : attempts + 1 > 1000
    · rw [if_pos hgt] at h
      simp only [Except.error.injEq] at h
      exact ⟨h.symm, fun k h1 h2 => by omega⟩
    · rw [if_neg hgt] at h
      by_cases hany : bets.any (fun b => b.id = cands attempts) = true
      · rw [if_pos hany] at h
        obtain ⟨h1, h2⟩ := ih (attempts + 1) (by omega) h
        refine ⟨h1, fun k hk1 hk2 => ?_⟩
        by_cases hk : k = attempts
        · subst hk
          rw [List.any_eq_true] at hany
          obtain ⟨b, hb, hid⟩ := hany
          exact ⟨b, hb, by simpa using hid⟩
        · exact h2 k (by omega) hk2
      · rw [if_neg hany] at h
        simp at h

/-- A successful `finalizeNewBet` deducted the stake, drew a fresh id from the store it found
and appended the returned record, which carries that id. -/
theorem finalizeNewBet_ok_inv {w w1 : World} {betInput : BetInput} {stake : ℚ}
    {cands : Nat → String} {now : String} {r : Bet}
    (hok : finalizeNewBet w betInput stake cands now = (.ok r, w1)) :
    generateBetId w cands = .ok r.id ∧ w1.bets = w.bets ++ [r] ∧
      w1.bankroll = w.bankroll - stake ∧ r.stake = stake ∧ r.status = "pending" ∧
      r.profitLoss = none ∧ r.partialReturn = none := by
  unfold finalizeNewBet at hok
  by_cases h0 : stake ≤ 0
  · simp [h0] at hok
  rw [if_neg h0] at hok
  generalize hd : deductStake w (some stake) = res at hok
  obtain ⟨e | x, w2⟩ := res
  · simp at hok
  simp only at hok
  obtain ⟨-, -, d1, d2⟩ := deductStake_ok_inv hd
  generalize hg : generateBetId w2 cands = g at hok
  obtain e | newId := g
  · simp at hok
  simp only at hok
  generalize hsb : saveBetsData w2 _ = sb at hok
  obtain ⟨e | u, w3⟩ := sb
  · simp at hok
  simp only [Prod.mk.injEq, Except.ok.injEq] at hok
  obtain ⟨rfl, rfl⟩ := hok
  obtain ⟨k1, k2, -⟩ := saveBetsData_ok_inv hsb
  rw [generateBetId_congr d2] at hg
  exact ⟨hg, by rw [k2, d2], by rw [k1, d1], rfl, rfl, rfl, rfl⟩

/-- Claim C14. Bet ids are unique: for every store whose ids are pairwise distinct and every
sequence of random id candidates, `generateBetId` returns an id different from every id in the
store or fails, so every successful `finalizeNewBet` leaves a store whose ids are still
pairwise distinct; `generateBetId` fails (always with `idGenerationFailed`) only if the first
1000 candidates all collide with existing ids, and it does fail in that case. -/
theorem C14_bet_ids_unique (w : World) (cands : Nat → String)
    (hnodup : (w.bets.map (fun b => b.id)).Nodup) :
    (∀ newId, generateBetId w cands = .ok newId → ∀ b ∈ w.bets, b.id ≠ newId) ∧
    (∀ betInput stake now r w1, finalizeNewBet w betInput stake cands now = (.ok r, w1) →
      (w1.bets.map (fun b => b.id)).Nodup) ∧
    (∀ e, generateBetId w cands = .error e →
      e = .idGenerationFailed ∧ ∀ k, k < 1000 → ∃ b ∈ w.bets, b.id = cands k) ∧
    ((∀ k, k < 1000 → ∃ b ∈ w.bets, b.id = cands k) →
      generateBetId w cands = .error .idGenerationFailed) := by
  refine ⟨?_, ?_, ?_, ?_⟩
  · intro newId h
    exact generateBetIdLoop_fresh 1001 0 h
  · intro betInput stake now r w1 hok
    obtain ⟨hg, hb, -⟩ := finalizeNewBet_ok_inv hok
    have hfresh := generateBetIdLoop_fresh 1001 0 hg
    rw [hb, List.map_append, List.nodup_append]
    refine ⟨hnodup, by simp, ?_⟩
    intro x hx1 hx2
    simp only [List.map_cons, List.map_nil, List.mem_singleton] at hx2
    rw [List.mem_map] at hx1
    obtain ⟨b, hb1, hb2⟩ := hx1
    exact hfresh b hb1 (by rw [hb2, hx2])
  · intro e h
    obtain ⟨h1, h2⟩ := generateBetIdLoop_error 1001 0 (by omega) h
    exact ⟨h1, fun k hk => h2 k (Nat.zero_le k) hk⟩
  · intro h
    apply generateBetIdLoop_collide
    intro k hk
    obtain ⟨b, hb, hid⟩ := h k hk
    rw [List.any_eq_true]
    exact ⟨b, hb, by simpa using hid⟩

/-- Witness for C14: in `exWorld` the candidates `exCands` yield the id `ZX9Q1`, which differs
from the id of every stored bet. -/
theorem C14_bet_ids_unique_witness :
    generateBetId exWorld exCands = .ok "ZX9Q1" ∧ exBet.id ≠ "ZX9Q1" :=
  ⟨rfl, (C14_bet_ids_unique exWorld exCands (by decide)).1 "ZX9Q1" rfl exBet
    (List.mem_singleton.mpr rfl)⟩


/-! ## Theorems: failures of settle -/

theorem findBet_none_iff (bets : List Bet) (betId : String) :
    findBet bets betId = none ↔ ∀ b ∈ bets, b.id ≠ betId := by
  induction bets with
  | nil => simp [findBet]
  | cons b rest ih =>
    unfold findBet
    by_cases hb : b.id = betId
    · simp [hb]
    · rw [if_neg hb]
      simp only [Option.map_eq_none', List.mem_cons, forall_eq_or_imp]
      rw [ih]
      exact ⟨fun h => ⟨hb, h⟩, fun h => h.2⟩

/-- The `switch` of `settleBet` throws exactly on an unknown outcome, on a `win` whose back
odds are not a number above 1 and on a `part-win` whose return is not a number ≥ 0. -/
theorem settleSwitch_error_iff (b : Bet) (result : String) (userReturn : Option ℚ) :
    (∃ e, settleSwitch b result userReturn = .error e) ↔
      ((result ≠ "win" ∧ result ≠ "loss" ∧ result ≠ "push" ∧ result ≠ "part-win") ∨
       (result = "win" ∧ ∀ o, b.backOdds = some o → o ≤ 1) ∨
       (result = "part-win" ∧ ∀ u, userReturn = some u → u < 0)) := by
  have e1 : ¬ ("part-win" = "win") := by decide
  have e2 : ¬ ("win" = "part-win") := by decide
  unfold settleSwitch
  by_cases h1 : result = "win"
  · subst h1
    cases ho : b.backOdds with
    | none => simp
    | some o =>
      by_cases ho1 : o ≤ 1
      · simp [ho1]
      · simp [ho1]
  rw [if_neg h1]
  by_cases h2 : result = "loss"
  · subst h2
    simp
  rw [if_neg h2]
  by_cases h3 : result = "push"
  · subst h3
    simp
  rw [if_neg h3]
  by_cases h4 : result = "part-win"
  · subst h4
    cases hu : userReturn with
    | none => simp
    | some u =>
      by_cases hu1 : u < 0
      · simp [hu1]
      · simp [hu1]
  rw [if_neg h4]
  simp [h1, h2, h3, h4]

/-- The odds guard before the `switch` of `settleBet` throws only where the `switch` would
throw as well. -/
theorem settleGuard_imp {b : Bet} {result : String}
    (h : (result = "win" ∨ result = "part-win") ∧ backOddsInvalid b = true ∧
      result ≠ "part-win") :
    result = "win" ∧ ∀ o, b.backOdds = some o → o ≤ 1 := by
  obtain ⟨h1, h2, h3⟩ := h
  have hwin : result = "win" := by
    rcases h1 with h1 | h1
    · exact h1
    · exact absurd h1 h3
  refine ⟨hwin, fun o ho => ?_⟩
  unfold backOddsInvalid at h2
  rw [ho] at h2
  simpa using h2

/-- Claim C17. With persistence working, `settleBet(id, outcome, userReturn)` fails exactly
when no bet has that id, or the bet found under it is not `pending`, or the outcome is not
one of win / loss / push / part-win, or the outcome is `win` and the bet's back odds are not a
number > 1, or the outcome is `part-win` and userReturn is not a number ≥ 0; in every failure
the bankroll and the bet store are unchanged. -/
theorem C17_settleBet_fails_exactly (w : World) (betId result : String)
    (userReturn : Option ℚ) (hw : AllWritesSucceed w) :
    ((∃ e, (settleBet w betId result userReturn).1 = .error e) ↔
      ((∀ b ∈ w.bets, b.id ≠ betId) ∨
        ∃ idx b, findBet w.bets betId = some (idx, b) ∧
          (b.status ≠ "pending" ∨
            (result ≠ "win" ∧ result ≠ "loss" ∧ result ≠ "push" ∧ result ≠ "part-win") ∨
            (result = "win" ∧ ∀ o, b.backOdds = some o → o ≤ 1) ∨
            (result = "part-win" ∧ ∀ u, userReturn = some u → u < 0)))) ∧
    ((∃ e, (settleBet w betId result userReturn).1 = .error e) →
      (settleBet w betId result userReturn).2.bankroll = w.bankroll ∧
        (settleBet w betId result userReturn).2.bets = w.bets) := by
  cases hfind : findBet w.bets betId with
  | none =>
    have hs : settleBet w betId result userReturn = (.error .notFound, w) := by
      unfold settleBet
      rw [hfind]
    rw [hs]
    exact ⟨⟨fun _ => Or.inl ((findBet_none_iff _ _).mp hfind), fun _ => ⟨_, rfl⟩⟩,
      fun _ => ⟨rfl, rfl⟩⟩
  | some p =>
    obtain ⟨idx, b⟩ := p
    have hno : ¬ ∀ b ∈ w.bets, b.id ≠ betId := by
      rw [← findBet_none_iff, hfind]
      simp
    by_cases hpend : b.status = "pending"
    swap
    · have hs : settleBet w betId result userReturn = (.error .alreadySettled, w) := by
        unfold settleBet
        rw [hfind]
        simp only
        rw [if_pos hpend]
      rw [hs]
      exact ⟨⟨fun _ => Or.inr ⟨idx, b, rfl, Or.inl hpend⟩, fun _ => ⟨_, rfl⟩⟩,
        fun _ => ⟨rfl, rfl⟩⟩
    by_cases hguard : (result = "win" ∨ result = "part-win") ∧ backOddsInvalid b = true ∧
        result ≠ "part-win"
    · have hs : settleBet w betId result userReturn = (.error .invalidOdds, w) := by
        unfold settleBet
        rw [hfind]
        simp only
        rw [if_neg (not_not.mpr hpend), if_pos hguard]
      rw [hs]
      exact ⟨⟨fun _ => Or.inr ⟨idx, b, rfl, Or.inr (Or.inr (Or.inl (settleGuard_imp hguard)))⟩,
        fun _ => ⟨_, rfl⟩⟩, fun _ => ⟨rfl, rfl⟩⟩
    cases hsw : settleSwitch b result userReturn with
    | error e =>
      have hs : settleBet w betId result userReturn = (.error e, w) := by
        unfold settleBet
        rw [hfind]
        simp only
        rw [if_neg (not_not.mpr hpend), if_neg hguard, hsw]
        simp [revertAndThrow]
      rw [hs]
      have hcond := (settleSwitch_error_iff b result userReturn).mp ⟨e, hsw⟩
      exact ⟨⟨fun _ => Or.inr ⟨idx, b, rfl, Or.inr hcond⟩, fun _ => ⟨_, rfl⟩⟩,
        fun _ => ⟨rfl, rfl⟩⟩
    | ok s =>
      obtain ⟨w1, h1, -⟩ := settleBet_of_allok hw hfind hpend hsw
      rw [h1]
      have hne : ¬ ∃ e, (Except.ok (applySettlement b s) : Except Err Bet) = .error e := by
        rintro ⟨e, he⟩
        cases he
      refine ⟨⟨fun h => absurd h hne, ?_⟩, fun h => absurd h hne⟩
      rintro (h | ⟨idx1, b1, hf1, hc⟩)
      · exact absurd h hno
      · simp only [Option.some.injEq, Prod.mk.injEq] at hf1
        obtain ⟨-, rfl⟩ := hf1
        rcases hc with hc | hc
        · exact absurd hpend hc
        · have := (settleSwitch_error_iff b result userReturn).mpr hc
          obtain ⟨e, he⟩ := this
          rw [hsw] at he
          cases he

/-- Witness for C17: settling `exBet` with the unknown outcome `void` fails and leaves
`exWorld` as it was. -/
theorem C17_settleBet_fails_exactly_witness :
    (settleBet exWorld "AB12C" "void" none).2.bankroll = exWorld.bankroll ∧
      (settleBet exWorld "AB12C" "void" none).2.bets = exWorld.bets :=
  (C17_settleBet_fails_exactly exWorld "AB12C" "void" none (by decide)).2
    (((C17_settleBet_fails_exactly exWorld "AB12C" "void" none (by decide)).1).mpr
      (Or.inr ⟨0, exBet, rfl, Or.inr (Or.inl ⟨by decide, by decide, by decide, by decide⟩)⟩))

/-- The `catch` block after a non-zero adjustment makes one ledger call with the negated
adjustment and throws the error again, whatever that call does. -/
theorem revertAndThrow_nonzero {w : World} {adj : ℚ} (e : Err) (h : adj ≠ 0) :
    revertAndThrow w (some adj) e = (.error e, (addWinnings w (some (-adj))).2) := by
  unfold revertAndThrow
  rw [if_pos (by simpa using h)]
  rfl

/-- When the ledger write of a non-zero credit fails in `settleBet`, the `catch` block still
calls `addWinnings` with the negated credit: the state after the call is the state after that
second ledger call. -/
theorem settleBet_credit_failure {w w1 : World} {betId result : String}
    {userReturn : Option ℚ} {idx : Nat} {b : Bet} {s : Settlement} {e : Err}
    (hfind : findBet w.bets betId = some (idx, b)) (hpend : b.status = "pending")
    (hsw : settleSwitch b result userReturn = .ok s) (hnz : s.bankrollAdjustment ≠ 0)
    (hcredit : addWinnings w (some s.bankrollAdjustment) = (.error e, w1)) :
    settleBet w betId result userReturn =
      (.error e, (addWinnings w1 (some (-s.bankrollAdjustment))).2) := by
  unfold settleBet
  rw [hfind]
  simp only
  rw [if_neg (not_not.mpr hpend), if_neg (settleSwitch_ok_guard hsw), hsw]
  simp only
  rw [if_pos hnz, hcredit]
  simp only
  exact revertAndThrow_nonzero e hnz

/-- The settlement of `exBet` as a win: credit 190, profitLoss 90. -/
theorem exBet_win_settlement :
    settleSwitch exBet "win" none =
      .ok { bankrollAdjustment := 190, newStatus := "win", profitLoss := 90,
            partialReturn := none } := by
  norm_num [settleSwitch, exBet, commissionRate]

/-- Claim C18, the code at the failing input. In `exWorldCreditFails` (bankroll 2900, `exBet`
pending, the next write fails and the one after it succeeds) `settleBet` as a win fails with the
persistence error of the credit of 190 and the bet stays pending, but the `catch` block debits
the credit that was never applied: the bankroll ends at 2710 and not at 2900. -/
theorem C18_unapplied_credit_is_debited :
    settleBet exWorldCreditFails "AB12C" "win" none =
        (.error .persistence, { bankroll := 2710, bets := [exBet], writes := [] }) ∧
      exWorldCreditFails.bankroll = 2900 ∧ exWorldCreditFails.bets = [exBet] ∧
      exBet.status = "pending" := by
  refine ⟨?_, rfl, rfl, rfl⟩
  have h := @settleBet_credit_failure exWorldCreditFails
    { bankroll := 2900, bets := [exBet], writes := [true] } "AB12C" "win" none 0 exBet _
    .persistence rfl rfl exBet_win_settlement (by norm_num)
    (by norm_num [addWinnings, saveBankrollData, exWorldCreditFails])
  rw [h]
  norm_num [addWinnings, saveBankrollData]

/-- Claim C19. If `settleBet` applies a non-zero bankroll credit (the ledger write succeeds),
the bet-store write then fails and the compensating `addWinnings(-credit)` succeeds, the call
fails with the error of the bet-store write, the bankroll equals its pre-settle value and the
persisted bet store is unchanged: the bet found under the id is the same pending record (with
the profitLoss and partialReturn fields it had, none for a bet that never was settled). -/
theorem C19_settleBet_compensation (w w1 w2 w3 : World) (betId result : String)
    (userReturn : Option ℚ) (idx : Nat) (b : Bet) (s : Settlement) (x y : ℚ) (e : Err)
    (hfind : findBet w.bets betId = some (idx, b)) (hpend : b.status = "pending")
    (hsw : settleSwitch b result userReturn = .ok s) (hnz : s.bankrollAdjustment ≠ 0)
    (hcredit : addWinnings w (some s.bankrollAdjustment) = (.ok x, w1))
    (hsave : saveBetsData w1 (w.bets.set idx (applySettlement b s)) = (.error e, w2))
    (hcomp : addWinnings w2 (some (-s.bankrollAdjustment)) = (.ok y, w3)) :
    settleBet w betId result userReturn = (.error e, w3) ∧ e = .persistence ∧
      w3.bankroll = w.bankroll ∧ w3.bets = w.bets ∧
      findBet w3.bets betId = some (idx, b) ∧ b.status = "pending" := by
  obtain ⟨c1, c2, -⟩ := addWinnings_ok_inv hcredit
  obtain ⟨he, s1, s2, -⟩ := saveBetsData_err_inv hsave
  obtain ⟨a1, a2, -⟩ := addWinnings_ok_inv hcomp
  have hbets : w3.bets = w.bets := by rw [a2, s2, c2]
  refine ⟨?_, he, ?_, hbets, by rw [hbets]; exact hfind, hpend⟩
  · unfold settleBet
    rw [hfind]
    simp only
    rw [if_neg (not_not.mpr hpend), if_neg (settleSwitch_ok_guard hsw), hsw]
    simp only
    rw [if_pos hnz, hcredit]
    simp only
    rw [hsave]
    simp only
    rw [revertAndThrow_nonzero e hnz, hcomp]
  · rw [a1, s1, c1]
    simp

/-- Witness for C19: in `exWorldSaveFails` the credit 190 of the win is written, the bet-store
write fails and the debit of 190 is written; the bankroll is 2900 again and the store still
holds the pending `exBet`. -/
theorem C19_settleBet_compensation_witness :
    settleBet exWorldSaveFails "AB12C" "win" none =
        (.error .persistence, { bankroll := 2900, bets := [exBet], writes := [] }) ∧
      (2900 : ℚ) = exWorldSaveFails.bankroll ∧ [exBet] = exWorldSaveFails.bets := by
  have h := C19_settleBet_compensation exWorldSaveFails
    { bankroll := 3090, bets := [exBet], writes := [false, true] }
    { bankroll := 3090, bets := [exBet], writes := [true] }
    { bankroll := 2900, bets := [exBet], writes := [] }
    "AB12C" "win" none 0 exBet _ 3090 2900 .persistence rfl rfl exBet_win_settlement
    (by norm_num)
    (by norm_num [addWinnings, saveBankrollData, exWorldSaveFails])
    rfl
    (by norm_num [addWinnings, saveBankrollData])
  exact ⟨h.1, h.2.2.1, h.2.2.2.1⟩


/-! ## Theorems: the ledger on every amount -/

/-- On a finite amount `deductStakeJs` is `deductStake`. -/
theorem deductStakeJs_num (w : World) (a : ℚ) :
    deductStakeJs w (.num a) =
      match deductStake w (some a) with
      | (.error e, w1) => (.error e, w1)
      | (.ok x, w1) => (.ok (.num x), w1) := by
  unfold deductStakeJs deductStake
  by_cases h0 : a ≤ 0
  · simp [JsAmount.isNaN, JsAmount.leZero, h0]
  by_cases h1 : w.bankroll < a
  · simp [JsAmount.isNaN, JsAmount.leZero, JsAmount.gtNum, h0, h1]
  simp only [JsAmount.isNaN, JsAmount.leZero, JsAmount.gtNum, JsAmount.subFrom,
    saveBankrollDataJs, h0, h1, decide_False, if_false, reduceCtorEq, or_self,
    Bool.false_eq_true]
  generalize saveBankrollData w (w.bankroll - a) = res
  obtain ⟨e | u, w2⟩ := res <;> rfl

/-- On a finite amount `addWinningsJs` is `addWinnings`. -/
theorem addWinningsJs_num (w : World) (a : ℚ) :
    addWinningsJs w (.num a) =
      match addWinnings w (some a) with
      | (.error e, w1) => (.error e, w1)
      | (.ok x, w1) => (.ok (.num x), w1) := by
  unfold addWinningsJs addWinnings
  simp only [JsAmount.isNaN, JsAmount.addTo, saveBankrollDataJs, reduceCtorEq, or_self,
    Bool.false_eq_true, if_false]
  generalize saveBankrollData w (w.bankroll + a) = res
  obtain ⟨e | u, w2⟩ := res <;> rfl

/-- On `null`, `undefined` and `NaN` the function `addWinningsJs` is `addWinningsJs` on 0. -/
theorem addWinningsJs_absent (w : World) (amount : JsAmount)
    (h : amount = .null ∨ amount = .undefined ∨ amount = .nan) :
    addWinningsJs w amount = addWinningsJs w (.num 0) := by
  rcases h with rfl | rfl | rfl <;> rfl

/-- Counterexample to C15 as stated: the amount `+Infinity` is not a positive finite number,
yet `deductStake` does not fail with `invalidAmount` on it but with `insufficientFunds`. -/
theorem C15_infinite_amount_counterexample :
    ¬ (∀ (w : World) (amount : JsAmount), (∀ a, amount = .num a → a ≤ 0) →
        (deductStakeJs w amount).1 = .error .invalidAmount) := by
  intro h
  have h1 := h exWorld .posInf (by intro a ha; cases ha)
  simp [deductStakeJs, JsAmount.isNaN, JsAmount.leZero, JsAmount.gtNum] at h1

/-- Claim C15, amended. `deductStake(amount)` fails with `invalidAmount` when the amount is
`null`, `undefined`, `NaN`, `-Infinity` or a finite number ≤ 0; it fails with
`insufficientFunds` when the amount is `+Infinity` or a positive finite number above the
current bankroll, and it never succeeds when the amount exceeds the bankroll; both failures
leave the state as it was.  Otherwise (0 < amount ≤ bankroll, the write succeeds) it persists
and returns current - amount, which is not negative when the prior bankroll was not. -/
theorem C15_deductStake_cases (w : World) (amount : JsAmount) :
    ((amount = .null ∨ amount = .undefined ∨ amount = .nan ∨ amount = .negInf ∨
        ∃ a, amount = .num a ∧ a ≤ 0) →
      deductStakeJs w amount = (.error .invalidAmount, w)) ∧
    ((amount = .posInf ∨ ∃ a, amount = .num a ∧ 0 < a ∧ w.bankroll < a) →
      deductStakeJs w amount = (.error .insufficientFunds, w)) ∧
    (amount.gtNum w.bankroll = true → ∃ e, deductStakeJs w amount = (.error e, w)) ∧
    (∀ a w1 u, amount = .num a → 0 < a → a ≤ w.bankroll →
      saveBankrollData w (w.bankroll - a) = (.ok u, w1) →
        deductStakeJs w amount = (.ok (.num (w.bankroll - a)), w1) ∧
        w1.bankroll = w.bankroll - a ∧ w1.bets = w.bets ∧
        (0 ≤ w.bankroll → 0 ≤ w.bankroll - a)) := by
  have hinv : (amount = .null ∨ amount = .undefined ∨ amount = .nan ∨ amount = .negInf ∨
        ∃ a, amount = .num a ∧ a ≤ 0) →
      deductStakeJs w amount = (.error .invalidAmount, w) := by
    rintro (rfl | rfl | rfl | rfl | ⟨a, rfl, ha⟩) <;>
      simp [deductStakeJs, JsAmount.isNaN, JsAmount.leZero, *]
  have hins : (amount = .posInf ∨ ∃ a, amount = .num a ∧ 0 < a ∧ w.bankroll < a) →
      deductStakeJs w amount = (.error .insufficientFunds, w) := by
    rintro (rfl | ⟨a, rfl, ha, hb⟩)
    · simp [deductStakeJs, JsAmount.isNaN, JsAmount.leZero, JsAmount.gtNum]
    · simp [deductStakeJs, JsAmount.isNaN, JsAmount.leZero, JsAmount.gtNum, not_le.mpr ha, hb]
  refine ⟨hinv, hins, ?_, ?_⟩
  · intro hgt
    cases amount with
    | null => exact ⟨_, hinv (Or.inl rfl)⟩
    | undefined => exact ⟨_, hinv (Or.inr (Or.inl rfl))⟩
    | nan => exact ⟨_, hinv (Or.inr (Or.inr (Or.inl rfl)))⟩
    | posInf => exact ⟨_, hins (Or.inl rfl)⟩
    | negInf => exact ⟨_, hinv (Or.inr (Or.inr (Or.inr (Or.inl rfl))))⟩
    | num a =>
      simp only [JsAmount.gtNum, decide_eq_true_eq] at hgt
      by_cases h0 : a ≤ 0
      · exact ⟨_, hinv (Or.inr (Or.inr (Or.inr (Or.inr ⟨a, rfl, h0⟩))))⟩
      · exact ⟨_, hins (Or.inr ⟨a, rfl, not_le.mp h0, hgt⟩)⟩
  · intro a w1 u ha hpos hle hsave
    subst ha
    obtain ⟨k1, k2, -⟩ := saveBankrollData_ok_inv hsave
    refine ⟨?_, k1, k2, fun _ => by linarith⟩
    rw [deductStakeJs_num]
    unfold deductStake
    simp only
    rw [if_neg (not_le.mpr hpos), if_neg (not_lt.mpr hle), hsave]

/-- Witness for the amended C15: in `exWorld` the amount `+Infinity` is refused with
`insufficientFunds` and the state stays `exWorld`. -/
theorem C15_deductStake_cases_witness :
    deductStakeJs exWorld .posInf = (.error .insufficientFunds, exWorld) :=
  (C15_deductStake_cases exWorld .posInf).2.1 (Or.inl rfl)

/-- Counterexample to C16 as stated: with the bankroll 2900 of `exWorld`, `addWinnings` of
`+Infinity` does not behave as `addWinnings(0)`: it returns `Infinity`, the file is written with
`null` for the infinite bankroll, and the bankroll read afterwards is the default 3000. -/
theorem C16_infinite_amount_counterexample :
    ¬ (∀ (w : World) (amount : JsAmount), (∀ a, amount ≠ .num a) →
        addWinningsJs w amount = addWinningsJs w (.num 0) ∧
        (addWinningsJs w amount).2.bankroll = w.bankroll) := by
  intro h
  have h1 := (h exWorld .posInf (by intro a ha; cases ha)).2
  have e : addWinningsJs exWorld .posInf =
      (.ok .posInf, { bankroll := DEFAULT_BANKROLL, bets := [exBet], writes := [] }) := rfl
  rw [e] at h1
  norm_num [exWorld, DEFAULT_BANKROLL] at h1

/-- Claim C16, amended. `addWinnings` called with `null`, `undefined` or `NaN` behaves exactly
as `addWinnings(0)`: when the write succeeds it does not fail and the bankroll after the call
equals the bankroll before it; for every finite amount x (positive or negative) it then
persists and returns current + x, with no floor at zero. -/
theorem C16_addWinnings_cases (w : World) (hw : AllWritesSucceed w) :
    (∀ amount, amount = .null ∨ amount = .undefined ∨ amount = .nan →
      addWinningsJs w amount = addWinningsJs w (.num 0) ∧
      ∃ w1, addWinningsJs w amount = (.ok (.num w.bankroll), w1) ∧
        w1.bankroll = w.bankroll ∧ w1.bets = w.bets) ∧
    (∀ x : ℚ, ∃ w1, addWinningsJs w (.num x) = (.ok (.num (w.bankroll + x)), w1) ∧
      w1.bankroll = w.bankroll + x ∧ w1.bets = w.bets) := by
  have hfin : ∀ x : ℚ, ∃ w1, addWinningsJs w (.num x) = (.ok (.num (w.bankroll + x)), w1) ∧
      w1.bankroll = w.bankroll + x ∧ w1.bets = w.bets := by
    intro x
    obtain ⟨w1, h1, h2, h3, -⟩ := addWinnings_of_allok hw (some x)
    refine ⟨w1, ?_, h2, h3⟩
    rw [addWinningsJs_num, h1]
    rfl
  refine ⟨?_, hfin⟩
  intro amount h
  refine ⟨addWinningsJs_absent w amount h, ?_⟩
  obtain ⟨w1, h1, h2, h3⟩ := hfin 0
  rw [add_zero] at h1 h2
  exact ⟨w1, by rw [addWinningsJs_absent w amount h]; exact h1, h2, h3⟩

/-- Witness for the amended C16: in `exWorld` a debit of 3000 is written and leaves the negative
bankroll -100. -/
theorem C16_addWinnings_cases_witness :
    ∃ w1, addWinningsJs exWorld (.num (-3000)) = (.ok (.num (exWorld.bankroll + -3000)), w1) ∧
      w1.bankroll = exWorld.bankroll + -3000 ∧ w1.bets = exWorld.bets :=
  (C16_addWinnings_cases exWorld (by decide)).2 (-3000)

/-! ## Theorems: edit -/

/-- Claim C20, the code at the failing input. The pending `exBet` has back odds 2.0; the edit
`editBet("AB12C", { backOdds: "2.5" })` with a valid new value succeeds and persists a record,
but the number 2.5 is stored under the lower-case key `backodds`: the field `backOdds`, which
`settleBet` and the stats read, still is 2.0, and a win is still settled with the credit 190 of
the old odds. -/
theorem C20_backOdds_edit_misses_field :
    exParseFloat "2.5" = some (5 / 2) ∧
    editBet exParseFloat exWorld "AB12C" [("backOdds", "2.5")] =
      (.ok exBetEdited, { bankroll := 2900, bets := [exBetEdited], writes := [] }) ∧
    exBetEdited.backOdds = some 2 ∧ exBetEdited.backOdds ≠ some (5 / 2) ∧
    exBetEdited.backodds = some (5 / 2) ∧
    settleSwitch exBetEdited "win" none =
      .ok { bankrollAdjustment := 190, newStatus := "win", profitLoss := 90,
            partialReturn := none } := by
  refine ⟨rfl, rfl, rfl, ?_, rfl, ?_⟩
  · norm_num [exBetEdited, exBet]
  · norm_num [settleSwitch, exBetEdited, exBet, commissionRate]


/-! ## Theorems: monotonicity of the stake calculator -/

/-- The stake before the rounding is positive with valid inputs and a positive edge. -/
theorem cappedStake_pos {bankroll backOdds fairOdds : ℚ} (hb : 0 < bankroll)
    (ho : 1 < backOdds) (hev : ¬ backOdds / fairOdds - 1 ≤ 0) :
    0 < min (quarterKelly bankroll backOdds fairOdds) (bankroll / 100) := by
  have hq : 0 < quarterKelly bankroll backOdds fairOdds := by
    unfold quarterKelly
    have h1 : 0 < backOdds / fairOdds - 1 := lt_of_not_ge hev
    have h2 : 0 < backOdds - 1 := by linarith
    positivity
  exact lt_min hq (by positivity)

/-- Every value of the calculator is half of a natural number. -/
theorem calculateKellyStake_half_nat (bankroll backOdds fairOdds : ℚ) :
    ∃ n : ℕ, calculateKellyStake bankroll backOdds fairOdds = (n : ℚ) / 2 := by
  by_cases hguard : bankroll = 0 ∨ bankroll ≤ 0 ∨ backOdds = 0 ∨ backOdds ≤ 1 ∨
      fairOdds = 0 ∨ fairOdds ≤ 1
  · refine ⟨0, ?_⟩
    unfold calculateKellyStake
    rw [if_pos hguard]
    simp
  · have hb : 0 < bankroll := by
      by_contra h
      exact hguard (Or.inr (Or.inl (not_lt.mp h)))
    have ho : 1 < backOdds := by
      by_contra h
      exact hguard (Or.inr (Or.inr (Or.inr (Or.inl (not_lt.mp h)))))
    have hf : 1 < fairOdds := by
      by_contra h
      exact hguard (Or.inr (Or.inr (Or.inr (Or.inr (Or.inr (not_lt.mp h))))))
    by_cases hev : backOdds / fairOdds - 1 ≤ 0
    · refine ⟨0, ?_⟩
      rw [calculateKellyStake_no_edge bankroll backOdds fairOdds hb ho hf hev]
      simp
    · rw [calculateKellyStake_of_edge bankroll backOdds fairOdds hb ho hf hev]
      have hfl : (0 : ℤ) ≤
          ⌊min (quarterKelly bankroll backOdds fairOdds) (bankroll / 100) * 2 + 1 / 2⌋ :=
        Int.floor_nonneg.mpr (by linarith [cappedStake_pos hb ho hev])
      obtain ⟨n, hn⟩ := Int.eq_ofNat_of_zero_le hfl
      refine ⟨n, ?_⟩
      rw [hn]
      simp

/-- The calculator never returns a negative stake. -/
theorem calculateKellyStake_nonneg (bankroll backOdds fairOdds : ℚ) :
    0 ≤ calculateKellyStake bankroll backOdds fairOdds := by
  obtain ⟨n, hn⟩ := calculateKellyStake_half_nat bankroll backOdds fairOdds
  rw [hn]
  positivity

/-- With valid inputs and a positive edge, a larger stake before the rounding gives a larger
or equal stake. -/
theorem calculateKellyStake_le_of_capped_le {b1 o1 f1 b2 o2 f2 : ℚ}
    (hb1 : 0 < b1) (ho1 : 1 < o1) (hf1 : 1 < f1) (hev1 : ¬ o1 / f1 - 1 ≤ 0)
    (hb2 : 0 < b2) (ho2 : 1 < o2) (hf2 : 1 < f2) (hev2 : ¬ o2 / f2 - 1 ≤ 0)
    (h : min (quarterKelly b1 o1 f1) (b1 / 100) ≤ min (quarterKelly b2 o2 f2) (b2 / 100)) :
    calculateKellyStake b1 o1 f1 ≤ calculateKellyStake b2 o2 f2 := by
  rw [calculateKellyStake_of_edge b1 o1 f1 hb1 ho1 hf1 hev1,
    calculateKellyStake_of_edge b2 o2 f2 hb2 ho2 hf2 hev2]
  have hfl : ⌊min (quarterKelly b1 o1 f1) (b1 / 100) * 2 + 1 / 2⌋ ≤
      ⌊min (quarterKelly b2 o2 f2) (b2 / 100) * 2 + 1 / 2⌋ :=
    Int.floor_mono (by linarith)
  have hc : ((⌊min (quarterKelly b1 o1 f1) (b1 / 100) * 2 + 1 / 2⌋ : ℤ) : ℚ) ≤
      ((⌊min (quarterKelly b2 o2 f2) (b2 / 100) * 2 + 1 / 2⌋ : ℤ) : ℚ) := by
    exact_mod_cast hfl
  linarith

/-- Claim C30. `calculateKellyStake` is monotone: for fixed backOdds > 1 and fairOdds > 1,
bankroll1 ≤ bankroll2 (both > 0) implies stake(bankroll1) ≤ stake(bankroll2); for fixed
bankroll > 0 and backOdds > 1, fairOdds1 ≤ fairOdds2 (both > 1) implies
stake(fairOdds1) ≥ stake(fairOdds2); and every returned stake is a non-negative integer
multiple of 0.5. -/
theorem C30_calculateKellyStake_monotone :
    (∀ b1 b2 o f : ℚ, 0 < b1 → 0 < b2 → b1 ≤ b2 → 1 < o → 1 < f →
      calculateKellyStake b1 o f ≤ calculateKellyStake b2 o f) ∧
    (∀ b o f1 f2 : ℚ, 0 < b → 1 < o → 1 < f1 → 1 < f2 → f1 ≤ f2 →
      calculateKellyStake b o f2 ≤ calculateKellyStake b o f1) ∧
    (∀ b o f : ℚ, ∃ n : ℕ, calculateKellyStake b o f = (n : ℚ) * (1 / 2)) := by
  refine ⟨?_, ?_, ?_⟩
  · intro b1 b2 o f hb1 hb2 hle ho hf
    by_cases hev : o / f - 1 ≤ 0
    · rw [calculateKellyStake_no_edge b1 o f hb1 ho hf hev]
      exact calculateKellyStake_nonneg b2 o f
    · apply calculateKellyStake_le_of_capped_le hb1 ho hf hev hb2 ho hf hev
      have hk : 0 ≤ (o / f - 1) / (o - 1) * (1 / 4) := by
        have h1 : 0 < o / f - 1 := lt_of_not_ge hev
        have h2 : 0 < o - 1 := by linarith
        positivity
      apply min_le_min
      · unfold quarterKelly
        have := mul_le_mul_of_nonneg_right hle hk
        linarith
      · linarith
  · intro b o f1 f2 hb ho hf1 hf2 hle
    by_cases hev2 : o / f2 - 1 ≤ 0
    · rw [calculateKellyStake_no_edge b o f2 hb ho hf2 hev2]
      exact calculateKellyStake_nonneg b o f1
    · have hdiv : o / f2 ≤ o / f1 :=
        div_le_div_of_nonneg_left (by linarith) (by linarith) hle
      have hev1 : ¬ o / f1 - 1 ≤ 0 := by
        intro h
        exact hev2 (by linarith)
      apply calculateKellyStake_le_of_capped_le hb ho hf2 hev2 hb ho hf1 hev1
      apply min_le_min _ (le_refl _)
      unfold quarterKelly
      have h2 : 0 < o - 1 := by linarith
      have h3 : (o / f2 - 1) / (o - 1) ≤ (o / f1 - 1) / (o - 1) :=
        div_le_div_of_nonneg_right (by linarith) (le_of_lt h2)
      have h4 : b * ((o / f2 - 1) / (o - 1)) ≤ b * ((o / f1 - 1) / (o - 1)) :=
        mul_le_mul_of_nonneg_left h3 (le_of_lt hb)
      linarith
  · intro b o f
    obtain ⟨n, hn⟩ := calculateKellyStake_half_nat b o f
    exact ⟨n, by rw [hn]; ring⟩

/-- Witness for C30: with back odds 2 and fair odds 3/2 the stake for the bankroll 130 is at
most the stake for the bankroll 3000. -/
theorem C30_calculateKellyStake_monotone_witness :
    calculateKellyStake 130 2 (3 / 2) ≤ calculateKellyStake 3000 2 (3 / 2) :=
  C30_calculateKellyStake_monotone.1 130 3000 2 (3 / 2) (by norm_num) (by norm_num)
    (by norm_num) (by norm_num) (by norm_num)


/-! ## Theorems: failures and no-ops of edit -/

/-- The processing of a value throws `invalidValue` only. -/
theorem processValue_error {parseFloat : String → Option ℚ} {lowerKey value : String}
    {e : Err} (h : processValue parseFloat lowerKey value = .error e) : e = .invalidValue := by
  unfold processValue at h
  split_ifs at h with h1 h2
  cases hp : parseFloat value with
  | none =>
    simp only [hp, Except.error.injEq] at h
    exact h.symm
  | some q =>
    simp only [hp] at h
    split_ifs at h with h3 h4
    · simp only [Except.error.injEq] at h
      exact h.symm
    · simp only [Except.error.injEq] at h
      exact h.symm

/-- An iteration of the loop of `editBet` throws `invalidField` or `invalidValue`, and whether
it throws does not depend on the edited record. -/
theorem editStep_error {parseFloat : String → Option ℚ} {st : EditState} {key value : String}
    {e : Err} (h : editStep parseFloat st key value = .error e) :
    (e = .invalidField ∨ e = .invalidValue) ∧
      ∀ st1, editStep parseFloat st1 key value = .error e := by
  unfold editStep at h
  simp only at h
  by_cases hk : toLowerCase key ∉ allowedFields
  · rw [if_pos hk] at h
    simp only [Except.error.injEq] at h
    subst h
    refine ⟨Or.inl rfl, fun st1 => ?_⟩
    unfold editStep
    simp only
    rw [if_pos hk]
  · rw [if_neg hk] at h
    cases hp : processValue parseFloat (toLowerCase key) value with
    | error e1 =>
      simp only [hp, Except.error.injEq] at h
      subst h
      refine ⟨Or.inr (processValue_error hp), fun st1 => ?_⟩
      unfold editStep
      simp only
      rw [if_neg hk, hp]
    | ok p => simp [hp] at h

/-- A key outside the allow-list makes the iteration throw `invalidField`. -/
theorem editStep_invalidField (parseFloat : String → Option ℚ) (st : EditState)
    {key : String} (value : String) (hk : toLowerCase key ∉ allowedFields) :
    editStep parseFloat st key value = .error .invalidField := by
  unfold editStep
  simp only
  rw [if_pos hk]

/-- The loop of `editBet` throws as soon as an entry of the update map is one on which an
iteration throws. -/
theorem editLoop_error_of_mem {parseFloat : String → Option ℚ} {key value : String}
    {e0 : Err} {st0 : EditState} (h0 : editStep parseFloat st0 key value = .error e0)
    (updates : List (String × String)) (hmem : (key, value) ∈ updates) (st : EditState) :
    ∃ e, editLoop parseFloat st updates = .error e ∧
      (e = .invalidField ∨ e = .invalidValue) := by
  induction updates generalizing st with
  | nil => simp at hmem
  | cons kv rest ih =>
    obtain ⟨k, v⟩ := kv
    unfold editLoop
    cases hs : editStep parseFloat st k v with
    | error e => exact ⟨e, rfl, (editStep_error hs).1⟩
    | ok st1 =>
      simp only
      rcases List.mem_cons.mp hmem with heq | hin
      · simp only [Prod.mk.injEq] at heq
        obtain ⟨rfl, rfl⟩ := heq
        rw [(editStep_error h0).2 st] at hs
        cases hs
      · exact ih hin st1

/-- The loop of `editBet` over a concatenation. -/
theorem editLoop_append (parseFloat : String → Option ℚ) (st : EditState)
    (pre rest : List (String × String)) :
    editLoop parseFloat st (pre ++ rest) =
      match editLoop parseFloat st pre with
      | .error e => .error e
      | .ok st1 => editLoop parseFloat st1 rest := by
  induction pre generalizing st with
  | nil => rfl
  | cons kv pre ih =>
    obtain ⟨k, v⟩ := kv
    simp only [List.cons_append, editLoop]
    cases hs : editStep parseFloat st k v with
    | error e => rfl
    | ok st1 => exact ih st1

/-- When the loop of `editBet` throws on a pending bet, `editBet` throws the same error and
returns the state as it was. -/
theorem editBet_of_loop_error {parseFloat : String → Option ℚ} {w : World} {betId : String}
    {updates : List (String × String)} {idx : Nat} {b : Bet} {e : Err}
    (hfind : findBet w.bets betId = some (idx, b)) (hpend : b.status = "pending")
    (hloop : editLoop parseFloat { updatedBetData := b, changesMade := false } updates =
      .error e) :
    editBet parseFloat w betId updates = (.error e, w) := by
  unfold editBet
  rw [hfind]
  simp only
  rw [if_neg (not_not.mpr hpend), hloop]

/-- Counterexample to C21 as stated: the update map `{ stake: "abc", odds: "3" }` for the
pending `exBet` contains the key `odds` outside the allow-list, yet `editBet` fails with
`invalidValue`, thrown for the entry `stake` that comes first, and not with `invalidField`. -/
theorem C21_earlier_entry_counterexample :
    ¬ (∀ (parseFloat : String → Option ℚ) (w : World) (betId : String)
        (updates : List (String × String)) (idx : Nat) (b : Bet),
        findBet w.bets betId = some (idx, b) → b.status = "pending" →
        (∃ kv ∈ updates, toLowerCase kv.1 ∉ allowedFields) →
        (editBet parseFloat w betId updates).1 = .error .invalidField) := by
  intro h
  have h1 := h exParseNumber exWorld "AB12C" [("stake", "abc"), ("odds", "3")] 0 exBet rfl rfl
    ⟨("odds", "3"), by simp, by decide⟩
  have h2 : editBet exParseNumber exWorld "AB12C" [("stake", "abc"), ("odds", "3")] =
      (.error .invalidValue, exWorld) := rfl
  rw [h2] at h1
  cases h1

/-- Claim C21, amended. `editBet` on an unknown id fails with `notFound`, `editBet` on a bet
whose status is not `pending` fails with `alreadySettled`, and `editBet` on a pending bet with
an update map that contains a key outside the allow-list always fails: with `invalidField`
when the entries before the first such key are accepted (so always when it is the only key),
else with the `invalidValue` of an earlier entry.  In each case the state is returned as it
was: no write is performed and the bet store is unchanged. -/
theorem C21_editBet_rejections (parseFloat : String → Option ℚ) (w : World) (betId : String)
    (updates : List (String × String)) :
    ((∀ b ∈ w.bets, b.id ≠ betId) →
      editBet parseFloat w betId updates = (.error .notFound, w)) ∧
    (∀ idx b, findBet w.bets betId = some (idx, b) → b.status ≠ "pending" →
      editBet parseFloat w betId updates = (.error .alreadySettled, w)) ∧
    (∀ idx b, findBet w.bets betId = some (idx, b) → b.status = "pending" →
      (∃ kv ∈ updates, toLowerCase kv.1 ∉ allowedFields) →
      ∃ e, editBet parseFloat w betId updates = (.error e, w) ∧
        (e = .invalidField ∨ e = .invalidValue)) ∧
    (∀ idx b pre key value post st, findBet w.bets betId = some (idx, b) →
      b.status = "pending" → updates = pre ++ (key, value) :: post →
      toLowerCase key ∉ allowedFields →
      editLoop parseFloat { updatedBetData := b, changesMade := false } pre = .ok st →
      editBet parseFloat w betId updates = (.error .invalidField, w)) := by
  refine ⟨?_, ?_, ?_, ?_⟩
  · intro h
    unfold editBet
    rw [(findBet_none_iff _ _).mpr h]
  · intro idx b hfind hst
    unfold editBet
    rw [hfind]
    simp only
    rw [if_pos hst]
  · rintro idx b hfind hpend ⟨⟨k, v⟩, hmem, hbad⟩
    obtain ⟨e, he, hkind⟩ := editLoop_error_of_mem
      (editStep_invalidField parseFloat { updatedBetData := b, changesMade := false } v hbad)
      updates hmem { updatedBetData := b, changesMade := false }
    exact ⟨e, editBet_of_loop_error hfind hpend he, hkind⟩
  · intro idx b pre key value post st hfind hpend hup hbad hpre
    apply editBet_of_loop_error hfind hpend
    rw [hup, editLoop_append, hpre]
    simp only [editLoop]
    rw [editStep_invalidField parseFloat st value hbad]

/-- Witness for the amended C21: the one-key update `{ odds: "3" }` of the pending `exBet` fails
with `invalidField` and leaves `exWorld` as it was. -/
theorem C21_editBet_rejections_witness :
    editBet exParseNumber exWorld "AB12C" [("odds", "3")] = (.error .invalidField, exWorld) :=
  (C21_editBet_rejections exParseNumber exWorld "AB12C" [("odds", "3")]).2.2.2 0 exBet []
    "odds" "3" [] { updatedBetData := exBet, changesMade := false } rfl rfl rfl (by decide) rfl

/-- Claim C22, the code at the failing input. The pending `exBet` has back odds 2.0 and the
update `{ backOdds: "2" }` supplies the value it already has; yet `editBet` does not return the
existing record and does write: it stores and returns a record with the new lower-case key
`backodds`, and when the write fails the call fails with the persistence error. -/
theorem C22_same_backOdds_is_written :
    exParseNumber "2" = some 2 ∧ exBet.backOdds = some 2 ∧
    editBet exParseNumber exWorld "AB12C" [("backOdds", "2")] =
      (.ok exBetSameOdds, { bankroll := 2900, bets := [exBetSameOdds], writes := [] }) ∧
    exBetSameOdds ≠ exBet ∧
    editBet exParseNumber exWorldWriteFails "AB12C" [("backOdds", "2")] =
      (.error .persistence, { bankroll := 2900, bets := [exBet], writes := [] }) := by
  refine ⟨rfl, rfl, rfl, ?_, rfl⟩
  intro h
  have h1 := congrArg Bet.backodds h
  simp [exBetSameOdds, exBet] at h1


/-- A rejected value makes the processing of the entry throw `invalidValue`. -/
theorem processValue_of_rejected {parseFloat : String → Option ℚ} {key value : String}
    (h : ValueRejected parseFloat key value) :
    processValue parseFloat (toLowerCase key) value = .error .invalidValue ∧
      toLowerCase key ∈ allowedFields := by
  unfold processValue
  rcases h with ⟨hk, hp⟩ | ⟨hk, hv, hp⟩ | ⟨hk, q, hp, hq⟩ | ⟨hk, hv, q, hp, hq⟩
  · have hnum : toLowerCase key ∈ ["backodds", "fairodds", "stake", "commission"] := by
      simp only [List.mem_cons, List.mem_singleton, List.not_mem_nil, or_false] at hk ⊢
      rcases hk with h | h | h <;> simp [h]
    have hnc : ¬ (toLowerCase key = "commission" ∧ value = "") := by
      rintro ⟨h1, -⟩
      rw [h1] at hk
      revert hk
      decide
    have hall : toLowerCase key ∈ allowedFields := by
      simp only [List.mem_cons, List.mem_singleton, List.not_mem_nil, or_false] at hk
      rcases hk with h | h | h <;> simp [h, allowedFields]
    rw [if_pos hnum, if_neg hnc, hp]
    exact ⟨rfl, hall⟩
  · rw [hk]
    simp [hv, hp, allowedFields]
  · rw [hk]
    simp [hp, hq, allowedFields]
  · rw [hk]
    simp only [hp]
    have hq1 : q < 0 ∨ q > 100 := hq
    simp [hv, hq1, allowedFields]

/-- A rejected value makes the iteration of the loop of `editBet` throw `invalidValue`. -/
theorem editStep_of_rejected {parseFloat : String → Option ℚ} {key value : String}
    (st : EditState) (h : ValueRejected parseFloat key value) :
    editStep parseFloat st key value = .error .invalidValue := by
  obtain ⟨h1, h2⟩ := processValue_of_rejected h
  unfold editStep
  simp only
  rw [if_neg (not_not.mpr h2), h1]

/-- An assignment of `editBet` returns the state as it was or sets `changesMade`, and keeps
the fields that no edit touches. -/
theorem assignField_spec (st : EditState) (lowerKey fieldKey : String) (p : Processed) :
    (assignField st lowerKey fieldKey p = st ∨
        (assignField st lowerKey fieldKey p).changesMade = true) ∧
      EditKeeps st.updatedBetData (assignField st lowerKey fieldKey p).updatedBetData := by
  unfold assignField EditKeeps
  cases p <;> simp only <;> split_ifs <;> simp

/-- An accepted iteration of the loop of `editBet`. -/
theorem editStep_ok_spec {parseFloat : String → Option ℚ} {st st1 : EditState}
    {key value : String} (h : editStep parseFloat st key value = .ok st1) :
    (st1 = st ∨ st1.changesMade = true) ∧ EditKeeps st.updatedBetData st1.updatedBetData := by
  unfold editStep at h
  simp only at h
  by_cases hk : toLowerCase key ∉ allowedFields
  · rw [if_pos hk] at h
    cases h
  rw [if_neg hk] at h
  cases hp : processValue parseFloat (toLowerCase key) value with
  | error e => simp [hp] at h
  | ok p =>
    simp only [hp, Except.ok.injEq] at h
    subst h
    exact assignField_spec _ _ _ _

theorem EditKeeps.refl (b : Bet) : EditKeeps b b := ⟨rfl, rfl, rfl, rfl, rfl, rfl, rfl⟩

theorem EditKeeps.trans {a b c : Bet} (h1 : EditKeeps a b) (h2 : EditKeeps b c) :
    EditKeeps a c := by
  obtain ⟨a1, a2, a3, a4, a5, a6, a7⟩ := h1
  obtain ⟨b1, b2, b3, b4, b5, b6, b7⟩ := h2
  exact ⟨b1.trans a1, b2.trans a2, b3.trans a3, b4.trans a4, b5.trans a5, b6.trans a6,
    b7.trans a7⟩

/-- The loop of `editBet`, when it does not throw, returns the state as it was or has set
`changesMade` (provided `changesMade` was not set before), and keeps the fields that no edit
touches. -/
theorem editLoop_ok_spec {parseFloat : String → Option ℚ} {st st1 : EditState}
    {updates : List (String × String)} (h : editLoop parseFloat st updates = .ok st1) :
    (st1 = st ∨ st1.changesMade = true) ∧ EditKeeps st.updatedBetData st1.updatedBetData := by
  induction updates generalizing st with
  | nil =>
    simp only [editLoop, Except.ok.injEq] at h
    subst h
    exact ⟨Or.inl rfl, EditKeeps.refl _⟩
  | cons kv rest ih =>
    obtain ⟨k, v⟩ := kv
    unfold editLoop at h
    cases hs : editStep parseFloat st k v with
    | error e => simp [hs] at h
    | ok st2 =>
      simp only [hs] at h
      obtain ⟨h1, h2⟩ := editStep_ok_spec hs
      obtain ⟨h3, h4⟩ := ih h
      refine ⟨?_, h2.trans h4⟩
      rcases h3 with h3 | h3
      · rw [h3]
        exact h1
      · exact Or.inr h3

/-- A successful `editBet` found a pending bet and returns a record that keeps the fields no
edit touches; either nothing changed and nothing was written, or the record replaced the bet
in the store; the bankroll is never touched. -/
theorem editBet_ok_inv {parseFloat : String → Option ℚ} {w w1 : World} {betId : String}
    {updates : List (String × String)} {r : Bet}
    (h : editBet parseFloat w betId updates = (.ok r, w1)) :
    ∃ idx b, findBet w.bets betId = some (idx, b) ∧ b.status = "pending" ∧ EditKeeps b r ∧
      w1.bankroll = w.bankroll ∧ ((r = b ∧ w1 = w) ∨ w1.bets = w.bets.set idx r) := by
  unfold editBet at h
  cases hfind : findBet w.bets betId with
  | none => simp [hfind] at h
  | some p =>
    obtain ⟨idx, b⟩ := p
    simp only [hfind] at h
    by_cases hpend : b.status = "pending"
    swap
    · simp [hpend] at h
    rw [if_neg (not_not.mpr hpend)] at h
    cases hloop : editLoop parseFloat { updatedBetData := b, changesMade := false } updates with
    | error e => simp [hloop] at h
    | ok st =>
      simp only [hloop] at h
      obtain ⟨h1, h2⟩ := editLoop_ok_spec hloop
      by_cases hch : st.changesMade = false
      · rw [if_pos hch] at h
        simp only [Prod.mk.injEq, Except.ok.injEq] at h
        obtain ⟨rfl, rfl⟩ := h
        exact ⟨idx, b, rfl, hpend, EditKeeps.refl _, rfl, Or.inl ⟨rfl, rfl⟩⟩
      · rw [if_neg hch] at h
        generalize hsb : saveBetsData w _ = sb at h
        obtain ⟨e | u, w2⟩ := sb
        · simp at h
        · simp only [Prod.mk.injEq, Except.ok.injEq] at h
          obtain ⟨rfl, rfl⟩ := h
          obtain ⟨k1, k2, -⟩ := saveBetsData_ok_inv hsb
          exact ⟨idx, b, rfl, hpend, h2, k1, Or.inr k2⟩

/-- With every write succeeding, a one-entry update that the loop accepts succeeds, and the
returned record is the one found under the id afterwards. -/
theorem editBet_single_of_allok {parseFloat : String → Option ℚ} {w : World} {betId : String}
    {idx : Nat} {b : Bet} {key value : String} {st : EditState} (hw : AllWritesSucceed w)
    (hfind : findBet w.bets betId = some (idx, b)) (hpend : b.status = "pending")
    (hstep : editStep parseFloat { updatedBetData := b, changesMade := false } key value =
      .ok st) :
    ∃ w1, editBet parseFloat w betId [(key, value)] = (.ok st.updatedBetData, w1) ∧
      findBet w1.bets betId = some (idx, st.updatedBetData) ∧ w1.bankroll = w.bankroll := by
  obtain ⟨h1, h2⟩ := editStep_ok_spec hstep
  unfold editBet
  rw [hfind]
  simp only [editLoop]
  rw [if_neg (not_not.mpr hpend), hstep]
  simp only
  by_cases hch : st.changesMade = false
  · rw [if_pos hch]
    have hst : st = { updatedBetData := b, changesMade := false } := by
      rcases h1 with h1 | h1
      · exact h1
      · rw [hch] at h1
        cases h1
    rw [hst]
    exact ⟨w, rfl, hfind, rfl⟩
  · rw [if_neg hch]
    obtain ⟨w1, k1, k2, k3, -⟩ := saveBetsData_of_allok hw (w.bets.set idx st.updatedBetData)
    rw [k1]
    refine ⟨w1, rfl, ?_, k2⟩
    rw [k3]
    exact findBet_set hfind h2.1

/-- On string values the embedding with absent values is `editBet`. -/
theorem editLoopAny_str (parseFloat : String → Option ℚ) (st : EditState)
    (updates : List (String × String)) :
    editLoopAny parseFloat st (updates.map (fun kv => (kv.1, some kv.2))) =
      some (editLoop parseFloat st updates) := by
  induction updates generalizing st with
  | nil => rfl
  | cons kv rest ih =>
    obtain ⟨k, v⟩ := kv
    simp only [List.map_cons, editLoopAny, editLoop, editStepAny, editStep, processValueAny]
    by_cases hk : toLowerCase k ∉ allowedFields
    · rw [if_pos hk, if_pos hk]
    · rw [if_neg hk, if_neg hk]
      cases hp : processValue parseFloat (toLowerCase k) v with
      | error e => rfl
      | ok p => exact ih _

theorem editBetAny_str (parseFloat : String → Option ℚ) (w : World) (betId : String)
    (updates : List (String × String)) :
    editBetAny parseFloat w betId (updates.map (fun kv => (kv.1, some kv.2))) =
      some (editBet parseFloat w betId updates) := by
  unfold editBetAny editBet
  cases hfind : findBet w.bets betId with
  | none => rfl
  | some p =>
    obtain ⟨idx, b⟩ := p
    simp only
    by_cases hpend : b.status ≠ "pending"
    · rw [if_pos hpend, if_pos hpend]
    · rw [if_neg hpend, if_neg hpend, editLoopAny_str]
      cases hloop : editLoop parseFloat { updatedBetData := b, changesMade := false } updates with
      | error e => rfl
      | ok st =>
        simp only
        by_cases hch : st.changesMade = false
        · rw [if_pos hch, if_pos hch]
        · rw [if_neg hch, if_neg hch]
          generalize saveBetsData w _ = sb
          obtain ⟨e | u, w2⟩ := sb <;> rfl

/-- An absent commission value is handled as the empty string. -/
theorem editBetAny_absent_commission (parseFloat : String → Option ℚ) (w : World)
    (betId : String) {key : String} (hk : toLowerCase key = "commission") :
    editBetAny parseFloat w betId [(key, none)] =
      some (editBet parseFloat w betId [(key, "")]) := by
  rw [← editBetAny_str]
  simp only [List.map_cons, List.map_nil]
  unfold editBetAny
  simp only [editLoopAny, editStepAny, processValueAny, processValue, hk]
  simp


/-- Odds of any value that parse to a number are accepted by the loop of `editBet`. -/
theorem editStep_odds_ok {parseFloat : String → Option ℚ} (st : EditState)
    {key value : String} {q : ℚ}
    (hk : toLowerCase key = "backodds" ∨ toLowerCase key = "fairodds")
    (hp : parseFloat value = some q) :
    ∃ st1, editStep parseFloat st key value = .ok st1 := by
  unfold editStep processValue
  rcases hk with hk | hk <;> rw [hk] <;> simp [hp, allowedFields]

/-- The empty commission is accepted by the loop of `editBet` and leaves a record without
commission. -/
theorem editStep_commission_removal (parseFloat : String → Option ℚ) (st : EditState)
    {key : String} (hk : toLowerCase key = "commission") :
    ∃ st1, editStep parseFloat st key "" = .ok st1 ∧ st1.updatedBetData.commission = none := by
  unfold editStep processValue
  rw [hk]
  simp only [allowedFields, assignField]
  cases hc : st.updatedBetData.commission with
  | none => simp [hc]
  | some c => simp [hc]

/-- Counterexample to C23 as stated: in the update map `{ odds: "1", stake: "abc" }` for the
pending `exBet` the value of the numeric field `stake` does not parse to a number, yet
`editBet` fails with `invalidField`, thrown for the entry `odds` that comes first, and not
with `invalidValue`. -/
theorem C23_earlier_entry_counterexample :
    ¬ (∀ (parseFloat : String → Option ℚ) (w : World) (betId : String)
        (updates : List (String × String)) (idx : Nat) (b : Bet),
        findBet w.bets betId = some (idx, b) → b.status = "pending" →
        (∃ kv ∈ updates, ValueRejected parseFloat kv.1 kv.2) →
        (editBet parseFloat w betId updates).1 = .error .invalidValue) := by
  intro h
  have h1 := h exParseNumber exWorld "AB12C" [("odds", "1"), ("stake", "abc")] 0 exBet rfl rfl
    ⟨("stake", "abc"), by simp, Or.inl ⟨by decide, rfl⟩⟩
  have h2 : editBet exParseNumber exWorld "AB12C" [("odds", "1"), ("stake", "abc")] =
      (.error .invalidField, exWorld) := rfl
  rw [h2] at h1
  cases h1

/-- Claim C23, amended. `editBet` on a pending bet fails, leaving the state as it was, when the
update map holds a numeric field whose value does not parse to a number, a stake ≤ 0 or a
commission outside [0,100]: with `invalidValue` when the entries before that field are accepted
(so always for a one-field update), else with the error of an earlier entry.  With the write
succeeding, a one-field update does not fail when backOdds or fairOdds is set to a value ≤ 1,
and setting the commission to an empty or absent value succeeds and leaves the stored record
without commission, not with the commission 0. -/
theorem C23_editBet_value_checks (parseFloat : String → Option ℚ) (w : World)
    (betId : String) (idx : Nat) (b : Bet)
    (hfind : findBet w.bets betId = some (idx, b)) (hpend : b.status = "pending") :
    (∀ updates key value, (key, value) ∈ updates → ValueRejected parseFloat key value →
      ∃ e, editBet parseFloat w betId updates = (.error e, w) ∧
        (e = .invalidField ∨ e = .invalidValue)) ∧
    (∀ pre key value post st,
      editLoop parseFloat { updatedBetData := b, changesMade := false } pre = .ok st →
      ValueRejected parseFloat key value →
      editBet parseFloat w betId (pre ++ (key, value) :: post) = (.error .invalidValue, w)) ∧
    (∀ key value q, toLowerCase key = "backodds" ∨ toLowerCase key = "fairodds" →
      parseFloat value = some q → q ≤ 1 → AllWritesSucceed w →
      ∃ r w1, editBet parseFloat w betId [(key, value)] = (.ok r, w1)) ∧
    (∀ key, toLowerCase key = "commission" → AllWritesSucceed w →
      ∃ r w1, editBet parseFloat w betId [(key, "")] = (.ok r, w1) ∧
        editBetAny parseFloat w betId [(key, none)] = some (.ok r, w1) ∧
        r.commission = none ∧ r.commission ≠ some 0 ∧
        findBet w1.bets betId = some (idx, r)) := by
  refine ⟨?_, ?_, ?_, ?_⟩
  · intro updates key value hmem hrej
    obtain ⟨e, he, hkind⟩ := editLoop_error_of_mem
      (editStep_of_rejected { updatedBetData := b, changesMade := false } hrej)
      updates hmem { updatedBetData := b, changesMade := false }
    exact ⟨e, editBet_of_loop_error hfind hpend he, hkind⟩
  · intro pre key value post st hpre hrej
    apply editBet_of_loop_error hfind hpend
    rw [editLoop_append, hpre]
    simp only [editLoop]
    rw [editStep_of_rejected st hrej]
  · intro key value q hk hp _ hw
    obtain ⟨st, hst⟩ := editStep_odds_ok { updatedBetData := b, changesMade := false } hk hp
    obtain ⟨w1, h1, -⟩ := editBet_single_of_allok hw hfind hpend hst
    exact ⟨_, w1, h1⟩
  · intro key hk hw
    obtain ⟨st, hst, hc⟩ :=
      editStep_commission_removal parseFloat { updatedBetData := b, changesMade := false } hk
    obtain ⟨w1, h1, h2, -⟩ := editBet_single_of_allok hw hfind hpend hst
    refine ⟨_, w1, h1, ?_, hc, ?_, h2⟩
    · rw [editBetAny_absent_commission parseFloat w betId hk, h1]
    · rw [hc]
      simp

/-- Witness for the amended C23: the one-field update `{ stake: "-5" }` of the pending `exBet`
fails with `invalidValue` and leaves `exWorld` as it was. -/
theorem C23_editBet_value_checks_witness :
    editBet exParseNumber exWorld "AB12C" ([] ++ ("stake", "-5") :: []) =
      (.error .invalidValue, exWorld) :=
  (C23_editBet_value_checks exParseNumber exWorld "AB12C" 0 exBet rfl rfl).2.1 [] "stake" "-5"
    [] { updatedBetData := exBet, changesMade := false } rfl
    (Or.inr (Or.inr (Or.inl ⟨by decide, -5, rfl, by norm_num⟩)))


/-! ## Theorems: edit and the ledger -/

/-- The two sums of the conservation equation, bet by bet. -/
theorem ledger_sums (bets : List Bet) :
    -pendingStakes bets + settledProfitLoss bets = (bets.map ledgerTerm).sum := by
  induction bets with
  | nil => simp [pendingStakes, settledProfitLoss]
  | cons b rest ih =>
    unfold pendingStakes settledProfitLoss at ih ⊢
    by_cases hb : b.status = "pending"
    · simp only [List.filter_cons, hb, decide_True, if_true, List.map_cons, List.sum_cons,
        ne_eq, not_true_eq_false, decide_False, ledgerTerm]
      simp only [ne_eq] at ih
      simp only [Bool.false_eq_true, if_false]
      linarith
    · simp only [List.filter_cons, hb, decide_False, List.map_cons, List.sum_cons,
        ne_eq, not_false_eq_true, decide_True, if_true, ledgerTerm, if_false,
        Bool.false_eq_true]
      simp only [ne_eq] at ih
      linarith

theorem pendingStakes_cons (b : Bet) (rest : List Bet) :
    pendingStakes (b :: rest) =
      (if b.status = "pending" then b.stake else 0) + pendingStakes rest := by
  unfold pendingStakes
  by_cases hb : b.status = "pending" <;> simp [List.filter_cons, hb]

theorem settledProfitLoss_cons (b : Bet) (rest : List Bet) :
    settledProfitLoss (b :: rest) =
      (if b.status = "pending" then 0 else b.profitLoss.getD 0) + settledProfitLoss rest := by
  unfold settledProfitLoss
  by_cases hb : b.status = "pending" <;> simp [List.filter_cons, hb]

/-- Replacing the bet at an index changes the two sums by the shares of the old and the new
record. -/
theorem ledger_sums_set {bets : List Bet} {idx : Nat} {b : Bet} (r : Bet)
    (h : bets[idx]? = some b) :
    pendingStakes (bets.set idx r) = pendingStakes bets
        - (if b.status = "pending" then b.stake else 0)
        + (if r.status = "pending" then r.stake else 0) ∧
    settledProfitLoss (bets.set idx r) = settledProfitLoss bets
        - (if b.status = "pending" then 0 else b.profitLoss.getD 0)
        + (if r.status = "pending" then 0 else r.profitLoss.getD 0) := by
  induction bets generalizing idx with
  | nil => simp at h
  | cons x rest ih =>
    cases idx with
    | zero =>
      simp only [List.getElem?_cons_zero, Option.some.injEq] at h
      subst h
      simp only [List.set_cons_zero, pendingStakes_cons, settledProfitLoss_cons]
      constructor <;> ring
    | succ n =>
      simp only [List.getElem?_cons_succ] at h
      obtain ⟨h1, h2⟩ := ih h
      simp only [List.set_cons_succ, pendingStakes_cons, settledProfitLoss_cons, h1, h2]
      constructor <;> ring

/-- Counterexample to C29 as stated: in `exWorld` the equation holds with `B0 = 3000` (bankroll
2900, one pending stake of 100); the successful edit `{ stake: "150" }` leaves the bankroll at
2900 while the pending stakes become 150, so the equation fails after the edit. -/
theorem C29_stake_edit_counterexample :
    ¬ (∀ (parseFloat : String → Option ℚ) (w w1 : World) (betId : String)
        (updates : List (String × String)) (r : Bet) (B0 : ℚ),
        editBet parseFloat w betId updates = (.ok r, w1) →
        LedgerConserved B0 w → LedgerConserved B0 w1) := by
  intro h
  have h1 := h exParseNumber exWorld { bankroll := 2900, bets := [exBetStake150], writes := [] }
    "AB12C" [("stake", "150")] exBetStake150 3000 rfl
    (by norm_num [LedgerConserved, pendingStakes, settledProfitLoss, exWorld, exBet])
  norm_num [LedgerConserved, pendingStakes, settledProfitLoss, exBetStake150, exBet] at h1

/-- Claim C29, amended. A successful `editBet` of a pending bet changes neither the bankroll
nor the sum of the settled profitLoss, and changes the sum of the pending stakes by the new
stake minus the old stake; so when the conservation equation holds before the edit, it holds
after the edit exactly when the edit leaves the stake unchanged. -/
theorem C29_editBet_ledger (parseFloat : String → Option ℚ) (w w1 : World) (betId : String)
    (updates : List (String × String)) (idx : Nat) (b r : Bet) (B0 : ℚ)
    (hfind : findBet w.bets betId = some (idx, b))
    (hok : editBet parseFloat w betId updates = (.ok r, w1)) :
    w1.bankroll = w.bankroll ∧ settledProfitLoss w1.bets = settledProfitLoss w.bets ∧
    pendingStakes w1.bets = pendingStakes w.bets + (r.stake - b.stake) ∧
    (LedgerConserved B0 w → (LedgerConserved B0 w1 ↔ r.stake = b.stake)) := by
  obtain ⟨idx1, b1, hf1, hpend, hkeep, hbank, hcase⟩ := editBet_ok_inv hok
  rw [hfind] at hf1
  simp only [Option.some.injEq, Prod.mk.injEq] at hf1
  obtain ⟨rfl, rfl⟩ := hf1
  have hrpend : r.status = "pending" := by rw [hkeep.2.1, hpend]
  have hsums : settledProfitLoss w1.bets = settledProfitLoss w.bets ∧
      pendingStakes w1.bets = pendingStakes w.bets + (r.stake - b.stake) := by
    rcases hcase with ⟨rfl, rfl⟩ | hset
    · exact ⟨rfl, by ring⟩
    · obtain ⟨h1, h2⟩ := ledger_sums_set r (findBet_get hfind)
      rw [hset, h1, h2]
      simp only [hpend, hrpend, if_true]
      constructor <;> ring
  refine ⟨hbank, hsums.1, hsums.2, fun hcons => ?_⟩
  unfold LedgerConserved at hcons ⊢
  rw [hbank, hsums.1, hsums.2, hcons]
  constructor
  · intro h
    linarith
  · intro h
    rw [h]
    ring

/-- Witness for the amended C29: the edit `{ betName: "x" }` of `exBet` in `exWorld` leaves the
bankroll and the two sums as they were. -/
theorem C29_editBet_ledger_witness :
    ∃ r w1, editBet exParseNumber exWorld "AB12C" [("betName", "x")] = (.ok r, w1) ∧
      w1.bankroll = exWorld.bankroll ∧
      pendingStakes w1.bets = pendingStakes exWorld.bets + (r.stake - exBet.stake) := by
  have hok : editBet exParseNumber exWorld "AB12C" [("betName", "x")] =
      (.ok { exBet with betName := "x" },
        { bankroll := 2900, bets := [{ exBet with betName := "x" }], writes := [] }) := rfl
  have h := C29_editBet_ledger exParseNumber exWorld _ "AB12C" [("betName", "x")] 0 exBet _
    3000 rfl hok
  exact ⟨_, _, hok, h.1, h.2.2.1⟩


/-! ## Theorems: unsettle -/

/-- The `switch` of `unsettleBet` does not throw on the four settled statuses. -/
theorem unsettleSwitch_ok_of_status {b : Bet}
    (h : b.status ∈ ["pending", "win", "loss", "push", "partial-win"])
    (hnp : b.status ≠ "pending") : ∃ adj, unsettleSwitch b = .ok adj := by
  simp only [List.mem_cons, List.mem_singleton, List.not_mem_nil, or_false] at h
  unfold unsettleSwitch
  rcases h with h | h | h | h | h
  · exact absurd h hnp
  · rw [h]
    simp
  · rw [h]
    simp
  · rw [h]
    simp
  · rw [h]
    cases b.partialReturn <;> simp

/-- A successful `unsettleBet` found a bet that is not pending and stored, in its place, that
bet reset to pending. -/
theorem unsettleBet_ok_inv {w w1 : World} {betId : String} {r : Bet}
    (h : unsettleBet w betId = (.ok r, w1)) :
    ∃ idx b adj, findBet w.bets betId = some (idx, b) ∧ b.status ≠ "pending" ∧
      unsettleSwitch b = .ok adj ∧ r = resetToPending b ∧
      w1.bankroll = w.bankroll + adj.getD 0 ∧ w1.bets = w.bets.set idx r := by
  unfold unsettleBet at h
  cases hfind : findBet w.bets betId with
  | none => simp [hfind] at h
  | some p =>
    obtain ⟨idx, b⟩ := p
    simp only [hfind] at h
    by_cases hpend : b.status = "pending"
    · simp [hpend] at h
    rw [if_neg hpend] at h
    cases hsw : unsettleSwitch b with
    | error e => simp [hsw] at h
    | ok adj =>
      simp only [hsw] at h
      refine ⟨idx, b, adj, rfl, hpend, hsw, ?_⟩
      generalize haw : (if adj ≠ some 0 then addWinnings w adj
               else (Except.ok w.bankroll, w)) = aw at h
      obtain ⟨e | x, w2⟩ := aw
      · simp only [revertAndThrow] at h
        split at h <;> simp at h
      simp only at h
      have hw2 : w2.bankroll = w.bankroll + adj.getD 0 ∧ w2.bets = w.bets := by
        by_cases hz : adj = some 0
        · simp only [hz, ne_eq, not_true_eq_false, if_false, Prod.mk.injEq] at haw
          obtain ⟨-, rfl⟩ := haw
          simp [hz]
        · rw [if_pos hz] at haw
          obtain ⟨h1, h2, -⟩ := addWinnings_ok_inv haw
          exact ⟨h1, h2⟩
      generalize hsb : saveBetsData w2 _ = sb at h
      obtain ⟨e | u, w3⟩ := sb
      · simp only [revertAndThrow] at h
        split at h <;> simp at h
      simp only [Prod.mk.injEq, Except.ok.injEq] at h
      obtain ⟨rfl, rfl⟩ := h
      obtain ⟨h1, h2, -⟩ := saveBetsData_ok_inv hsb
      exact ⟨rfl, by rw [h1, hw2.1], h2⟩

/-- With every write succeeding, the result of `settleBet` and the bet store after it depend
only on the bet store before it. -/
theorem settleBet_congr_allok {w v : World} (hw : AllWritesSucceed w)
    (hv : AllWritesSucceed v) (hbets : v.bets = w.bets)
    (betId result : String) (userReturn : Option ℚ) :
    (settleBet v betId result userReturn).1 = (settleBet w betId result userReturn).1 ∧
    (settleBet v betId result userReturn).2.bets =
      (settleBet w betId result userReturn).2.bets := by
  cases hfind : findBet w.bets betId with
  | none =>
    have h1 : settleBet w betId result userReturn = (.error .notFound, w) := by
      unfold settleBet
      rw [hfind]
    have h2 : settleBet v betId result userReturn = (.error .notFound, v) := by
      unfold settleBet
      rw [hbets, hfind]
    rw [h1, h2]
    exact ⟨rfl, hbets⟩
  | some p =>
    obtain ⟨idx, b⟩ := p
    have hfindv : findBet v.bets betId = some (idx, b) := by rw [hbets, hfind]
    by_cases hpend : b.status = "pending"
    swap
    · have h1 : settleBet w betId result userReturn = (.error .alreadySettled, w) := by
        unfold settleBet
        rw [hfind]
        simp only
        rw [if_pos hpend]
      have h2 : settleBet v betId result userReturn = (.error .alreadySettled, v) := by
        unfold settleBet
        rw [hfindv]
        simp only
        rw [if_pos hpend]
      rw [h1, h2]
      exact ⟨rfl, hbets⟩
    by_cases hguard : (result = "win" ∨ result = "part-win") ∧ backOddsInvalid b = true ∧
        result ≠ "part-win"
    · have h1 : settleBet w betId result userReturn = (.error .invalidOdds, w) := by
        unfold settleBet
        rw [hfind]
        simp only
        rw [if_neg (not_not.mpr hpend), if_pos hguard]
      have h2 : settleBet v betId result userReturn = (.error .invalidOdds, v) := by
        unfold settleBet
        rw [hfindv]
        simp only
        rw [if_neg (not_not.mpr hpend), if_pos hguard]
      rw [h1, h2]
      exact ⟨rfl, hbets⟩
    cases hsw : settleSwitch b result userReturn with
    | error e =>
      have h1 : settleBet w betId result userReturn = (.error e, w) := by
        unfold settleBet
        rw [hfind]
        simp only
        rw [if_neg (not_not.mpr hpend), if_neg hguard, hsw]
        simp [revertAndThrow]
      have h2 : settleBet v betId result userReturn = (.error e, v) := by
        unfold settleBet
        rw [hfindv]
        simp only
        rw [if_neg (not_not.mpr hpend), if_neg hguard, hsw]
        simp [revertAndThrow]
      rw [h1, h2]
      exact ⟨rfl, hbets⟩
    | ok s =>
      obtain ⟨w1, h1, a1, a2, -⟩ := settleBet_of_allok hw hfind hpend hsw
      obtain ⟨v1, h2, b1, b2, -⟩ := settleBet_of_allok hv hfindv hpend hsw
      rw [h1, h2]
      exact ⟨rfl, by rw [a2, b2, hbets]⟩

/-- Resetting a freshly settled record gives back the pending record it was settled from, when
that record carried none of the five keys that `unsettleBet` deletes. -/
theorem resetToPending_applySettlement {b : Bet} (s : Settlement)
    (hpend : b.status = "pending") (hpl : b.profitLoss = none)
    (hpr : b.partialReturn = none) (his : b.is2pc = none) (hev : b.evPercent = none)
    (hco : b.combinedOdds = none) : resetToPending (applySettlement b s) = b := by
  unfold resetToPending applySettlement
  cases b
  simp only at hpend hpl hpr his hev hco
  subst hpend hpl hpr his hev hco
  rfl

/-- When the ledger write of a non-zero adjustment fails in `unsettleBet`, the call fails
with the error of that write. -/
theorem unsettleBet_credit_failure {w w1 : World} {betId : String} {idx : Nat} {b : Bet}
    {adj : Option ℚ} {e : Err} (hfind : findBet w.bets betId = some (idx, b))
    (hnp : b.status ≠ "pending") (hsw : unsettleSwitch b = .ok adj) (hnz : adj ≠ some 0)
    (hcredit : addWinnings w adj = (.error e, w1)) :
    (unsettleBet w betId).1 = .error e := by
  unfold unsettleBet
  rw [hfind]
  simp only
  rw [if_neg hnp, hsw]
  simp only
  rw [if_pos hnz, hcredit]
  simp only [revertAndThrow]
  split <;> rfl

/-- Writing back the element found at an index leaves a list as it is. -/
theorem list_set_self {α : Type} {l : List α} {idx : Nat} {a : α} (h : l[idx]? = some a) :
    l.set idx a = l := by
  induction l generalizing idx with
  | nil => rfl
  | cons x rest ih =>
    cases idx with
    | zero =>
      simp only [List.getElem?_cons_zero, Option.some.injEq] at h
      rw [List.set_cons_zero, h]
    | succ n =>
      simp only [List.getElem?_cons_succ] at h
      rw [List.set_cons_succ, ih h]

/-- The bet found by `findBet` is a member of the store. -/
theorem findBet_mem {bets : List Bet} {betId : String} {idx : Nat} {bet : Bet}
    (h : findBet bets betId = some (idx, bet)) : bet ∈ bets :=
  List.mem_iff_getElem?.mpr ⟨idx, findBet_get h⟩

/-- Counterexample to C24 as stated. First, `unsettleBet` also fails when a write fails: in
`exWorldWonWriteFails` the bet `AB12C` exists and is settled, yet the call fails.  Second, the
store is not restored when the pending record carried a profitLoss: in `exWorldStale` a settle
as a push followed by the unsettle leaves a record without the profitLoss 5.  Third, the other
fields are not all unchanged: in `exWorldLegacy` the unsettle of the lost bet also deletes its
key `is2pc`. -/
theorem C24_unsettle_counterexample :
    ¬ (∀ (w : World) (betId : String),
        (∀ b ∈ w.bets, b.status ∈ ["pending", "win", "loss", "push", "partial-win"]) →
        ((∃ e, (unsettleBet w betId).1 = .error e) ↔
          ((∀ b ∈ w.bets, b.id ≠ betId) ∨
            ∃ idx b, findBet w.bets betId = some (idx, b) ∧ b.status = "pending"))) ∧
    ¬ (∀ (w w1 w2 : World) (betId result : String) (userReturn : Option ℚ) (r1 r2 : Bet),
        (∀ b ∈ w.bets, b.status ∈ ["pending", "win", "loss", "push", "partial-win"]) →
        settleBet w betId result userReturn = (.ok r1, w1) →
        unsettleBet w1 betId = (.ok r2, w2) → w2.bets = w.bets) ∧
    ¬ (∀ (w w1 : World) (betId : String) (idx : Nat) (b r : Bet),
        (∀ b ∈ w.bets, b.status ∈ ["pending", "win", "loss", "push", "partial-win"]) →
        findBet w.bets betId = some (idx, b) → unsettleBet w betId = (.ok r, w1) →
        r = { b with status := "pending", profitLoss := none, partialReturn := none }) := by
  refine ⟨?_, ?_, ?_⟩
  · intro h
    have hfail : (unsettleBet exWorldWonWriteFails "AB12C").1 = .error .persistence :=
      @unsettleBet_credit_failure exWorldWonWriteFails
        { exWorldWonWriteFails with writes := [false] } "AB12C" 0 exBetWon
        (some (-(exBetWon.stake + 90))) .persistence rfl (by decide) rfl
        (by norm_num [exBetWon, exBet]) rfl
    rcases (h exWorldWonWriteFails "AB12C" (by decide)).mp ⟨_, hfail⟩ with h1 | ⟨idx, b, hf, hp⟩
    · exact h1 exBetWon (List.mem_singleton.mpr rfl) rfl
    · have hf1 : findBet exWorldWonWriteFails.bets "AB12C" = some (0, exBetWon) := rfl
      rw [hf1] at hf
      simp only [Option.some.injEq, Prod.mk.injEq] at hf
      obtain ⟨-, rfl⟩ := hf
      revert hp
      decide
  · intro h
    obtain ⟨r1, w1, r2, w2, h1, h2, -⟩ :=
      @settle_unsettle_bankroll exWorldStale "AB12C" "push" none 0 exBetStale
        ⟨exBetStale.stake, "push", 0, exBetStale.partialReturn⟩ (by decide) rfl rfl rfl
    have h3 := h exWorldStale w1 w2 "AB12C" "push" none r1 r2 (by decide) h1 h2
    obtain ⟨idx, b, adj, hf, -, -, hr, -, hb⟩ := unsettleBet_ok_inv h2
    have hf2 : findBet w2.bets "AB12C" = some (idx, r2) := by
      rw [hb]
      exact findBet_set hf (by rw [hr]; rfl)
    rw [h3] at hf2
    have hf3 : findBet exWorldStale.bets "AB12C" = some (0, exBetStale) := rfl
    rw [hf3] at hf2
    simp only [Option.some.injEq, Prod.mk.injEq] at hf2
    obtain ⟨-, hf4⟩ := hf2
    have h5 : r2.profitLoss = none := by rw [hr]; rfl
    rw [← hf4] at h5
    simp [exBetStale] at h5
  · intro h
    obtain ⟨w1, h1, -⟩ := unsettleBet_of_allok (by decide : AllWritesSucceed exWorldLegacy)
      (rfl : findBet exWorldLegacy.bets "AB12C" = some (0, exBetLegacy)) (by decide)
      (rfl : unsettleSwitch exBetLegacy = .ok (some 0))
    have h2 := h exWorldLegacy w1 "AB12C" 0 exBetLegacy _ (by decide) rfl h1
    have h3 := congrArg Bet.is2pc h2
    simp [resetToPending, exBetLegacy] at h3

/-- Claim C24 (amended). With persistence working, for a store whose bets have status in
pending / win / loss / push / partial-win, `unsettleBet(id)` fails exactly when no bet has that
id or the bet found is already `pending`, and a failure leaves bankroll and store unchanged; on
a settled bet it succeeds, and the returned record, stored in place of the bet, is the bet
with status `pending` and without the keys profitLoss, partialReturn, is2pc, evPercent and
combinedOdds, every other field and every other bet as before; and when the pending bet
carries none of these five keys, a successful `settleBet` followed by `unsettleBet` returns
that bet and leaves the store exactly as before the settle, and a later `settleBet` gives the
same result and the same store as on the state before the first settle.  (The bankroll after
the two calls is the subject of C1.) -/
theorem C24_unsettleBet_inverse (w : World) (betId : String)
    (hst : ∀ b ∈ w.bets, b.status ∈ ["pending", "win", "loss", "push", "partial-win"])
    (hw : AllWritesSucceed w) :
    ((∃ e, (unsettleBet w betId).1 = .error e) ↔
        ((∀ b ∈ w.bets, b.id ≠ betId) ∨
          ∃ idx b, findBet w.bets betId = some (idx, b) ∧ b.status = "pending")) ∧
    ((∃ e, (unsettleBet w betId).1 = .error e) →
        (unsettleBet w betId).2.bankroll = w.bankroll ∧
          (unsettleBet w betId).2.bets = w.bets) ∧
    (∀ idx b, findBet w.bets betId = some (idx, b) → b.status ≠ "pending" →
        ∃ r w1, unsettleBet w betId = (.ok r, w1) ∧
          r = { b with status := "pending", profitLoss := none, partialReturn := none,
                       is2pc := none, evPercent := none, combinedOdds := none } ∧
          w1.bets = w.bets.set idx r) ∧
    (∀ idx b result userReturn r1 w1, findBet w.bets betId = some (idx, b) →
        b.profitLoss = none → b.partialReturn = none → b.is2pc = none →
        b.evPercent = none → b.combinedOdds = none →
        settleBet w betId result userReturn = (.ok r1, w1) →
        ∃ w2, unsettleBet w1 betId = (.ok b, w2) ∧ w2.bets = w.bets ∧
          ∀ result1 userReturn1,
            (settleBet w2 betId result1 userReturn1).1 =
                (settleBet w betId result1 userReturn1).1 ∧
              (settleBet w2 betId result1 userReturn1).2.bets =
                (settleBet w betId result1 userReturn1).2.bets) := by
  refine ⟨?_, ?_, ?_, ?_⟩
  · cases hfind : findBet w.bets betId with
    | none =>
      have hs : unsettleBet w betId = (.error .notFound, w) := by
        unfold unsettleBet
        rw [hfind]
      rw [hs]
      exact ⟨fun _ => Or.inl ((findBet_none_iff _ _).mp hfind), fun _ => ⟨_, rfl⟩⟩
    | some p =>
      obtain ⟨idx, b⟩ := p
      by_cases hpend : b.status = "pending"
      · have hs : unsettleBet w betId = (.error .alreadyPending, w) := by
          unfold unsettleBet
          rw [hfind]
          simp only
          rw [if_pos hpend]
        rw [hs]
        exact ⟨fun _ => Or.inr ⟨idx, b, rfl, hpend⟩, fun _ => ⟨_, rfl⟩⟩
      · obtain ⟨adj, hsw⟩ := unsettleSwitch_ok_of_status (hst b (findBet_mem hfind)) hpend
        obtain ⟨w1, h1, -⟩ := unsettleBet_of_allok hw hfind hpend hsw
        rw [h1]
        constructor
        · rintro ⟨e, he⟩
          cases he
        · rintro (h | ⟨idx1, b1, hf, hp⟩)
          · exact absurd ((findBet_none_iff _ _).mpr h) (by rw [hfind]; simp)
          · simp only [Option.some.injEq, Prod.mk.injEq] at hf
            obtain ⟨-, rfl⟩ := hf
            exact absurd hp hpend
  · cases hfind : findBet w.bets betId with
    | none =>
      have hs : unsettleBet w betId = (.error .notFound, w) := by
        unfold unsettleBet
        rw [hfind]
      rw [hs]
      exact fun _ => ⟨rfl, rfl⟩
    | some p =>
      obtain ⟨idx, b⟩ := p
      by_cases hpend : b.status = "pending"
      · have hs : unsettleBet w betId = (.error .alreadyPending, w) := by
          unfold unsettleBet
          rw [hfind]
          simp only
          rw [if_pos hpend]
        rw [hs]
        exact fun _ => ⟨rfl, rfl⟩
      · obtain ⟨adj, hsw⟩ := unsettleSwitch_ok_of_status (hst b (findBet_mem hfind)) hpend
        obtain ⟨w1, h1, -⟩ := unsettleBet_of_allok hw hfind hpend hsw
        rw [h1]
        rintro ⟨e, he⟩
        cases he
  · intro idx b hfind hpend
    obtain ⟨adj, hsw⟩ := unsettleSwitch_ok_of_status (hst b (findBet_mem hfind)) hpend
    obtain ⟨w1, h1, -, h3, -⟩ := unsettleBet_of_allok hw hfind hpend hsw
    exact ⟨_, w1, h1, rfl, h3⟩
  · intro idx b result userReturn r1 w1 hfind hpl hpr his hev hco hok
    obtain ⟨idx1, bet, s, f1, hpend, hsw, -, -, -⟩ := settleBet_ok_inv hok
    rw [hfind] at f1
    simp only [Option.some.injEq, Prod.mk.injEq] at f1
    obtain ⟨rfl, rfl⟩ := f1
    obtain ⟨v1, a1, a2, a3, a4⟩ := settleBet_of_allok hw hfind hpend hsw
    rw [hok] at a1
    simp only [Prod.mk.injEq, Except.ok.injEq] at a1
    obtain ⟨rfl, rfl⟩ := a1
    obtain ⟨hnp, hus⟩ := unsettleSwitch_applySettlement hsw
    have hfind1 : findBet w1.bets betId = some (idx, applySettlement b s) := by
      rw [a3]
      exact findBet_set hfind rfl
    obtain ⟨w2, k1, k2, k3, k4⟩ := unsettleBet_of_allok a4 hfind1 hnp hus
    rw [resetToPending_applySettlement s hpend hpl hpr his hev hco] at k1 k3
    have hbets : w2.bets = w.bets := by
      rw [k3, a3, List.set_set]
      exact list_set_self (findBet_get hfind)
    exact ⟨w2, k1, hbets, fun result1 userReturn1 =>
      settleBet_congr_allok hw k4 hbets betId result1 userReturn1⟩

/-- Witness for C24: in `exWorld` a settle of `exBet` as a win followed by the unsettle
returns `exBet` and gives back the store `[exBet]`. -/
theorem C24_unsettleBet_inverse_witness :
    ∃ r1 w1 w2, settleBet exWorld "AB12C" "win" none = (.ok r1, w1) ∧
      unsettleBet w1 "AB12C" = (.ok exBet, w2) ∧ w2.bets = [exBet] := by
  obtain ⟨w1, h1, -⟩ := settleBet_of_allok (by decide : AllWritesSucceed exWorld)
    (rfl : findBet exWorld.bets "AB12C" = some (0, exBet)) rfl exBet_win_settlement
  obtain ⟨w2, k1, k2, -⟩ :=
    (C24_unsettleBet_inverse exWorld "AB12C" (by decide) (by decide)).2.2.2
      0 exBet "win" none _ w1 rfl rfl rfl rfl rfl rfl h1
  exact ⟨_, w1, w2, h1, k1, k2⟩


/-! ## Theorems: the states reached by successful calls -/

/-- An accepted iteration of the loop of `editBet`, the value being a string or absent. -/
theorem editStepAny_ok_spec {parseFloat : String → Option ℚ} {st st1 : EditState}
    {key : String} {value : Option String}
    (h : editStepAny parseFloat st key value = some (.ok st1)) :
    (st1 = st ∨ st1.changesMade = true) ∧ EditKeeps st.updatedBetData st1.updatedBetData := by
  unfold editStepAny at h
  simp only at h
  by_cases hk : toLowerCase key ∉ allowedFields
  · rw [if_pos hk] at h
    simp at h
  rw [if_neg hk] at h
  cases hp : processValueAny parseFloat (toLowerCase key) value with
  | none => simp [hp] at h
  | some res =>
    cases res with
    | error e => simp [hp] at h
    | ok p =>
      simp only [hp, Option.some.injEq, Except.ok.injEq] at h
      subst h
      exact assignField_spec _ _ _ _

/-- The loop of `editBet` over values that are strings or absent, when it does not throw. -/
theorem editLoopAny_ok_spec {parseFloat : String → Option ℚ} {st st1 : EditState}
    {updates : List (String × Option String)}
    (h : editLoopAny parseFloat st updates = some (.ok st1)) :
    (st1 = st ∨ st1.changesMade = true) ∧ EditKeeps st.updatedBetData st1.updatedBetData := by
  induction updates generalizing st with
  | nil =>
    simp only [editLoopAny, Option.some.injEq, Except.ok.injEq] at h
    subst h
    exact ⟨Or.inl rfl, EditKeeps.refl _⟩
  | cons kv rest ih =>
    obtain ⟨k, v⟩ := kv
    unfold editLoopAny at h
    cases hs : editStepAny parseFloat st k v with
    | none => simp [hs] at h
    | some res =>
      cases res with
      | error e => simp [hs] at h
      | ok st2 =>
        simp only [hs] at h
        obtain ⟨h1, h2⟩ := editStepAny_ok_spec hs
        obtain ⟨h3, h4⟩ := ih h
        refine ⟨?_, h2.trans h4⟩
        rcases h3 with h3 | h3
        · rw [h3]
          exact h1
        · exact Or.inr h3

/-- A successful `editBet`, the values being strings or absent, found a pending bet and
returns a record that keeps the fields no edit touches; either nothing was written or the
record replaced the bet in the store; the bankroll is never touched. -/
theorem editBetAny_ok_inv {parseFloat : String → Option ℚ} {w w1 : World} {betId : String}
    {updates : List (String × Option String)} {r : Bet}
    (h : editBetAny parseFloat w betId updates = some (.ok r, w1)) :
    ∃ idx b, findBet w.bets betId = some (idx, b) ∧ b.status = "pending" ∧ EditKeeps b r ∧
      w1.bankroll = w.bankroll ∧ ((r = b ∧ w1 = w) ∨ w1.bets = w.bets.set idx r) := by
  unfold editBetAny at h
  cases hfind : findBet w.bets betId with
  | none => simp [hfind] at h
  | some p =>
    obtain ⟨idx, b⟩ := p
    simp only [hfind] at h
    by_cases hpend : b.status = "pending"
    swap
    · simp [hpend] at h
    rw [if_neg (not_not.mpr hpend)] at h
    cases hloop : editLoopAny parseFloat { updatedBetData := b, changesMade := false }
        updates with
    | none => simp [hloop] at h
    | some res =>
      cases res with
      | error e => simp [hloop] at h
      | ok st =>
        simp only [hloop] at h
        obtain ⟨h1, h2⟩ := editLoopAny_ok_spec hloop
        by_cases hch : st.changesMade = false
        · rw [if_pos hch] at h
          simp only [Option.some.injEq, Prod.mk.injEq, Except.ok.injEq] at h
          obtain ⟨rfl, rfl⟩ := h
          exact ⟨idx, b, rfl, hpend, EditKeeps.refl _, rfl, Or.inl ⟨rfl, rfl⟩⟩
        · rw [if_neg hch] at h
          generalize hsb : saveBetsData w _ = sb at h
          obtain ⟨e | u, w2⟩ := sb
          · simp at h
          · simp only [Option.some.injEq, Prod.mk.injEq, Except.ok.injEq] at h
            obtain ⟨rfl, rfl⟩ := h
            obtain ⟨k1, k2, -⟩ := saveBetsData_ok_inv hsb
            exact ⟨idx, b, rfl, hpend, h2, k1, Or.inr k2⟩

/-- The settlement fixed by the `switch` of `settleBet`: the credit is the stake plus the
profitLoss, and the status, profitLoss and partialReturn are those of one of the four
outcomes. -/
theorem settleSwitch_ok_shape {b : Bet} {result : String} {userReturn : Option ℚ}
    {s : Settlement} (h : settleSwitch b result userReturn = .ok s) :
    s.bankrollAdjustment = b.stake + s.profitLoss ∧
    ((s.newStatus = "win" ∧ s.partialReturn = b.partialReturn) ∨
      (s.newStatus = "loss" ∧ s.profitLoss = -b.stake ∧ s.partialReturn = b.partialReturn) ∨
      (s.newStatus = "push" ∧ s.profitLoss = 0 ∧ s.partialReturn = b.partialReturn) ∨
      (s.newStatus = "partial-win" ∧ s.partialReturn = some (b.stake + s.profitLoss))) := by
  unfold settleSwitch at h
  split_ifs at h with h1 h2 h3 h4
  · cases ho : b.backOdds with
    | none => simp [ho] at h
    | some o =>
      simp only [ho] at h
      split_ifs at h with h5
      all_goals
        simp only [Except.ok.injEq] at h
        subst h
        exact ⟨rfl, Or.inl ⟨rfl, rfl⟩⟩
  · simp only [Except.ok.injEq] at h
    subst h
    exact ⟨by simp, Or.inr (Or.inl ⟨rfl, rfl, rfl⟩)⟩
  · simp only [Except.ok.injEq] at h
    subst h
    exact ⟨by simp, Or.inr (Or.inr (Or.inl ⟨rfl, rfl, rfl⟩))⟩
  · cases hu : userReturn with
    | none => simp [hu] at h
    | some u =>
      simp only [hu] at h
      split_ifs at h with h5
      all_goals
        simp only [Except.ok.injEq] at h
        subst h
        refine ⟨by simp only; ring, Or.inr (Or.inr (Or.inr ⟨rfl, ?_⟩))⟩
        simp only [Option.some.injEq]
        ring

/-- A well-formed pending record has neither profitLoss nor partialReturn. -/
theorem BetWellFormed.pending {b : Bet} (hb : BetWellFormed b) (hpend : b.status = "pending") :
    b.profitLoss = none ∧ b.partialReturn = none := by
  rcases hb with ⟨-, h2, h3⟩ | ⟨h1, -⟩ | ⟨h1, -⟩ | ⟨h1, -⟩ | ⟨h1, -⟩
  · exact ⟨h2, h3⟩
  all_goals
    rw [hpend] at h1
    exact absurd h1 (by decide)

/-- The properties of a well-formed record with the words of the specification. -/
theorem BetWellFormed.spec {b : Bet} (hb : BetWellFormed b) :
    (b.status = "pending" → b.profitLoss = none ∧ b.partialReturn = none) ∧
    (b.status ∈ ["win", "loss", "push", "partial-win"] → b.profitLoss ≠ none) ∧
    (b.partialReturn ≠ none ↔ b.status = "partial-win") ∧
    b.status ∈ ["pending", "win", "loss", "push", "partial-win"] := by
  refine ⟨fun h => hb.pending h, ?_, ?_, ?_⟩
  · rcases hb with ⟨h1, -, -⟩ | ⟨-, ⟨p, h2⟩, -⟩ | ⟨-, h2, -⟩ | ⟨-, h2, -⟩ | ⟨-, p, h2, -⟩
    · intro hm
      rw [h1] at hm
      exact absurd hm (by decide)
    all_goals
      intro _
      rw [h2]
      simp
  · rcases hb with ⟨h1, -, h3⟩ | ⟨h1, -, h3⟩ | ⟨h1, -, h3⟩ | ⟨h1, -, h3⟩ | ⟨h1, p, -, h3⟩
    · rw [h1, h3]
      exact ⟨fun h => absurd rfl h, fun h => absurd h (by decide)⟩
    · rw [h1, h3]
      exact ⟨fun h => absurd rfl h, fun h => absurd h (by decide)⟩
    · rw [h1, h3]
      exact ⟨fun h => absurd rfl h, fun h => absurd h (by decide)⟩
    · rw [h1, h3]
      exact ⟨fun h => absurd rfl h, fun h => absurd h (by decide)⟩
    · rw [h1, h3]
      exact ⟨fun _ => rfl, fun _ => by simp⟩
  · rcases hb with ⟨h1, -⟩ | ⟨h1, -⟩ | ⟨h1, -⟩ | ⟨h1, -⟩ | ⟨h1, -⟩ <;>
    · rw [h1]
      decide

/-- The record stored by a settle of a well-formed pending bet is well formed. -/
theorem applySettlement_wellFormed {b : Bet} {result : String} {userReturn : Option ℚ}
    {s : Settlement} (hb : BetWellFormed b) (hpend : b.status = "pending")
    (hsw : settleSwitch b result userReturn = .ok s) : BetWellFormed (applySettlement b s) := by
  obtain ⟨hpl, hpr⟩ := hb.pending hpend
  obtain ⟨-, hshape⟩ := settleSwitch_ok_shape hsw
  unfold BetWellFormed applySettlement
  rcases hshape with ⟨h1, h2⟩ | ⟨h1, h2, h3⟩ | ⟨h1, h2, h3⟩ | ⟨h1, h3⟩
  · refine Or.inr (Or.inl ⟨h1, ⟨_, rfl⟩, ?_⟩)
    simp only [h2, hpr]
  · refine Or.inr (Or.inr (Or.inl ⟨h1, ?_, ?_⟩))
    · simp only [h2]
    · simp only [h3, hpr]
  · refine Or.inr (Or.inr (Or.inr (Or.inl ⟨h1, ?_, ?_⟩)))
    · simp only [h2]
    · simp only [h3, hpr]
  · refine Or.inr (Or.inr (Or.inr (Or.inr ⟨h1, s.profitLoss, rfl, ?_⟩)))
    simp only [h3]

/-- On a well-formed settled record the adjustment of `unsettleBet` is the negated sum of the
stake and the stored profitLoss. -/
theorem unsettleSwitch_wellFormed {b : Bet} {adj : Option ℚ} (hb : BetWellFormed b)
    (hnp : b.status ≠ "pending") (h : unsettleSwitch b = .ok adj) :
    adj.getD 0 = -(b.stake + b.profitLoss.getD 0) := by
  unfold unsettleSwitch at h
  rcases hb with ⟨h1, -⟩ | ⟨h1, ⟨p, h2⟩, -⟩ | ⟨h1, h2, -⟩ | ⟨h1, h2, -⟩ | ⟨h1, p, h2, h3⟩
  · exact absurd h1 hnp
  · simp only [h1, if_true, h2, Option.map_some', Except.ok.injEq] at h
    subst h
    simp [h2]
  · have e1 : ¬ ("loss" = "win") := by decide
    simp only [h1, if_neg e1, if_true, Except.ok.injEq] at h
    subst h
    simp [h2]
  · have e1 : ¬ ("push" = "win") := by decide
    have e2 : ¬ ("push" = "loss") := by decide
    simp only [h1, if_neg e1, if_neg e2, if_true, Except.ok.injEq] at h
    subst h
    simp [h2]
  · have e1 : ¬ ("partial-win" = "win") := by decide
    have e2 : ¬ ("partial-win" = "loss") := by decide
    have e3 : ¬ ("partial-win" = "push") := by decide
    simp only [h1, if_neg e1, if_neg e2, if_neg e3, if_true, h3, Except.ok.injEq] at h
    subst h
    simp [h2]

/-- Appending a pending record adds its stake to the sum of the pending stakes and leaves the
sum of the settled profitLoss as it is. -/
theorem ledger_sums_append {bets : List Bet} {r : Bet} (hr : r.status = "pending") :
    pendingStakes (bets ++ [r]) = pendingStakes bets + r.stake ∧
      settledProfitLoss (bets ++ [r]) = settledProfitLoss bets := by
  unfold pendingStakes settledProfitLoss
  simp [List.filter_append, hr]

/-- One successful call keeps every record of the store well formed, and keeps the conservation
equation when it is not an edit. -/
theorem Call.run_ok_step {c : Call} {w w1 : World} {r : Bet} (B0 : ℚ)
    (hwf : ∀ b ∈ w.bets, BetWellFormed b) (h : c.run w = some (.ok r, w1)) :
    (∀ b ∈ w1.bets, BetWellFormed b) ∧
      (c.isEdit = false → LedgerConserved B0 w → LedgerConserved B0 w1) := by
  cases c with
  | finalize betInput finalStake cands now =>
    simp only [Call.run, Option.some.injEq] at h
    obtain ⟨-, h2, h3, h4, h5, h6, h7⟩ := finalizeNewBet_ok_inv h
    constructor
    · intro b hb
      rw [h2, List.mem_append, List.mem_singleton] at hb
      rcases hb with hb | rfl
      · exact hwf b hb
      · exact Or.inl ⟨h5, h6, h7⟩
    · intro _ hl
      obtain ⟨k1, k2⟩ := @ledger_sums_append w.bets r h5
      unfold LedgerConserved at hl ⊢
      rw [h2, k1, k2, h3, hl, h4]
      ring
  | edit parseFloat betId updates =>
    simp only [Call.run] at h
    obtain ⟨idx, b, hf, hpend, hk, -, hcase⟩ := editBetAny_ok_inv h
    refine ⟨?_, fun hne => by simp [Call.isEdit] at hne⟩
    obtain ⟨hpl, hpr⟩ := (hwf b (findBet_mem hf)).pending hpend
    obtain ⟨-, k2, -, k4, k5, -, -⟩ := hk
    rcases hcase with ⟨-, rfl⟩ | hset
    · exact hwf
    · intro x hx
      rw [hset] at hx
      rcases List.mem_or_eq_of_mem_set hx with hx | rfl
      · exact hwf x hx
      · exact Or.inl ⟨k2.trans hpend, k4.trans hpl, k5.trans hpr⟩
  | settle betId result userReturn =>
    simp only [Call.run, Option.some.injEq] at h
    obtain ⟨idx, b, s, hf, hpend, hsw, hr, hbank, hset⟩ := settleBet_ok_inv h
    have hb := hwf b (findBet_mem hf)
    have hrwf : BetWellFormed r := by
      rw [hr]
      exact applySettlement_wellFormed hb hpend hsw
    constructor
    · intro x hx
      rw [hset] at hx
      rcases List.mem_or_eq_of_mem_set hx with hx | rfl
      · exact hwf x hx
      · exact hrwf
    · intro _ hl
      obtain ⟨k1, k2⟩ := ledger_sums_set r (findBet_get hf)
      obtain ⟨hadj, -⟩ := settleSwitch_ok_shape hsw
      have hnp : r.status ≠ "pending" := by
        rw [hr]
        exact (unsettleSwitch_applySettlement hsw).1
      have hrpl : r.profitLoss = some s.profitLoss := by
        rw [hr]
        rfl
      unfold LedgerConserved at hl ⊢
      rw [hset, k1, k2, hbank, hl, hadj, if_pos hpend, if_neg hnp, if_pos hpend, if_neg hnp,
        hrpl]
      simp only [Option.getD_some]
      ring
  | unsettle betId =>
    simp only [Call.run, Option.some.injEq] at h
    obtain ⟨idx, b, adj, hf, hnp, hsw, hr, hbank, hset⟩ := unsettleBet_ok_inv h
    have hb := hwf b (findBet_mem hf)
    have hrp : r.status = "pending" := by
      rw [hr]
      rfl
    constructor
    · intro x hx
      rw [hset] at hx
      rcases List.mem_or_eq_of_mem_set hx with hx | rfl
      · exact hwf x hx
      · rw [hr]
        exact Or.inl ⟨rfl, rfl, rfl⟩
    · intro _ hl
      obtain ⟨k1, k2⟩ := ledger_sums_set r (findBet_get hf)
      have hadj := unsettleSwitch_wellFormed hb hnp hsw
      have hrs : r.stake = b.stake := by
        rw [hr]
        rfl
      unfold LedgerConserved at hl ⊢
      rw [hset, k1, k2, hbank, hl, hadj, if_neg hnp, if_pos hrp, if_neg hnp, if_pos hrp, hrs]
      ring

/-- Every state reached by successful calls from a store of well-formed records holds
well-formed records only, and satisfies the conservation equation when the start does and no
call is an edit. -/
theorem runCalls_invariant (B0 : ℚ) (calls : List Call) :
    ∀ w w1 : World, (∀ b ∈ w.bets, BetWellFormed b) → runCalls w calls = some w1 →
      (∀ b ∈ w1.bets, BetWellFormed b) ∧
        ((∀ c ∈ calls, c.isEdit = false) → LedgerConserved B0 w → LedgerConserved B0 w1) := by
  induction calls with
  | nil =>
    intro w w1 hwf h
    simp only [runCalls, Option.some.injEq] at h
    subst h
    exact ⟨hwf, fun _ hl => hl⟩
  | cons c rest ih =>
    intro w w1 hwf h
    unfold runCalls at h
    cases hc : c.run w with
    | none => simp [hc] at h
    | some res =>
      obtain ⟨e | r, w2⟩ := res
      · simp [hc] at h
      · simp only [hc] at h
        obtain ⟨s1, s2⟩ := Call.run_ok_step B0 hwf hc
        obtain ⟨t1, t2⟩ := ih w2 w1 s1 h
        exact ⟨t1, fun hne hl =>
          t2 (fun c1 hc1 => hne c1 (List.mem_cons_of_mem _ hc1))
            (s2 (hne c (List.mem_cons_self _ _)) hl)⟩

/-- Claim C25. In every state reached from an empty bet store by successful `finalizeNewBet`,
`editBet`, `settleBet` and `unsettleBet` calls, every bet with status `pending` has neither
profitLoss nor partialReturn, every settled bet (win, loss, push, partial-win) has a
profitLoss, a bet has a partialReturn if and only if its status is `partial-win`, and every
status is one of the five. -/
theorem C25_reachable_records (bankroll : ℚ) (writes : List Bool) (calls : List Call)
    (w : World)
    (h : runCalls { bankroll := bankroll, bets := [], writes := writes } calls = some w) :
    ∀ b ∈ w.bets,
      (b.status = "pending" → b.profitLoss = none ∧ b.partialReturn = none) ∧
      (b.status ∈ ["win", "loss", "push", "partial-win"] → b.profitLoss ≠ none) ∧
      (b.partialReturn ≠ none ↔ b.status = "partial-win") ∧
      b.status ∈ ["pending", "win", "loss", "push", "partial-win"] := by
  intro b hb
  exact ((runCalls_invariant 0 calls _ w (by simp) h).1 b hb).spec

/-- Claim C28. Ledger conservation: in every state reached from an empty bet store and the
initial bankroll `B0` by successful `finalizeNewBet`, `settleBet` and `unsettleBet` calls (no
edits), the bankroll equals `B0` minus the sum of the stakes of all pending bets plus the sum
of the profitLoss over all settled bets, in exact arithmetic. -/
theorem C28_ledger_conservation (B0 : ℚ) (writes : List Bool) (calls : List Call) (w : World)
    (hne : ∀ c ∈ calls, c.isEdit = false)
    (h : runCalls { bankroll := B0, bets := [], writes := writes } calls = some w) :
    w.bankroll = B0 - pendingStakes w.bets + settledProfitLoss w.bets :=
  (runCalls_invariant B0 calls _ w (by simp) h).2 hne
    (by simp [LedgerConserved, pendingStakes, settledProfitLoss])

/-- Witness for C25: the sequence `exCallsWithEdit` (place, edit the stake, settle as a push,
unsettle, settle as a loss) succeeds from the empty store and leaves one record with status
`loss`, a profitLoss and no partialReturn. -/
theorem C25_reachable_records_witness :
    ∃ w b, runCalls exStart exCallsWithEdit = some w ∧ w.bets = [b] ∧ b.status = "loss" ∧
      b.profitLoss ≠ none ∧ b.partialReturn = none := by
  have h : runCalls exStart exCallsWithEdit =
      some { bankroll := 3000 - 25 + 150 + -150,
             bets :=
               [{ exBetPlaced with stake := 150, status := "loss", profitLoss := some (-150) }],
             writes := [] } := rfl
  have hc := C25_reachable_records 3000 [] exCallsWithEdit _ h _ (List.mem_singleton.mpr rfl)
  refine ⟨_, _, h, rfl, rfl, hc.2.1 (by decide), ?_⟩
  by_contra hpr
  exact absurd (hc.2.2.1.mp hpr) (by decide)

/-- Witness for C28: the sequence `exCalls` (place with stake 25, settle as a loss) succeeds
from the empty store with bankroll 3000 and ends with the bankroll 2975, which is 3000 minus
the pending stakes plus the settled profitLoss. -/
theorem C28_ledger_conservation_witness :
    ∃ w, runCalls exStart exCalls = some w ∧ w.bankroll = 2975 ∧
      w.bankroll = 3000 - pendingStakes w.bets + settledProfitLoss w.bets := by
  have h : runCalls exStart exCalls =
      some { bankroll := 3000 - 25,
             bets := [{ exBetPlaced with status := "loss", profitLoss := some (-25) }],
             writes := [] } := rfl
  exact ⟨_, h, by norm_num, C28_ledger_conservation 3000 [] exCalls _ (by decide) h⟩


/-! ## Theorems: initNewBet -/

/-- The text of the error for invalid odds is not empty. -/
theorem invalidOddsMessage_ne_empty (render : Option ℚ → String) (betInput : BetInput) :
    invalidOddsMessage render betInput ≠ "" := by
  intro h
  have h1 := congrArg String.length h
  have h2 : "Invalid odds (Back: ".length ≠ 0 := by decide
  simp only [invalidOddsMessage, String.length_append] at h1
  have h3 : "".length = 0 := rfl
  rw [h3] at h1
  omega

/-- The stake and the error fixed by `initNewBet`: the Kelly stake and no error for odds that
are both numbers > 1, the stake 0 and a non-empty error text otherwise. -/
theorem initStake_spec (render : Option ℚ → String) (w : World) (betInput : BetInput) :
    (∃ bo fo, betInput.backOdds = some bo ∧ betInput.fairOdds = some fo ∧ 1 < bo ∧ 1 < fo ∧
        initStake render w betInput = (calculateKellyStake w.bankroll bo fo, none)) ∨
      ((¬ ∃ bo fo, betInput.backOdds = some bo ∧ betInput.fairOdds = some fo ∧
          1 < bo ∧ 1 < fo) ∧
        ∃ e, e ≠ "" ∧ initStake render w betInput = (0, some e)) := by
  have hm := invalidOddsMessage_ne_empty render betInput
  unfold initStake
  cases hbo : betInput.backOdds with
  | none =>
    refine Or.inr ⟨?_, _, hm, rfl⟩
    rintro ⟨bo, fo, h1, -⟩
    cases h1
  | some bo =>
    cases hfo : betInput.fairOdds with
    | none =>
      refine Or.inr ⟨?_, _, hm, rfl⟩
      rintro ⟨bo1, fo, -, h1, -⟩
      cases h1
    | some fo =>
      by_cases hv : bo ≤ 1 ∨ fo ≤ 1
      · refine Or.inr ⟨?_, _, hm, ?_⟩
        · rintro ⟨bo1, fo1, h1, h2, h3, h4⟩
          cases h1
          cases h2
          rcases hv with hv | hv
          · exact absurd h3 (not_lt.mpr hv)
          · exact absurd h4 (not_lt.mpr hv)
        · simp only [if_pos hv]
      · have hv1 := hv
        rw [not_or, not_le, not_le] at hv1
        refine Or.inl ⟨bo, fo, rfl, rfl, hv1.1, hv1.2, ?_⟩
        simp only [if_neg hv, getCurrentBankroll]

/-- The fields of the input after the error was attached. -/
theorem attachError_spec (betInput : BetInput) (e : Option String) :
    (attachError betInput e).bookmaker = betInput.bookmaker ∧
      (attachError betInput e).sport = betInput.sport ∧
      (attachError betInput e).betName = betInput.betName ∧
      (attachError betInput e).backOdds = betInput.backOdds ∧
      (attachError betInput e).fairOdds = betInput.fairOdds ∧
      (attachError betInput none).calculationError = betInput.calculationError ∧
      (∀ s, s ≠ "" → (attachError betInput (some s)).calculationError = some s) := by
  have hfields : (attachError betInput e).bookmaker = betInput.bookmaker ∧
      (attachError betInput e).sport = betInput.sport ∧
      (attachError betInput e).betName = betInput.betName ∧
      (attachError betInput e).backOdds = betInput.backOdds ∧
      (attachError betInput e).fairOdds = betInput.fairOdds := by
    unfold attachError
    cases e with
    | none => exact ⟨rfl, rfl, rfl, rfl, rfl⟩
    | some s =>
      by_cases hs : s ≠ ""
      · simp only [if_pos hs]
        exact ⟨trivial, trivial, trivial, trivial, trivial⟩
      · simp only [if_neg hs]
        exact ⟨trivial, trivial, trivial, trivial, trivial⟩
  obtain ⟨h1, h2, h3, h4, h5⟩ := hfields
  refine ⟨h1, h2, h3, h4, h5, rfl, ?_⟩
  intro s hs
  unfold attachError
  simp only [if_pos hs]

/-- The fields of the input after the commission was stored or deleted. -/
theorem storeCommission_spec (betInput : BetInput) (commission : Option ℚ) :
    (storeCommission betInput commission).bookmaker = betInput.bookmaker ∧
      (storeCommission betInput commission).sport = betInput.sport ∧
      (storeCommission betInput commission).betName = betInput.betName ∧
      (storeCommission betInput commission).backOdds = betInput.backOdds ∧
      (storeCommission betInput commission).fairOdds = betInput.fairOdds ∧
      (storeCommission betInput commission).calculationError = betInput.calculationError ∧
      ((∃ c, commission = some c ∧ 0 ≤ c ∧ c ≤ 100 ∧
          (storeCommission betInput commission).commission = some c) ∨
        ((¬ ∃ c, commission = some c ∧ 0 ≤ c ∧ c ≤ 100) ∧
          (storeCommission betInput commission).commission = none)) := by
  cases commission with
  | none =>
    refine ⟨rfl, rfl, rfl, rfl, rfl, rfl, Or.inr ⟨?_, rfl⟩⟩
    rintro ⟨c, h1, -⟩
    cases h1
  | some c =>
    by_cases hc : c ≥ 0 ∧ c ≤ 100
    · have hsc : storeCommission betInput (some c) = { betInput with commission := some c } := by
        show (if c ≥ 0 ∧ c ≤ 100 then _ else _) = _
        rw [if_pos hc]
      rw [hsc]
      exact ⟨rfl, rfl, rfl, rfl, rfl, rfl, Or.inl ⟨c, rfl, hc.1, hc.2, rfl⟩⟩
    · have hsc : storeCommission betInput (some c) = { betInput with commission := none } := by
        show (if c ≥ 0 ∧ c ≤ 100 then _ else _) = _
        rw [if_neg hc]
      rw [hsc]
      refine ⟨rfl, rfl, rfl, rfl, rfl, rfl, Or.inr ⟨?_, rfl⟩⟩
      rintro ⟨c1, h1, h2, h3⟩
      cases h1
      exact hc ⟨h2, h3⟩

/-- Claim C26. The function `initNewBet(betInput, commission)` never throws and returns the
state as it was: when backOdds and fairOdds are both numbers > 1 the recommended stake is
`calculateKellyStake` of the current bankroll and the two odds, and the calculationError of
the input is left as it was (none is attached); otherwise the recommended stake is 0 and the
returned input carries a calculationError; the returned input carries the supplied commission
when that is a number in [0, 100] and no commission otherwise; the other fields are those of
the input. -/
theorem C26_initNewBet (render : Option ℚ → String) (w : World) (betInput : BetInput)
    (commission : Option ℚ) :
    ∃ res, initNewBet render w betInput commission = (.ok res, w) ∧
      ((∃ bo fo, betInput.backOdds = some bo ∧ betInput.fairOdds = some fo ∧ 1 < bo ∧ 1 < fo ∧
          res.recommendedStake = calculateKellyStake w.bankroll bo fo ∧
          res.finalBetInput.calculationError = betInput.calculationError) ∨
        ((¬ ∃ bo fo, betInput.backOdds = some bo ∧ betInput.fairOdds = some fo ∧
            1 < bo ∧ 1 < fo) ∧
          res.recommendedStake = 0 ∧
          ∃ e, res.finalBetInput.calculationError = some e ∧ e ≠ "")) ∧
      ((∃ c, commission = some c ∧ 0 ≤ c ∧ c ≤ 100 ∧ res.finalBetInput.commission = some c) ∨
        ((¬ ∃ c, commission = some c ∧ 0 ≤ c ∧ c ≤ 100) ∧
          res.finalBetInput.commission = none)) ∧
      res.finalBetInput.bookmaker = betInput.bookmaker ∧
      res.finalBetInput.sport = betInput.sport ∧
      res.finalBetInput.betName = betInput.betName ∧
      res.finalBetInput.backOdds = betInput.backOdds ∧
      res.finalBetInput.fairOdds = betInput.fairOdds := by
  refine ⟨_, rfl, ?_, ?_, ?_⟩
  · simp only
    obtain ⟨-, -, -, -, -, c6, -⟩ :=
      storeCommission_spec (attachError betInput (initStake render w betInput).2) commission
    rw [c6]
    rcases initStake_spec render w betInput with ⟨bo, fo, h1, h2, h3, h4, h5⟩ | ⟨h1, e, h2, h3⟩
    · refine Or.inl ⟨bo, fo, h1, h2, h3, h4, ?_, ?_⟩
      · rw [h5]
      · rw [h5]
        rfl
    · refine Or.inr ⟨h1, ?_, e, ?_, h2⟩
      · rw [h3]
      · rw [h3]
        exact (attachError_spec betInput none).2.2.2.2.2.2 e h2
  · exact (storeCommission_spec _ commission).2.2.2.2.2.2
  · obtain ⟨c1, c2, c3, c4, c5, -, -⟩ :=
      storeCommission_spec (attachError betInput (initStake render w betInput).2) commission
    obtain ⟨a1, a2, a3, a4, a5, -, -⟩ :=
      attachError_spec betInput (initStake render w betInput).2
    exact ⟨c1.trans a1, c2.trans a2, c3.trans a3, c4.trans a4, c5.trans a5⟩

/-! ## Theorems: the statistics -/

/-- The loop of `getBasicStats` adds the stake of every bet to `totalStake`. -/
theorem statsStep_totalStake (acc : StatsAcc) (bet : Bet) :
    (statsStep acc bet).totalStake = acc.totalStake + bet.stake := by
  unfold statsStep
  simp only
  split_ifs <;> rfl

theorem foldl_statsStep_totalStake (bets : List Bet) (acc : StatsAcc) :
    (bets.foldl statsStep acc).totalStake = acc.totalStake + (bets.map (fun b => b.stake)).sum := by
  induction bets generalizing acc with
  | nil => simp
  | cons b rest ih =>
    rw [List.foldl_cons, ih, statsStep_totalStake, List.map_cons, List.sum_cons]
    ring

/-- The loop of `getBasicStats` adds the stored profitLoss of a bet that carries it as
`settleBet` stores it. -/
theorem statsStep_totalProfitLoss (acc : StatsAcc) {bet : Bet}
    (h : ((bet.status = "win" ∨ bet.status = "loss" ∨ bet.status = "partial-win") ∧
        ∃ p, bet.profitLoss = some p) ∨ (bet.status = "push" ∧ bet.profitLoss = some 0)) :
    (statsStep acc bet).totalProfitLoss = acc.totalProfitLoss + bet.profitLoss.getD 0 := by
  have e1 : ¬ ("loss" = "win") := by decide
  have e2 : ¬ ("push" = "win") := by decide
  have e3 : ¬ ("push" = "loss") := by decide
  have e4 : ¬ ("partial-win" = "win") := by decide
  have e5 : ¬ ("partial-win" = "loss") := by decide
  have e6 : ¬ ("partial-win" = "push") := by decide
  unfold statsStep
  rcases h with ⟨h1 | h1 | h1, p, hp⟩ | ⟨h1, hp⟩
  · simp [h1, hp]
  · simp [h1, hp, e1]
  · simp [h1, hp, e4, e5, e6]
  · simp [h1, hp, e2, e3]

theorem foldl_statsStep_totalProfitLoss (bets : List Bet) (acc : StatsAcc)
    (h : ∀ bet ∈ bets,
      ((bet.status = "win" ∨ bet.status = "loss" ∨ bet.status = "partial-win") ∧
        ∃ p, bet.profitLoss = some p) ∨ (bet.status = "push" ∧ bet.profitLoss = some 0)) :
    (bets.foldl statsStep acc).totalProfitLoss =
      acc.totalProfitLoss + (bets.map (fun b => b.profitLoss.getD 0)).sum := by
  induction bets generalizing acc with
  | nil => simp
  | cons b rest ih =>
    rw [List.foldl_cons, ih _ (fun x hx => h x (List.mem_cons_of_mem _ hx)),
      statsStep_totalProfitLoss acc (h b (List.mem_cons_self _ _)), List.map_cons,
      List.sum_cons]
    ring

/-- Claim C27. For every bet store and filter in which every filtered settled bet carries its
profitLoss as `settleBet` stores it (a profitLoss for win, loss and partial-win, the
profitLoss 0 for push), `getBasicStats` returns totalProfitLoss equal to the sum of the stored
profitLoss of the filtered settled bets, and ROI equal to totalProfitLoss divided by the total
stake of those bets when that total is positive and 0 otherwise, which is the case when there
are no settled bets; with positive stakes the total is positive as soon as there is a settled
bet; the call returns the state as it was. -/
theorem C27_getBasicStats (clk : Clock) (w : World) (f : StatsFilter)
    (h : ∀ bet ∈ settledBets clk f w.bets,
      ((bet.status = "win" ∨ bet.status = "loss" ∨ bet.status = "partial-win") ∧
        ∃ p, bet.profitLoss = some p) ∨ (bet.status = "push" ∧ bet.profitLoss = some 0)) :
    (getBasicStats clk w f).2 = w ∧
    (∀ bet ∈ settledBets clk f w.bets, bet ∈ w.bets ∧ bet.status ≠ "pending") ∧
    (getBasicStats clk w f).1.totalProfitLoss =
      ((settledBets clk f w.bets).map (fun b => b.profitLoss.getD 0)).sum ∧
    (getBasicStats clk w f).1.ROI =
      (if ((settledBets clk f w.bets).map (fun b => b.stake)).sum > 0 then
        (getBasicStats clk w f).1.totalProfitLoss /
          ((settledBets clk f w.bets).map (fun b => b.stake)).sum
       else 0) ∧
    (settledBets clk f w.bets = [] → (getBasicStats clk w f).1.ROI = 0) ∧
    ((∀ bet ∈ settledBets clk f w.bets, 0 < bet.stake) → settledBets clk f w.bets ≠ [] →
      0 < ((settledBets clk f w.bets).map (fun b => b.stake)).sum) := by
  have hs := foldl_statsStep_totalStake (settledBets clk f w.bets) {}
  have hp := foldl_statsStep_totalProfitLoss (settledBets clk f w.bets) {} h
  simp only [zero_add] at hs hp
  refine ⟨rfl, ?_, ?_, ?_, ?_, ?_⟩
  · intro bet hb
    unfold settledBets at hb
    rw [List.mem_filter] at hb
    refine ⟨?_, by simpa using hb.2⟩
    have hsub : ∀ l : List Bet, ∀ x ∈ filterBets clk f l, x ∈ l := by
      intro l x hx
      unfold filterBets filterByTime at hx
      simp only at hx
      repeat' split at hx
      all_goals
        try simp only [List.mem_filter] at hx
        tauto
    exact hsub _ _ hb.1
  · simp only [getBasicStats]
    exact hp
  · simp only [getBasicStats]
    rw [hs, hp]
  · intro he
    simp only [getBasicStats]
    rw [hs, he]
    simp
  · intro hpos hne
    cases hl : settledBets clk f w.bets with
    | nil => exact absurd hl hne
    | cons b rest =>
      rw [hl] at hpos
      rw [List.map_cons, List.sum_cons]
      have h1 : 0 < b.stake := hpos b (List.mem_cons_self _ _)
      have h2 : 0 ≤ (rest.map (fun b => b.stake)).sum :=
        List.sum_nonneg (by
          intro x hx
          rw [List.mem_map] at hx
          obtain ⟨y, hy, rfl⟩ := hx
          exact le_of_lt (hpos y (List.mem_cons_of_mem _ hy)))
      linarith

/-- Witness for C27: in `exWorldStats` (the win `exBetWon` with stake 100 and profitLoss 90,
and a pending bet) the statistics without a filter give totalProfitLoss 90 and ROI 9/10. -/
theorem C27_getBasicStats_witness :
    (getBasicStats exClock exWorldStats {}).1.totalProfitLoss = 90 ∧
      (getBasicStats exClock exWorldStats {}).1.ROI = 9 / 10 ∧
      (getBasicStats exClock exWorldStats {}).1.totalBets = 2 := by
  have hsb : settledBets exClock {} exWorldStats.bets = [exBetWon] := rfl
  have h := C27_getBasicStats exClock exWorldStats {} (by
    rw [hsb]
    intro bet hb
    rw [List.mem_singleton] at hb
    subst hb
    exact Or.inl ⟨Or.inl rfl, 90, rfl⟩)
  obtain ⟨-, -, h3, h4, -, -⟩ := h
  rw [hsb] at h3 h4
  have h5 : (getBasicStats exClock exWorldStats {}).1.totalProfitLoss = 90 := by
    rw [h3]
    simp [exBetWon]
  refine ⟨h5, ?_, rfl⟩
  rw [h4, h5]
  norm_num [exBetWon, exBet]

end DCBot
